import Mathlib

/-!
# Proof-of-stake kernel validation (src/pos/kernel.cpp)

A shallow embedding of the kernel-validity decision of the node:
`ComputeStakeModifierV2`, `CheckStakeKernelHash`, `IsConfirmedInNPrevBlocks`,
`CheckAge`, `CheckProofOfStake`, `CheckCoinStakeTimestamp` and `CheckKernel`.

Conventions of the embedding.

* A `uint256` / `arith_uint256` is the natural number it denotes; every
  arithmetic result is reduced modulo `2^256` where the C++ type would wrap.
* `uint32_t` values are naturals, `int`, `int64_t` and `CAmount` values are
  integers.  Conversions between widths are written out (`castInt`,
  `castUint32`, `castUint64`).
* A `const CBlockIndex *` is the list of index entries reached by following
  `pprev`: the empty list is `nullptr`, and `e :: p` is a pointer to the
  entry `e` whose `pprev` is `p`.
* A function whose C++ execution may be undefined (a null pointer is
  dereferenced, a signed `CAmount` addition overflows) returns `Option`:
  `none` is undefined behaviour, `some r` is a normal return.
* Everything kernel.cpp calls but does not define (hashing, stream
  serialisation, compact target decoding, the coin set, the transaction
  index, the active chain, the script interpreter, the chain parameters) is
  a field of `Env`, so every theorem holds for every implementation of those
  collaborators.
-/

namespace Falcon

/-! ## Data model -/

/-- Bytes of a script (`CScript`). -/
abbrev CScript := List Nat

/-- Output reference `COutPoint`: transaction id and output index. -/
structure COutPoint where
  hash : Nat
  n : Nat
deriving DecidableEq, Repr

/-- Transaction input `CTxIn`. -/
structure CTxIn where
  prevout : COutPoint
  scriptSig : CScript
  scriptWitness : List (List Nat)
deriving DecidableEq, Repr

/-- Output type tags (`OutputTypes`). -/
inductive OutputType where
  | OUTPUT_NULL
  | OUTPUT_STANDARD
  | OUTPUT_CT
  | OUTPUT_RINGCT
  | OUTPUT_DATA
deriving DecidableEq, Repr

/-- Transaction output `CTxOutBase` with its concrete classes: a standard
output carries a value and a locking script, a data output carries bytes,
a blinded output (`OUTPUT_CT`, `OUTPUT_RINGCT`) carries neither in the
clear. -/
inductive CTxOutBase where
  | standard (nValue : Int) (scriptPubKey : CScript)
  | data (vData : List Nat)
  | blind (ringct : Bool)
deriving DecidableEq, Repr

/-- Type tag of an output (`nVersion`). -/
def CTxOutBase.nVersion : CTxOutBase → OutputType
  | .standard _ _ => .OUTPUT_STANDARD
  | .data _ => .OUTPUT_DATA
  | .blind false => .OUTPUT_CT
  | .blind true => .OUTPUT_RINGCT

/-- `txout->IsType(t)`. -/
def CTxOutBase.IsType (o : CTxOutBase) (t : OutputType) : Bool :=
  decide (o.nVersion = t)

/-- Transaction `CTransaction`: inputs and outputs (`vin`, `vpout`) and the
transaction type read by `IsCoinStake`. -/
structure CTransaction where
  vin : List CTxIn
  vpout : List CTxOutBase
  nType : Nat
deriving DecidableEq, Repr

/-- The plain output `CTxOut` stored in a coin. -/
structure CTxOut where
  nValue : Int
  scriptPubKey : CScript
deriving DecidableEq, Repr

/-- Entry of the coin set (`Coin`): the output, its type, the height of the
block that created it and whether it is spent (`IsSpent`). -/
structure Coin where
  out : CTxOut
  nType : OutputType
  nHeight : Nat
  spent : Bool
deriving DecidableEq, Repr

/-- One block index entry (`CBlockIndex` without its `pprev` link). -/
structure BlockEntry where
  nHeight : Int
  nTime : Nat
  bnStakeModifier : Nat
  hashBlock : Nat
deriving DecidableEq, Repr

/-- Pointer `const CBlockIndex *`: the entries reached through `pprev`,
nearest first; `[]` is `nullptr`. -/
abbrev CBlockIndex := List BlockEntry

/-- Block header returned by the historical lookup (`CBlock blockKernel`):
its time and its hash. -/
structure CBlock where
  nTime : Nat
  hash : Nat
deriving DecidableEq, Repr

/-- Local `CValidationState` after `state.DoS(level, ..., reason)`. -/
structure CValidationState where
  nDoS : Nat
  strRejectReason : String
deriving DecidableEq, Repr

/-- Collaborators of kernel.cpp that are defined elsewhere. -/
structure Env where
  /-- Value of `Hash(begin, end)` over a byte string, read as a 256-bit number. -/
  Hash : List Nat → Nat
  /-- Bytes that `ss << v` appends to a `CDataStream` for a `uint256` v. -/
  ser256 : Nat → List Nat
  /-- Bytes that `ss << v` appends to a `CDataStream` for a `uint32_t` v. -/
  ser32 : Nat → List Nat
  /-- Result of `arith_uint256::SetCompact(nBits, &fNegative, &fOverflow)`:
  decoded value, `fNegative`, `fOverflow`. -/
  SetCompact : Nat → Nat × Bool × Bool
  /-- Lookup `pcoinsTip->GetCoin(outpoint, coin)`: `none` when it returns false. -/
  GetCoin : COutPoint → Option Coin
  /-- Lookup `GetTransaction(txid, txPrev, consensus, block, true)`: the
  transaction and the header of its block, `none` when it returns false. -/
  GetTransaction : Nat → Option (CTransaction × CBlock)
  /-- Entry `chainActive[nHeight]`. -/
  chainActive : Nat → CBlockIndex
  /-- Value of `Params().GetStakeMinConfirmations()` (a `size_t`). -/
  nStakeMinConfirmations : Nat
  /-- Value of `Params().GetStakeTimestampMask(nHeight)`. -/
  GetStakeTimestampMask : Int → Nat
  /-- Result of `tx.IsCoinStake()`. -/
  IsCoinStake : CTransaction → Bool
  /-- Result of `HasIsCoinstakeOp(script)`. -/
  HasIsCoinstakeOp : CScript → Bool
  /-- Result of `VerifyScript(scriptSig, scriptPubKey, witness, flags,
  TransactionSignatureChecker(&tx, nIn, vchAmount), &serror)`. -/
  VerifyScript : CScript → CScript → List (List Nat) → CTransaction → Nat → List Nat → Bool
  /-- Result of `LogAcceptCategory(BCLog::POS)`. -/
  LogAcceptCategory : Bool

/-! ## Integer conversions and serialisation -/

/-- Conversion to `int` (32 bits, two's complement). -/
def castInt (x : Int) : Int :=
  let m := x % 4294967296
  if m < 2147483648 then m else m - 4294967296

/-- Conversion to `uint32_t`. -/
def castUint32 (x : Int) : Nat := (x % 4294967296).toNat

/-- Conversion to `uint64_t`. -/
def castUint64 (x : Int) : Nat := (x % 18446744073709551616).toNat

/-- The first `k` little-endian bytes of `v`. -/
def leBytes : Nat → Nat → List Nat
  | 0, _ => []
  | k + 1, v => v % 256 :: leBytes k (v / 256)

/-- Range of `int64_t`. -/
def inInt64 (x : Int) : Bool :=
  decide (-9223372036854775808 ≤ x) && decide (x ≤ 9223372036854775807)

/-- Signed `CAmount` addition `a += b`; overflow is undefined behaviour. -/
def addAmount (a b : Int) : Option Int :=
  if inInt64 (a + b) then some (a + b) else none

/-! ## ComputeStakeModifierV2 and CheckStakeKernelHash -/

/-- Translation of `ComputeStakeModifierV2` (kernel.cpp lines 30-38). -/
def ComputeStakeModifierV2 (env : Env) (pindexPrev : CBlockIndex) (kernel : Nat) : Nat :=
  match pindexPrev with
  | [] => 0
  | prev :: _ => env.Hash (env.ser256 kernel ++ env.ser256 prev.bnStakeModifier)

/-- What `CheckStakeKernelHash` leaves behind: its return value and the two
reference parameters. -/
structure KernelResult where
  ret : Bool
  hashProofOfStake : Nat
  targetProofOfStake : Nat
deriving DecidableEq, Repr

/-- Translation of `CheckStakeKernelHash` (kernel.cpp lines 63-125).
`hashProofOfStake` and `targetProofOfStake` are the values the reference
parameters hold on entry.  The result is `none` when the null `pindexPrev`
is dereferenced at line 89.  The log statements of lines 98-107 and 113-122
write to the log only, so `fPrintProofOfStake` and the log category do not
enter the result. -/
def CheckStakeKernelHash (env : Env) (pindexPrev : CBlockIndex)
    (nBits nBlockFromTime : Nat) (prevOutAmount : Int) (prevout : COutPoint) (nTime : Nat)
    (hashProofOfStake targetProofOfStake : Nat) (fPrintProofOfStake : Bool) :
    Option KernelResult :=
  if nTime < nBlockFromTime then
    some ⟨false, hashProofOfStake, targetProofOfStake⟩
  else
    let decoded := env.SetCompact nBits
    let bnTarget := decoded.1
    let fNegative := decoded.2.1
    let fOverflow := decoded.2.2
    if fNegative || fOverflow || bnTarget == 0 then
      some ⟨false, hashProofOfStake, targetProofOfStake⟩
    else
      let nValueIn := prevOutAmount
      let bnWeight := castUint64 nValueIn
      let bnTarget := (bnTarget * bnWeight) % 2 ^ 256
      let targetProofOfStake := bnTarget
      match pindexPrev with
      | [] => none
      | prev :: _ =>
        let bnStakeModifier := prev.bnStakeModifier
        let hashProofOfStake := env.Hash
          (env.ser256 bnStakeModifier ++ (env.ser32 nBlockFromTime ++ env.ser256 prevout.hash
            ++ env.ser32 prevout.n ++ env.ser32 nTime))
        -- lines 98-107: `if (fPrintProofOfStake) LogPrintf(...)`
        let _logPrintf := fPrintProofOfStake
        if hashProofOfStake > bnTarget then
          some ⟨false, hashProofOfStake, targetProofOfStake⟩
        else
          some ⟨true, hashProofOfStake, targetProofOfStake⟩

/-! ## Depth policy -/

/-- Loop of `IsConfirmedInNPrevBlocks` (kernel.cpp lines 129-134) from the
entry `pindex` on; `nHeightFrom` is `pindexFrom->nHeight`.  It yields the
depth assigned to `nActualDepth` when the loop returns true. -/
def IsConfirmedInNPrevBlocks.loop (hashBlock : Nat) (nHeightFrom nMaxDepth : Int) :
    CBlockIndex → Option Int
  | [] => none
  | pindex :: pprev =>
    if nHeightFrom - pindex.nHeight < nMaxDepth then
      if hashBlock == pindex.hashBlock then
        some (nHeightFrom - pindex.nHeight)
      else
        IsConfirmedInNPrevBlocks.loop hashBlock nHeightFrom nMaxDepth pprev
    else
      none

/-- Translation of `IsConfirmedInNPrevBlocks` (kernel.cpp lines 127-137):
the return value and the content of `nActualDepth` afterwards. -/
def IsConfirmedInNPrevBlocks (hashBlock : Nat) (pindexFrom : CBlockIndex) (nMaxDepth : Int)
    (nActualDepth : Int) : Bool × Int :=
  match pindexFrom with
  | [] => (false, nActualDepth)
  | first :: _ =>
    match IsConfirmedInNPrevBlocks.loop hashBlock first.nHeight nMaxDepth pindexFrom with
    | some d => (true, d)
    | none => (false, nActualDepth)

/-- Translation of `CheckAge` (kernel.cpp lines 140-150); `none` when the
null `pindexTip` is dereferenced. -/
def CheckAge (env : Env) (pindexTip : CBlockIndex) (hashKernelBlock : Nat) (nDepth : Int) :
    Option (Bool × Int) :=
  match pindexTip with
  | [] => none
  | tip :: _ =>
    let nRequiredDepth :=
      min (castInt (castUint64 ((env.nStakeMinConfirmations : Int) - 1)))
        (castInt (Int.tdiv tip.nHeight 2))
    let found := IsConfirmedInNPrevBlocks hashKernelBlock pindexTip nRequiredDepth nDepth
    if found.1 then some (false, found.2) else some (true, found.2)

/-! ## CheckProofOfStake -/

/-- What `CheckProofOfStake` leaves behind: its return value, the two
reference parameters, and the local `CValidationState` at the return
statement (the caller receives only `ret` and the reference parameters). -/
structure PosResult where
  ret : Bool
  state : CValidationState
  hashProofOfStake : Nat
  targetProofOfStake : Nat
deriving DecidableEq, Repr

/-- The statement `return state.DoS(level, error(...), REJECT_INVALID, reason)`. -/
def DoS (level : Nat) (reason : String) (hashProofOfStake targetProofOfStake : Nat) :
    PosResult :=
  ⟨false, ⟨level, reason⟩, hashProofOfStake, targetProofOfStake⟩

/-- The statement `return true` of `CheckProofOfStake`. -/
def accepted (hashProofOfStake targetProofOfStake : Nat) : PosResult :=
  ⟨true, ⟨0, ""⟩, hashProofOfStake, targetProofOfStake⟩

/-- The coin of the live set when `!pcoinsTip->GetCoin(prevout, coin) || coin.IsSpent()`
is false. -/
def liveCoin (env : Env) (prevout : COutPoint) : Option Coin :=
  match env.GetCoin prevout with
  | none => none
  | some coin => if coin.spent then none else some coin

/-- Loop over the extra inputs (kernel.cpp lines 239-266), from the inputs
still to visit and the running `amount`: undefined (`none`), a rejection, or
the final `amount`. -/
def sumExtraInputs (env : Env) (kernelPubKey : CScript) :
    List CTxIn → Int → Option (Except CValidationState Int)
  | [], amount => some (.ok amount)
  | txin :: rest, amount =>
    match liveCoin env txin.prevout with
    | none =>
      match env.GetTransaction txin.prevout.hash with
      | none => some (.error ⟨1, "prevout-not-in-chain"⟩)
      | some (txPrev, _) =>
        match txPrev.vpout.get? txin.prevout.n with
        | none => some (.error ⟨1, "prevout-not-in-chain"⟩)
        | some (.standard nValue scriptPubKey) =>
          if kernelPubKey != scriptPubKey then
            some (.error ⟨100, "mixed-prevout-scripts"⟩)
          else
            match addAmount amount nValue with
            | none => none
            | some amount => sumExtraInputs env kernelPubKey rest amount
        | some _ => some (.error ⟨100, "invalid-prevout"⟩)
    | some coin =>
      if coin.nType != OutputType.OUTPUT_STANDARD then
        some (.error ⟨100, "invalid-prevout"⟩)
      else if kernelPubKey != coin.out.scriptPubKey then
        some (.error ⟨100, "mixed-prevout-scripts"⟩)
      else
        match addAmount amount coin.out.nValue with
        | none => none
        | some amount => sumExtraInputs env kernelPubKey rest amount

/-- Loop over the outputs (kernel.cpp lines 269-281), from the outputs still
to visit and the running `nVerify`. -/
def sumOutputs (kernelPubKey : CScript) :
    List CTxOutBase → Int → Option (Except CValidationState Int)
  | [], nVerify => some (.ok nVerify)
  | txout :: rest, nVerify =>
    if !txout.IsType OutputType.OUTPUT_STANDARD then
      if !txout.IsType OutputType.OUTPUT_DATA then
        some (.error ⟨100, "bad-output-type"⟩)
      else
        sumOutputs kernelPubKey rest nVerify
    else
      match txout with
      | .standard nValue scriptPubKey =>
        if scriptPubKey == kernelPubKey then
          match addAmount nVerify nValue with
          | none => none
          | some nVerify => sumOutputs kernelPubKey rest nVerify
        else
          sumOutputs kernelPubKey rest nVerify
      | _ => sumOutputs kernelPubKey rest nVerify

/-- Second half of `CheckProofOfStake` (kernel.cpp lines 214-288), where the
two branches of the coin resolution join: `txin` is `tx.vin[0]`, and
`kernelPubKey`, `amount`, `nBlockFromTime` are the locals the resolution
assigned. -/
def CheckProofOfStake.verify (env : Env) (pindexPrev : CBlockIndex) (tx : CTransaction)
    (txin : CTxIn) (nTime : Int) (nBits : Nat)
    (kernelPubKey : CScript) (amount : Int) (nBlockFromTime : Nat)
    (hashProofOfStake targetProofOfStake : Nat) : Option PosResult :=
  let vchAmount := leBytes 8 (castUint64 amount)
  if !env.VerifyScript txin.scriptSig kernelPubKey txin.scriptWitness tx 0 vchAmount then
    some (DoS 100 "verify-script-failed" hashProofOfStake targetProofOfStake)
  else
    match CheckStakeKernelHash env pindexPrev nBits nBlockFromTime amount txin.prevout
        (castUint32 nTime) hashProofOfStake targetProofOfStake env.LogAcceptCategory with
    | none => none
    | some kernel =>
      if !kernel.ret then
        some (DoS 1 "check-kernel-failed" kernel.hashProofOfStake kernel.targetProofOfStake)
      else if env.HasIsCoinstakeOp kernelPubKey then
        match sumExtraInputs env kernelPubKey (tx.vin.drop 1) amount with
        | none => none
        | some (.error state) =>
          some ⟨false, state, kernel.hashProofOfStake, kernel.targetProofOfStake⟩
        | some (.ok amount) =>
          match sumOutputs kernelPubKey tx.vpout 0 with
          | none => none
          | some (.error state) =>
            some ⟨false, state, kernel.hashProofOfStake, kernel.targetProofOfStake⟩
          | some (.ok nVerify) =>
            if nVerify < amount then
              some (DoS 100 "verify-amount-script-failed"
                kernel.hashProofOfStake kernel.targetProofOfStake)
            else
              some (accepted kernel.hashProofOfStake kernel.targetProofOfStake)
      else
        some (accepted kernel.hashProofOfStake kernel.targetProofOfStake)

/-- Locals of `CheckProofOfStake` that are live at line 214, after the coin
resolution: `txin` (`tx.vin[0]`), `kernelPubKey`, `amount`, `nBlockFromTime`. -/
structure KernelCoin where
  txin : CTxIn
  kernelPubKey : CScript
  amount : Int
  nBlockFromTime : Nat
deriving DecidableEq, Repr

/-- First half of `CheckProofOfStake` (kernel.cpp lines 153-212): the
coinstake test, the resolution of the kernel coin and the depth check.  It
ends in undefined behaviour (`none`), in a return statement (`error`), or at
line 214 with the locals assigned (`ok`).  The local `hashBlock` of line 163
is never assigned before line 189, so `CheckAge` receives the zero hash. -/
def CheckProofOfStake.resolve (env : Env) (pindexPrev : CBlockIndex) (tx : CTransaction)
    (hashProofOfStake targetProofOfStake : Nat) : Option (Except PosResult KernelCoin) :=
  match env.IsCoinStake tx, tx.vin with
  | true, txin :: _ =>
    let hashBlock : Nat := 0
    match liveCoin env txin.prevout with
    | none =>
      match env.GetTransaction txin.prevout.hash with
      | none =>
        some (.error (DoS 10 "prevout-not-in-chain" hashProofOfStake targetProofOfStake))
      | some (txPrev, blockKernel) =>
        match txPrev.vpout.get? txin.prevout.n with
        | none =>
          some (.error (DoS 10 "prevout-not-in-chain" hashProofOfStake targetProofOfStake))
        | some (.standard nValue scriptPubKey) =>
          match CheckAge env pindexPrev hashBlock 0 with
          | none => none
          | some (false, _) =>
            some (.error (DoS 100 "invalid-stake-depth" hashProofOfStake targetProofOfStake))
          | some (true, _) =>
            some (.ok ⟨txin, scriptPubKey, nValue, blockKernel.nTime⟩)
        | some _ =>
          some (.error (DoS 100 "invalid-prevout" hashProofOfStake targetProofOfStake))
    | some coin =>
      if coin.nType != OutputType.OUTPUT_STANDARD then
        some (.error (DoS 100 "invalid-prevout" hashProofOfStake targetProofOfStake))
      else
        match env.chainActive coin.nHeight with
        | [] => some (.error (DoS 100 "invalid-prevout" hashProofOfStake targetProofOfStake))
        | pindex :: _ =>
          match pindexPrev with
          | [] => none
          | prev :: _ =>
            let nDepth := prev.nHeight - coin.nHeight
            let nRequiredDepth :=
              min (castInt (castUint64 ((env.nStakeMinConfirmations : Int) - 1)))
                (castInt (Int.tdiv prev.nHeight 2))
            if nRequiredDepth > nDepth then
              some (.error
                (DoS 100 "invalid-stake-depth" hashProofOfStake targetProofOfStake))
            else
              some (.ok ⟨txin, coin.out.scriptPubKey, coin.out.nValue, pindex.nTime⟩)
  | _, _ => some (.error (DoS 100 "malformed-txn" hashProofOfStake targetProofOfStake))

/-- Translation of `CheckProofOfStake` (kernel.cpp lines 153-289): the first
half, then the second half on the locals it assigned.  `hashProofOfStake`
and `targetProofOfStake` are the values the reference parameters hold on
entry. -/
def CheckProofOfStake (env : Env) (pindexPrev : CBlockIndex) (tx : CTransaction)
    (nTime : Int) (nBits : Nat) (hashProofOfStake targetProofOfStake : Nat) :
    Option PosResult :=
  match CheckProofOfStake.resolve env pindexPrev tx hashProofOfStake targetProofOfStake with
  | none => none
  | some (.error rejected) => some rejected
  | some (.ok kc) =>
    CheckProofOfStake.verify env pindexPrev tx kc.txin nTime nBits
      kc.kernelPubKey kc.amount kc.nBlockFromTime hashProofOfStake targetProofOfStake

/-! ## CheckCoinStakeTimestamp and CheckKernel -/

/-- Translation of `CheckCoinStakeTimestamp` (kernel.cpp lines 293-296); the
`int64_t` time is read as its two's complement bit pattern. -/
def CheckCoinStakeTimestamp (env : Env) (nHeight : Int) (nTimeBlock : Int) : Bool :=
  Nat.land (castUint64 nTimeBlock) (env.GetStakeTimestampMask nHeight) == 0

/-- Translation of `CheckKernel` (kernel.cpp lines 298-326).  `pBlockTime`
is `none` for a null pointer and `some v` for a slot holding `v`; the result
is the return value with the slot afterwards, or `none` when a null pointer
is dereferenced (`pindexPrev` at line 314, `pBlockTime` at line 324). -/
def CheckKernel (env : Env) (pindexPrev : CBlockIndex) (nBits : Nat) (nTime : Int)
    (prevout : COutPoint) (pBlockTime : Option Int) : Option (Bool × Option Int) :=
  match env.GetCoin prevout with
  | none => some (false, pBlockTime)
  | some coin =>
    if coin.nType != OutputType.OUTPUT_STANDARD then
      some (false, pBlockTime)
    else if coin.spent then
      some (false, pBlockTime)
    else
      match env.chainActive coin.nHeight with
      | [] => some (false, pBlockTime)
      | pindex :: _ =>
        match pindexPrev with
        | [] => none
        | prev :: _ =>
          let nRequiredDepth :=
            min (castInt (castUint64 ((env.nStakeMinConfirmations : Int) - 1)))
              (castInt (Int.tdiv prev.nHeight 2))
          let nDepth := prev.nHeight - coin.nHeight
          if nRequiredDepth > nDepth then
            some (false, pBlockTime)
          else
            match pBlockTime with
            | none => none
            | some _ =>
              let blockTime : Int := pindex.nTime
              match CheckStakeKernelHash env pindexPrev nBits (castUint32 blockTime)
                  coin.out.nValue prevout (castUint32 nTime) 0 0 false with
              | none => none
              | some kernel => some (kernel.ret, some blockTime)

/-! ## Specification-side notions used to state the properties -/

/-- Depth required by the specification:
`RequiredDepth(tip_height, min_confirmations) = min(min_confirmations - 1, tip_height / 2)`. -/
def RequiredDepth (tip_height min_confirmations : Int) : Int :=
  min (min_confirmations - 1) (tip_height / 2)

/-- The locking script and value of the standard output an outpoint resolves
to: the live coin set when it holds the outpoint unspent, else the
historical transaction lookup; `none` when neither resolves it or the
output is not a standard one. -/
def resolveStandard (env : Env) (prevout : COutPoint) : Option (CScript × Int) :=
  match liveCoin env prevout with
  | some coin =>
    if coin.nType = OutputType.OUTPUT_STANDARD then
      some (coin.out.scriptPubKey, coin.out.nValue)
    else none
  | none =>
    match env.GetTransaction prevout.hash with
    | none => none
    | some (txPrev, _) =>
      match txPrev.vpout.get? prevout.n with
      | some (.standard nValue scriptPubKey) => some (scriptPubKey, nValue)
      | _ => none

/-- Value of the standard output an input resolves to (0 when it does not
resolve to one). -/
def inputValue (env : Env) (txin : CTxIn) : Int :=
  match resolveStandard env txin.prevout with
  | some (_, nValue) => nValue
  | none => 0

/-- Values of the standard outputs whose script equals `kernelPubKey`, in
output order. -/
def sameScriptValues (kernelPubKey : CScript) : List CTxOutBase → List Int
  | [] => []
  | .standard nValue scriptPubKey :: rest =>
    if scriptPubKey = kernelPubKey then nValue :: sameScriptValues kernelPubKey rest
    else sameScriptValues kernelPubKey rest
  | _ :: rest => sameScriptValues kernelPubKey rest

/-- Every running total `a + v1 + ... + vi` is an `int64_t`: adding the
values one after the other never overflows. -/
def sumsFit : Int → List Int → Bool
  | _, [] => true
  | a, v :: vs => inInt64 (a + v) && sumsFit (a + v) vs

/-- A compact target is valid when its decoding is not negative, not
overflowed and not zero. -/
def validCompact (env : Env) (nBits : Nat) : Prop :=
  (env.SetCompact nBits).2.1 = false ∧ (env.SetCompact nBits).2.2 = false
    ∧ (env.SetCompact nBits).1 ≠ 0

instance (env : Env) (nBits : Nat) : Decidable (validCompact env nBits) := by
  unfold validCompact; infer_instance

/-- The byte string hashed at kernel.cpp lines 93-96. -/
def kernelPreimage (env : Env) (bnStakeModifier nBlockFromTime : Nat) (prevout : COutPoint)
    (nTime : Nat) : List Nat :=
  env.ser256 bnStakeModifier ++ (env.ser32 nBlockFromTime ++ env.ser256 prevout.hash
    ++ env.ser32 prevout.n ++ env.ser32 nTime)

/-! ## A concrete chain view for the examples -/

/-- Exponent byte `nSize = nCompact >> 24` of a compact target. -/
def compactSize (nCompact : Nat) : Nat := nCompact / 2 ^ 24

/-- Mantissa `nWord` of a compact target, after the right shift applied to
small exponents. -/
def compactWord (nCompact : Nat) : Nat :=
  if compactSize nCompact ≤ 3 then
    (nCompact % 2 ^ 23) / 2 ^ (8 * (3 - compactSize nCompact))
  else nCompact % 2 ^ 23

/-- Modelled from the spec: `arith_uint256::SetCompact` is not among the
sources.  The 32-bit exponent and mantissa form of a 256-bit target with its
negative and overflow flags; used only by the example environment. -/
def compactDecode (nCompact : Nat) : Nat × Bool × Bool :=
  (if compactSize nCompact ≤ 3 then compactWord nCompact
    else (compactWord nCompact * 2 ^ (8 * (compactSize nCompact - 3))) % 2 ^ 256,
   compactWord nCompact != 0 && (nCompact / 2 ^ 23) % 2 == 1,
   compactWord nCompact != 0 && (decide (compactSize nCompact > 34)
    || (decide (compactWord nCompact > 255) && decide (compactSize nCompact > 33))
    || (decide (compactWord nCompact > 65535) && decide (compactSize nCompact > 32))))

/-- Index entry of the example chain at height `h`. -/
def exampleEntry (h : Nat) : BlockEntry :=
  ⟨h, 1000 + 16 * h, 7 * h, 5000 + h⟩

/-- Pointer to the example chain entry at height `h`. -/
def exampleIndex : Nat → CBlockIndex
  | 0 => [exampleEntry 0]
  | h + 1 => exampleEntry (h + 1) :: exampleIndex h

/-- Locking script of the example staker; it starts with `OP_ISCOINSTAKE`. -/
def stakeScript : CScript := [184, 1]

/-- Another locking script. -/
def otherScript : CScript := [118, 9]

/-- Coins of the example coin set, by transaction id (output index 0). -/
def exampleCoins (prevout : COutPoint) : Option Coin :=
  if prevout.n ≠ 0 then none
  else if prevout.hash = 1 then some ⟨⟨10000, stakeScript⟩, .OUTPUT_STANDARD, 89, false⟩
  else if prevout.hash = 2 then some ⟨⟨10000, stakeScript⟩, .OUTPUT_STANDARD, 90, false⟩
  else if prevout.hash = 3 then some ⟨⟨500, stakeScript⟩, .OUTPUT_STANDARD, 50, false⟩
  else if prevout.hash = 4 then some ⟨⟨500, otherScript⟩, .OUTPUT_STANDARD, 50, false⟩
  else if prevout.hash = 5 then some ⟨⟨10000, stakeScript⟩, .OUTPUT_STANDARD, 100, true⟩
  else none

/-- Historical transactions of the example: transaction 5 sits in the tip
block (height 100, hash 5100). -/
def exampleTransactions (txid : Nat) : Option (CTransaction × CBlock) :=
  if txid = 5 then
    some (⟨[], [.standard 10000 stakeScript], 0⟩, ⟨2600, 5100⟩)
  else none

/-- Example environment: a regtest-like chain of 101 blocks with 12 minimum
stake confirmations, a toy hash (the byte sum) and a toy script verifier
(the signature must repeat the locking script). -/
def exampleEnv : Env where
  Hash := fun bytes => bytes.sum
  ser256 := leBytes 32
  ser32 := leBytes 4
  SetCompact := compactDecode
  GetCoin := exampleCoins
  GetTransaction := exampleTransactions
  chainActive := fun h => if h ≤ 100 then exampleIndex h else []
  nStakeMinConfirmations := 12
  GetStakeTimestampMask := fun _ => 15
  IsCoinStake := fun tx => tx.nType == 2
  HasIsCoinstakeOp := fun script => script.head? == some 184
  VerifyScript := fun scriptSig scriptPubKey _ _ _ _ => scriptSig == scriptPubKey
  LogAcceptCategory := false

/-- Tip of the example chain (height 100). -/
def exampleTip : CBlockIndex := exampleIndex 100

/-- Example coinstake spending output 0 of the transactions `ids` (the first
is the kernel), every input signed for `stakeScript`, with the given outputs. -/
def exampleStake (ids : List Nat) (outputs : List CTxOutBase) : CTransaction :=
  ⟨ids.map (fun i => ⟨⟨i, 0⟩, stakeScript, []⟩), outputs, 2⟩

/-- Coin set of the example extended by a blinded coin at transaction 7. -/
def blindCoins (prevout : COutPoint) : Option Coin :=
  if prevout = ⟨7, 0⟩ then some ⟨⟨0, []⟩, .OUTPUT_CT, 50, false⟩
  else exampleCoins prevout

/-- The example environment over the coin set with the blinded coin. -/
def blindEnv : Env := { exampleEnv with GetCoin := blindCoins }

/-- The example environment with the proof-of-stake log category enabled. -/
def loggingEnv : Env := { exampleEnv with LogAcceptCategory := true }

/-- What the caller of `CheckProofOfStake` receives: the boolean return value
and the two reference parameters.  The `CValidationState` is a local of the
function (line 157) and is not part of it. -/
def callerView (r : PosResult) : Bool × Nat × Nat :=
  (r.ret, r.hashProofOfStake, r.targetProofOfStake)

/-- The example environment with the regtest timestamp mask
(`nStakeTimestampMask = 0`, chainparams.cpp line 780). -/
def regtestMaskEnv : Env := { exampleEnv with GetStakeTimestampMask := fun _ => 0 }

/-- States of the rejections `CheckProofOfStake` returns before it calls
`CheckStakeKernelHash` (lines 161-222). -/
def earlyRejections : List CValidationState :=
  [⟨100, "malformed-txn"⟩, ⟨10, "prevout-not-in-chain"⟩, ⟨100, "invalid-prevout"⟩,
   ⟨100, "invalid-stake-depth"⟩, ⟨100, "verify-script-failed"⟩]

/-- States of the rejections `CheckProofOfStake` returns from the kernel
check on (lines 226-285). -/
def lateRejections : List CValidationState :=
  [⟨1, "check-kernel-failed"⟩, ⟨1, "prevout-not-in-chain"⟩, ⟨100, "invalid-prevout"⟩,
   ⟨100, "mixed-prevout-scripts"⟩, ⟨100, "bad-output-type"⟩,
   ⟨100, "verify-amount-script-failed"⟩]

/-! ## Chain parameters (src/chainparams.cpp) -/

/-- Treasury settings `TreasuryFundSettings`: address, minimum stake percent
and output period. -/
structure TreasuryFundSettings where
  sTreasuryFundAddresses : String
  nMinTreasuryStakePercent : Int
  nTreasuryOutputPeriod : Int
deriving DecidableEq, Repr

/-- The members of `CChainParams` read by the functions below. -/
structure CChainParams where
  strNetworkID : String
  exploit_fix_2_time : Int
  genesis_nTime : Nat
  nCoinYearReward : Int
  vTreasuryFundSettings : List (Int × TreasuryFundSettings)
deriving DecidableEq, Repr

/-- The constant `nSecondsInYear` of `GetCoinYearReward`. -/
def nSecondsInYear : Int := 365 * 24 * 60 * 60

/-- Translation of `CChainParams::GetCoinYearReward` (chainparams.cpp lines
25-47).  `CENT` is the constant of amount.h, taken as a parameter.
Time differences are taken in the integers; `/` of C++ is `Int.tdiv`. -/
def GetCoinYearReward (CENT : Int) (params : CChainParams) (nTime : Int) : Int :=
  if params.strNetworkID ≠ "regtest" then
    if nTime ≥ params.exploit_fix_2_time then
      if Int.tdiv (nTime - params.exploit_fix_2_time) (nSecondsInYear * 2) ≥ 0
          ∧ Int.tdiv (nTime - params.exploit_fix_2_time) (nSecondsInYear * 2) < 2 then
        (8 - Int.tdiv (nTime - params.exploit_fix_2_time) (nSecondsInYear * 2)) * CENT
      else
        6 * CENT
    else if Int.tdiv (nTime - params.genesis_nTime) nSecondsInYear ≥ 0
        ∧ Int.tdiv (nTime - params.genesis_nTime) nSecondsInYear < 3 then
      (5 - Int.tdiv (nTime - params.genesis_nTime) nSecondsInYear) * CENT
    else
      params.nCoinYearReward
  else
    params.nCoinYearReward

/-- Translation of `CChainParams::PushTreasuryFundSettings` (chainparams.cpp
lines 49-58): the outcome (`error` is the thrown `std::runtime_error` with
its message, `ok` the return value) and the parameters afterwards. -/
def PushTreasuryFundSettings (params : CChainParams) (time_from : Int)
    (settings : TreasuryFundSettings) : Except String Bool × CChainParams :=
  if settings.nMinTreasuryStakePercent < 0 ∨ settings.nMinTreasuryStakePercent > 100 then
    (.error "minstakepercent must be in range [0, 100].", params)
  else
    (.ok true,
      { params with
        vTreasuryFundSettings := params.vTreasuryFundSettings ++ [(time_from, settings)] })

/-- Loop of `GetTreasuryFundSettings` (lines 92-96) over the entries from
`crbegin()` on, that is, over the vector in reverse order. -/
def GetTreasuryFundSettings.scan (nTime : Int) :
    List (Int × TreasuryFundSettings) → Option TreasuryFundSettings
  | [] => none
  | i :: rest =>
    if nTime > i.1 then some i.2 else GetTreasuryFundSettings.scan nTime rest

/-- Translation of `CChainParams::GetTreasuryFundSettings` (chainparams.cpp
lines 90-99); `none` is `nullptr`. -/
def GetTreasuryFundSettings (params : CChainParams) (nTime : Int) :
    Option TreasuryFundSettings :=
  GetTreasuryFundSettings.scan nTime params.vTreasuryFundSettings.reverse

/-- Example parameters: the main network with the exploit-fix time of
chainparams.cpp line 379 and three treasury entries. -/
def exampleParams : CChainParams :=
  ⟨"main", 1626109200, 1649365200, 2000000,
    [(0, ⟨"RJAP", 10, 60⟩), (1600000000, ⟨"RBii", 10, 60⟩), (1626109200, ⟨"RQYU", 50, 650⟩)]⟩

/-- Historical transactions of the example extended by transaction 8, whose
output 0 is locked by `otherScript` (no coinstake opcode) and which sits in
the tip block (height 100, hash 5100). -/
def otherTransactions (txid : Nat) : Option (CTransaction × CBlock) :=
  if txid = 8 then
    some (⟨[], [.standard 10000 otherScript], 0⟩, ⟨2600, 5100⟩)
  else exampleTransactions txid

/-- The example environment over the historical transactions with
transaction 8. -/
def otherEnv : Env := { exampleEnv with GetTransaction := otherTransactions }

/-! ## Entries visited by the ancestor scan -/

/-- Entries the specification of `IsConfirmedInNPrevBlocks` speaks of: those
reached from `pindexFrom` by following predecessor links, before the first
entry whose height distance from `pindexFrom` is at least `nMaxDepth`. -/
def visitedEntries (pindexFrom : CBlockIndex) (nMaxDepth : Int) : List BlockEntry :=
  match pindexFrom with
  | [] => []
  | first :: _ =>
    pindexFrom.takeWhile (fun e => decide (first.nHeight - e.nHeight < nMaxDepth))

/-- A chain whose entries have consecutive heights: every predecessor is one
block lower. -/
def consecutiveHeights : CBlockIndex → Bool
  | [] => true
  | [_] => true
  | a :: b :: rest => (b.nHeight == a.nHeight - 1) && consecutiveHeights (b :: rest)

/-! ## CheckStakeKernelHash -/

/-- Unfolding of `CheckStakeKernelHash` on a call that reaches the
comparison of line 110. -/
theorem CheckStakeKernelHash_reached (env : Env) (prev : BlockEntry) (pprev : CBlockIndex)
    (nBits nBlockFromTime : Nat) (prevOutAmount : Int) (prevout : COutPoint) (nTime : Nat)
    (h0 t0 : Nat) (fPrint : Bool)
    (hTime : nBlockFromTime ≤ nTime) (hValid : validCompact env nBits) :
    CheckStakeKernelHash env (prev :: pprev) nBits nBlockFromTime prevOutAmount prevout
        nTime h0 t0 fPrint
      = some ⟨decide (env.Hash (kernelPreimage env prev.bnStakeModifier nBlockFromTime
            prevout nTime)
          ≤ ((env.SetCompact nBits).1 * castUint64 prevOutAmount) % 2 ^ 256),
        env.Hash (kernelPreimage env prev.bnStakeModifier nBlockFromTime prevout nTime),
        ((env.SetCompact nBits).1 * castUint64 prevOutAmount) % 2 ^ 256⟩ := by
  obtain ⟨hNeg, hOvf, hNz⟩ := hValid
  have hNz2 : ((env.SetCompact nBits).1 == 0) = false := by simpa using hNz
  unfold CheckStakeKernelHash kernelPreimage
  rw [if_neg (Nat.not_lt.mpr hTime)]
  simp only [hNeg, hOvf, hNz2, Bool.or_false, Bool.false_eq_true, if_false]
  split
  · next hc => rw [decide_eq_false (Nat.not_le.mpr hc)]
  · next hc => rw [decide_eq_true (Nat.not_lt.mp hc)]

/-- C1: a call of `CheckStakeKernelHash` that passes the timestamp check
with a valid compact target returns, and it accepts if and only if the
kernel hash is at most the weighted target it computed (the value it stores
in `targetProofOfStake`). -/
theorem CheckStakeKernelHash_accepts_iff (env : Env) (prev : BlockEntry)
    (pprev : CBlockIndex) (nBits nBlockFromTime : Nat) (prevOutAmount : Int)
    (prevout : COutPoint) (nTime : Nat) (h0 t0 : Nat) (fPrint : Bool)
    (hTime : nBlockFromTime ≤ nTime) (hValid : validCompact env nBits) :
    ∃ r, CheckStakeKernelHash env (prev :: pprev) nBits nBlockFromTime prevOutAmount
          prevout nTime h0 t0 fPrint = some r
      ∧ r.targetProofOfStake
          = ((env.SetCompact nBits).1 * castUint64 prevOutAmount) % 2 ^ 256
      ∧ (r.ret = true ↔ r.hashProofOfStake ≤ r.targetProofOfStake) := by
  refine ⟨_, CheckStakeKernelHash_reached env prev pprev nBits nBlockFromTime prevOutAmount
    prevout nTime h0 t0 fPrint hTime hValid, rfl, ?_⟩
  simp

/-- Witness for C1 on the example chain: regtest difficulty bits, a coin of
10000 units created at time 2000 and staked at time 2600. -/
theorem CheckStakeKernelHash_accepts_iff_witness :
    ∃ r, CheckStakeKernelHash exampleEnv (exampleEntry 100 :: exampleIndex 99) 0x207fffff
          2000 10000 ⟨1, 0⟩ 2600 0 0 false = some r
      ∧ r.targetProofOfStake
          = ((exampleEnv.SetCompact 0x207fffff).1 * castUint64 10000) % 2 ^ 256
      ∧ (r.ret = true ↔ r.hashProofOfStake ≤ r.targetProofOfStake) :=
  CheckStakeKernelHash_accepts_iff exampleEnv (exampleEntry 100) (exampleIndex 99)
    0x207fffff 2000 10000 ⟨1, 0⟩ 2600 0 0 false (by decide) (by decide)

/-- Conversion of an amount in the range of a non-negative `int64_t` to
`uint64_t` keeps its value. -/
theorem castUint64_of_nonneg (a : Int) (h0 : 0 ≤ a) (h1 : a < 9223372036854775808) :
    castUint64 a = a.toNat := by
  unfold castUint64
  rw [Int.emod_eq_of_lt h0 (by omega)]

/-- C5: on every call that reaches the hashing step, `hashProofOfStake` is
the hash of the serialised stake modifier of the predecessor, coin block
time, outpoint transaction id, outpoint index and candidate time, in this
order; a second call that agrees on these five values produces the same
hash whatever its other arguments are. -/
theorem CheckStakeKernelHash_preimage (env : Env) (prev : BlockEntry) (pprev : CBlockIndex)
    (nBits nBlockFromTime : Nat) (prevOutAmount : Int) (prevout : COutPoint) (nTime : Nat)
    (h0 t0 : Nat) (fPrint : Bool)
    (hTime : nBlockFromTime ≤ nTime) (hValid : validCompact env nBits) :
    ∃ r, CheckStakeKernelHash env (prev :: pprev) nBits nBlockFromTime prevOutAmount
          prevout nTime h0 t0 fPrint = some r
      ∧ r.hashProofOfStake
          = env.Hash (env.ser256 prev.bnStakeModifier ++ (env.ser32 nBlockFromTime
              ++ env.ser256 prevout.hash ++ env.ser32 prevout.n ++ env.ser32 nTime))
      ∧ ∀ (prev2 : BlockEntry) (pprev2 : CBlockIndex) (nBits2 : Nat) (amount2 : Int)
          (h2 t2 : Nat) (fPrint2 : Bool),
          prev2.bnStakeModifier = prev.bnStakeModifier → validCompact env nBits2 →
          ∃ r2, CheckStakeKernelHash env (prev2 :: pprev2) nBits2 nBlockFromTime amount2
              prevout nTime h2 t2 fPrint2 = some r2
            ∧ r2.hashProofOfStake = r.hashProofOfStake := by
  refine ⟨_, CheckStakeKernelHash_reached env prev pprev nBits nBlockFromTime prevOutAmount
    prevout nTime h0 t0 fPrint hTime hValid, rfl, ?_⟩
  intro prev2 pprev2 nBits2 amount2 h2 t2 fPrint2 hMod hValid2
  refine ⟨_, CheckStakeKernelHash_reached env prev2 pprev2 nBits2 nBlockFromTime amount2
    prevout nTime h2 t2 fPrint2 hTime hValid2, ?_⟩
  simp only [hMod]

/-- Witness for C5 on the example chain. -/
theorem CheckStakeKernelHash_preimage_witness :
    ∃ r, CheckStakeKernelHash exampleEnv (exampleEntry 100 :: exampleIndex 99) 0x207fffff
          2000 10000 ⟨1, 0⟩ 2600 0 0 false = some r
      ∧ r.hashProofOfStake
          = exampleEnv.Hash (exampleEnv.ser256 (exampleEntry 100).bnStakeModifier
              ++ (exampleEnv.ser32 2000 ++ exampleEnv.ser256 1 ++ exampleEnv.ser32 0
              ++ exampleEnv.ser32 2600)) :=
  let ⟨r, hr, hh, _⟩ := CheckStakeKernelHash_preimage exampleEnv (exampleEntry 100)
    (exampleIndex 99) 0x207fffff 2000 10000 ⟨1, 0⟩ 2600 0 0 false (by decide) (by decide)
  ⟨r, hr, hh⟩

/-- C6 as stated fails: the regtest bits 0x207fffff decode to a valid
target T, the amount 10000 is positive, and the weighted target returned in
`targetProofOfStake` is T × 10000 reduced modulo 2^256, which differs from
T × 10000. -/
theorem weighted_target_wraps :
    validCompact exampleEnv 0x207fffff
      ∧ (CheckStakeKernelHash exampleEnv exampleTip 0x207fffff 2000 10000 ⟨1, 0⟩ 2600 0 0
          false).map (fun r => r.targetProofOfStake)
        = some ((exampleEnv.SetCompact 0x207fffff).1 * 10000 % 2 ^ 256)
      ∧ (exampleEnv.SetCompact 0x207fffff).1 * 10000 % 2 ^ 256
        ≠ (exampleEnv.SetCompact 0x207fffff).1 * 10000 := by
  decide

/-- C6 (amended): for a valid compact target T and an amount a > 0, the
weighted target compared against and returned as `targetProofOfStake` is
T × a reduced modulo 2^256; it is the integer product T × a whenever that
product is below 2^256. -/
theorem weighted_target_eq (env : Env) (prev : BlockEntry) (pprev : CBlockIndex)
    (nBits nBlockFromTime : Nat) (a : Int) (prevout : COutPoint) (nTime : Nat)
    (h0 t0 : Nat) (fPrint : Bool)
    (hTime : nBlockFromTime ≤ nTime) (hValid : validCompact env nBits)
    (hPos : 0 < a) (hInt64 : a < 9223372036854775808) :
    ∃ r, CheckStakeKernelHash env (prev :: pprev) nBits nBlockFromTime a prevout nTime
          h0 t0 fPrint = some r
      ∧ (r.targetProofOfStake : Int) = ((env.SetCompact nBits).1 * a) % 2 ^ 256
      ∧ (r.ret = true ↔ r.hashProofOfStake ≤ r.targetProofOfStake)
      ∧ (((env.SetCompact nBits).1 : Int) * a < 2 ^ 256 →
          (r.targetProofOfStake : Int) = (env.SetCompact nBits).1 * a) := by
  have hTarget : ((((env.SetCompact nBits).1 * castUint64 a) % 2 ^ 256 : Nat) : Int)
      = ((env.SetCompact nBits).1 * a) % 2 ^ 256 := by
    rw [castUint64_of_nonneg a (le_of_lt hPos) hInt64]
    push_cast
    rw [Int.toNat_of_nonneg (le_of_lt hPos)]
  refine ⟨_, CheckStakeKernelHash_reached env prev pprev nBits nBlockFromTime a
    prevout nTime h0 t0 fPrint hTime hValid, hTarget, by simp, ?_⟩
  intro hlt
  show ((((env.SetCompact nBits).1 * castUint64 a) % 2 ^ 256 : Nat) : Int) = _
  rw [hTarget]
  exact Int.emod_eq_of_lt (mul_nonneg (Int.ofNat_nonneg _) (le_of_lt hPos)) hlt

/-- Witness for C6 (amended): mainnet-like bits 0x1d00ffff and 10000 units. -/
theorem weighted_target_eq_witness :
    ∃ r, CheckStakeKernelHash exampleEnv (exampleEntry 100 :: exampleIndex 99) 0x1d00ffff
          2000 10000 ⟨1, 0⟩ 2600 0 0 false = some r
      ∧ (r.targetProofOfStake : Int) = ((exampleEnv.SetCompact 0x1d00ffff).1 * 10000) % 2 ^ 256
      ∧ (r.ret = true ↔ r.hashProofOfStake ≤ r.targetProofOfStake)
      ∧ (((exampleEnv.SetCompact 0x1d00ffff).1 : Int) * 10000 < 2 ^ 256 →
          (r.targetProofOfStake : Int) = (exampleEnv.SetCompact 0x1d00ffff).1 * 10000) :=
  weighted_target_eq exampleEnv (exampleEntry 100) (exampleIndex 99) 0x1d00ffff 2000 10000
    ⟨1, 0⟩ 2600 0 0 false (by decide) (by decide) (by decide) (by decide)

/-- C7: when `nTime < nBlockFromTime`, `CheckStakeKernelHash` returns false,
for every predecessor (a null one included), difficulty bits, amount and
outpoint, and without touching the two result slots. -/
theorem CheckStakeKernelHash_time_violation (env : Env) (pindexPrev : CBlockIndex)
    (nBits nBlockFromTime : Nat) (prevOutAmount : Int) (prevout : COutPoint) (nTime : Nat)
    (h0 t0 : Nat) (fPrint : Bool) (hTime : nTime < nBlockFromTime) :
    CheckStakeKernelHash env pindexPrev nBits nBlockFromTime prevOutAmount prevout nTime
      h0 t0 fPrint = some ⟨false, h0, t0⟩ := by
  unfold CheckStakeKernelHash
  rw [if_pos hTime]

/-- Witness for C7: candidate time 1999 against coin block time 2000. -/
theorem CheckStakeKernelHash_time_violation_witness :
    CheckStakeKernelHash exampleEnv exampleTip 0x207fffff 2000 10000 ⟨1, 0⟩ 1999 0 0 false
      = some ⟨false, 0, 0⟩ :=
  CheckStakeKernelHash_time_violation exampleEnv exampleTip 0x207fffff 2000 10000 ⟨1, 0⟩
    1999 0 0 false (by decide)

/-- C8: when the compact decoding of `nBits` is negative, overflowed or
zero, `CheckStakeKernelHash` returns false for every predecessor (a null one
included), amount, outpoint and times; the result slots keep the values they
had on entry, so no hash has been computed or compared. -/
theorem CheckStakeKernelHash_bad_compact (env : Env) (pindexPrev : CBlockIndex)
    (nBits nBlockFromTime : Nat) (prevOutAmount : Int) (prevout : COutPoint) (nTime : Nat)
    (h0 t0 : Nat) (fPrint : Bool)
    (hBad : (env.SetCompact nBits).2.1 = true ∨ (env.SetCompact nBits).2.2 = true
      ∨ (env.SetCompact nBits).1 = 0) :
    CheckStakeKernelHash env pindexPrev nBits nBlockFromTime prevOutAmount prevout nTime
      h0 t0 fPrint = some ⟨false, h0, t0⟩ := by
  unfold CheckStakeKernelHash
  split
  · rfl
  · have hc : ((env.SetCompact nBits).2.1 || (env.SetCompact nBits).2.2
        || (env.SetCompact nBits).1 == 0) = true := by
      rcases hBad with h | h | h <;> simp [h]
    simp only [hc, if_true]

/-- Witness for C8: the bits 0 decode to zero, and the call returns false
even with a null predecessor. -/
theorem CheckStakeKernelHash_bad_compact_witness :
    (exampleEnv.SetCompact 0).1 = 0
      ∧ CheckStakeKernelHash exampleEnv [] 0 2000 10000 ⟨1, 0⟩ 2600 7 9 false
        = some ⟨false, 7, 9⟩ :=
  ⟨by decide, CheckStakeKernelHash_bad_compact exampleEnv [] 0 2000 10000 ⟨1, 0⟩ 2600 7 9
    false (Or.inr (Or.inr (by decide)))⟩

/-! ## Depth check on the live-coin path -/

/-- Conversion to `int` keeps a value that is in the range of `int`. -/
theorem castInt_of_range (x : Int) (h0 : -2147483648 ≤ x) (h1 : x < 2147483648) :
    castInt x = x := by
  unfold castInt
  simp only
  split <;> omega

/-- The expression `(int)(GetStakeMinConfirmations() - 1)` is the count minus
one, for every count up to 2^31 (the count 0 gives -1). -/
theorem castInt_minConfirmations (n : Nat) (hn : n ≤ 2147483648) :
    castInt (castUint64 ((n : Int) - 1)) = (n : Int) - 1 := by
  unfold castInt castUint64
  simp only
  split <;> omega

/-- The depth computed at lines 145, 205 and 314 is `RequiredDepth`, for a
tip height in the non-negative range of `int`. -/
theorem nRequiredDepth_eq (minConf : Nat) (h : Int) (h0 : 0 ≤ h) (h1 : h < 2147483648)
    (hm : minConf ≤ 2147483648) :
    min (castInt (castUint64 ((minConf : Int) - 1))) (castInt (Int.tdiv h 2))
      = RequiredDepth h minConf := by
  rw [castInt_minConfirmations minConf hm, Int.tdiv_eq_ediv h0 (by decide),
    castInt_of_range (h / 2) (by omega) (by omega)]
  rfl

/-- A coin the live set holds unspent is the coin both lookups use. -/
theorem liveCoin_of_unspent (env : Env) (prevout : COutPoint) (coin : Coin)
    (hcoin : env.GetCoin prevout = some coin) (hunspent : coin.spent = false) :
    liveCoin env prevout = some coin := by
  unfold liveCoin
  rw [hcoin]
  simp [hunspent]

/-- First half of `CheckProofOfStake` on a kernel coin found unspent and
standard in the live coin set, with an index entry at its height. -/
theorem resolve_live (env : Env) (prev : BlockEntry) (pprev : CBlockIndex)
    (tx : CTransaction) (txin : CTxIn) (rest : List CTxIn) (h0 t0 : Nat)
    (coin : Coin) (pindex : BlockEntry) (ptail : CBlockIndex)
    (hCS : env.IsCoinStake tx = true) (hvin : tx.vin = txin :: rest)
    (hcoin : env.GetCoin txin.prevout = some coin) (hunspent : coin.spent = false)
    (hstd : coin.nType = OutputType.OUTPUT_STANDARD)
    (hidx : env.chainActive coin.nHeight = pindex :: ptail) :
    CheckProofOfStake.resolve env (prev :: pprev) tx h0 t0
      = if min (castInt (castUint64 ((env.nStakeMinConfirmations : Int) - 1)))
            (castInt (Int.tdiv prev.nHeight 2)) > prev.nHeight - coin.nHeight then
          some (.error (DoS 100 "invalid-stake-depth" h0 t0))
        else
          some (.ok ⟨txin, coin.out.scriptPubKey, coin.out.nValue, pindex.nTime⟩) := by
  unfold CheckProofOfStake.resolve
  rw [hCS, hvin]
  simp only [liveCoin_of_unspent env txin.prevout coin hcoin hunspent, hstd, hidx,
    bne_self_eq_false, Bool.false_eq_true, if_false]

/-- C3: for a kernel coin found unspent (and standard, with an index entry
at its height) in the live coin set, `CheckProofOfStake` and `CheckKernel`
reject at the depth check when tip height minus coin height is below
`RequiredDepth`, and go on to the next step when it is at least
`RequiredDepth`; when tip_height/2 >= min_confirmations-1 the required depth
is min_confirmations-1. -/
theorem depth_check_boundary (env : Env) (prev : BlockEntry) (pprev : CBlockIndex)
    (tx : CTransaction) (txin : CTxIn) (rest : List CTxIn) (nTime : Int) (nBits : Nat)
    (h0 t0 : Nat) (coin : Coin) (pindex : BlockEntry) (ptail : CBlockIndex) (slot : Int)
    (hCS : env.IsCoinStake tx = true) (hvin : tx.vin = txin :: rest)
    (hcoin : env.GetCoin txin.prevout = some coin) (hunspent : coin.spent = false)
    (hstd : coin.nType = OutputType.OUTPUT_STANDARD)
    (hidx : env.chainActive coin.nHeight = pindex :: ptail)
    (hh0 : 0 ≤ prev.nHeight) (hh1 : prev.nHeight < 2147483648)
    (hm : env.nStakeMinConfirmations ≤ 2147483648) :
    (prev.nHeight - coin.nHeight < RequiredDepth prev.nHeight env.nStakeMinConfirmations →
        CheckProofOfStake env (prev :: pprev) tx nTime nBits h0 t0
          = some (DoS 100 "invalid-stake-depth" h0 t0)
        ∧ CheckKernel env (prev :: pprev) nBits nTime txin.prevout (some slot)
          = some (false, some slot))
    ∧ (RequiredDepth prev.nHeight env.nStakeMinConfirmations ≤ prev.nHeight - coin.nHeight →
        CheckProofOfStake env (prev :: pprev) tx nTime nBits h0 t0
          = CheckProofOfStake.verify env (prev :: pprev) tx txin nTime nBits
              coin.out.scriptPubKey coin.out.nValue pindex.nTime h0 t0
        ∧ CheckKernel env (prev :: pprev) nBits nTime txin.prevout (some slot)
          = (CheckStakeKernelHash env (prev :: pprev) nBits (castUint32 pindex.nTime)
              coin.out.nValue txin.prevout (castUint32 nTime) 0 0 false).map
              (fun kernel => (kernel.ret, some (pindex.nTime : Int))))
    ∧ ((env.nStakeMinConfirmations : Int) - 1 ≤ prev.nHeight / 2 →
        RequiredDepth prev.nHeight env.nStakeMinConfirmations
          = (env.nStakeMinConfirmations : Int) - 1) := by
  have hres := resolve_live env prev pprev tx txin rest h0 t0 coin pindex ptail hCS hvin
    hcoin hunspent hstd hidx
  have hreq := nRequiredDepth_eq env.nStakeMinConfirmations prev.nHeight hh0 hh1 hm
  rw [hreq] at hres
  refine ⟨fun hlt => ⟨?_, ?_⟩, fun hge => ⟨?_, ?_⟩, fun hle => ?_⟩
  · unfold CheckProofOfStake
    rw [hres, if_pos hlt]
  · unfold CheckKernel
    simp only [hcoin, hstd, hunspent, hidx, hreq, bne_self_eq_false, Bool.false_eq_true,
      if_false]
    rw [if_pos hlt]
  · unfold CheckProofOfStake
    rw [hres, if_neg (not_lt.mpr hge)]
  · unfold CheckKernel
    simp only [hcoin, hstd, hunspent, hidx, hreq, bne_self_eq_false, Bool.false_eq_true,
      if_false]
    rw [if_neg (not_lt.mpr hge)]
    cases CheckStakeKernelHash env (prev :: pprev) nBits (castUint32 pindex.nTime)
      coin.out.nValue txin.prevout (castUint32 nTime) 0 0 false <;> rfl
  · unfold RequiredDepth
    exact min_eq_left hle

/-- Witness for C3 on the example chain (tip height 100, 12 minimum
confirmations, required depth 11): the coin created at height 90 (depth 10)
is rejected as too young, the coin created at height 89 (depth 11) passes. -/
theorem depth_check_boundary_witness :
    (CheckProofOfStake exampleEnv (exampleEntry 100 :: exampleIndex 99)
        (exampleStake [2] []) 2600 0x207fffff 0 0
        = some (DoS 100 "invalid-stake-depth" 0 0)
      ∧ CheckKernel exampleEnv (exampleEntry 100 :: exampleIndex 99) 0x207fffff 2600
          ⟨2, 0⟩ (some 0) = some (false, some 0))
    ∧ CheckProofOfStake exampleEnv (exampleEntry 100 :: exampleIndex 99)
        (exampleStake [1] []) 2600 0x207fffff 0 0
        = CheckProofOfStake.verify exampleEnv (exampleEntry 100 :: exampleIndex 99)
            (exampleStake [1] []) ⟨⟨1, 0⟩, stakeScript, []⟩ 2600 0x207fffff
            stakeScript 10000 (exampleEntry 89).nTime 0 0 :=
  ⟨(depth_check_boundary exampleEnv (exampleEntry 100) (exampleIndex 99)
      (exampleStake [2] []) ⟨⟨2, 0⟩, stakeScript, []⟩ [] 2600 0x207fffff 0 0
      ⟨⟨10000, stakeScript⟩, .OUTPUT_STANDARD, 90, false⟩ (exampleEntry 90)
      (exampleIndex 89) 0 rfl rfl rfl rfl rfl rfl (by decide) (by decide) (by decide)).1
      (by decide),
   ((depth_check_boundary exampleEnv (exampleEntry 100) (exampleIndex 99)
      (exampleStake [1] []) ⟨⟨1, 0⟩, stakeScript, []⟩ [] 2600 0x207fffff 0 0
      ⟨⟨10000, stakeScript⟩, .OUTPUT_STANDARD, 89, false⟩ (exampleEntry 89)
      (exampleIndex 88) 0 rfl rfl rfl rfl rfl rfl (by decide) (by decide) (by decide)).2.1
      (by decide)).1⟩

/-! ## Coin resolution -/

/-- Every return statement of the first half returns false. -/
theorem resolve_error_ret (env : Env) (pindexPrev : CBlockIndex) (tx : CTransaction)
    (h0 t0 : Nat) (rejected : PosResult)
    (h : CheckProofOfStake.resolve env pindexPrev tx h0 t0 = some (.error rejected)) :
    rejected.ret = false := by
  unfold CheckProofOfStake.resolve at h
  dsimp only at h
  repeat' split at h
  all_goals
    first
    | (simp only [Option.some.injEq, Except.error.injEq, reduceCtorEq] at h; done)
    | (simp only [Option.some.injEq, Except.error.injEq] at h; rw [← h]; rfl)

/-- When the first half reaches line 214, the kernel input is the first
input and the locals hold the script and value of the standard output its
outpoint resolves to. -/
theorem resolve_ok_spec (env : Env) (pindexPrev : CBlockIndex) (tx : CTransaction)
    (h0 t0 : Nat) (kc : KernelCoin)
    (h : CheckProofOfStake.resolve env pindexPrev tx h0 t0 = some (.ok kc)) :
    env.IsCoinStake tx = true
      ∧ (∃ rest, tx.vin = kc.txin :: rest)
      ∧ resolveStandard env kc.txin.prevout = some (kc.kernelPubKey, kc.amount) := by
  unfold CheckProofOfStake.resolve at h
  split at h
  · next txin rest hcs hvin =>
    refine ⟨hcs, ?_⟩
    unfold resolveStandard
    dsimp only at h
    repeat' split at h
    all_goals
      first
      | (simp only [Option.some.injEq, Except.ok.injEq, reduceCtorEq] at h; done)
      | (simp only [Option.some.injEq, Except.ok.injEq] at h
         subst h
         simp_all)
  · simp only [Option.some.injEq, reduceCtorEq] at h

/-- C4, evaluated on the example chain: the kernel outpoint (5, 0) is spent
in the live coin set and the historical lookup finds it in the tip block
(hash 5100, depth 0, required depth 11).  `CheckAge` called with that block
hash rejects the age, but `CheckProofOfStake` calls it with the unassigned
local `hashBlock`, passes the depth check and accepts the coinstake. -/
theorem historical_path_depth_not_enforced :
    liveCoin exampleEnv ⟨5, 0⟩ = none
      ∧ (exampleEnv.GetTransaction 5).map (fun found => found.2.hash)
          = some (exampleEntry 100).hashBlock
      ∧ (0 : Int) < RequiredDepth (exampleEntry 100).nHeight exampleEnv.nStakeMinConfirmations
      ∧ CheckAge exampleEnv exampleTip 5100 0 = some (false, 0)
      ∧ CheckProofOfStake.resolve exampleEnv exampleTip
          (exampleStake [5] [.data [], .standard 10400 stakeScript]) 0 0
          = some (.ok ⟨⟨⟨5, 0⟩, stakeScript, []⟩, stakeScript, 10000, 2600⟩)
      ∧ (CheckProofOfStake exampleEnv exampleTip
          (exampleStake [5] [.data [], .standard 10400 stakeScript]) 2600 0x207fffff 0 0).map
          (fun r => (r.ret, r.state)) = some (true, ⟨0, ""⟩) :=
  ⟨by decide, by decide, by decide, by decide, rfl, by decide⟩

/-! ## The two loops of the output verification -/

/-- One iteration of the extra-input loop on an input that resolves to a
standard output with script `s` and value `v`. -/
theorem sumExtraInputs_cons_resolved (env : Env) (k : CScript) (txin : CTxIn)
    (rest : List CTxIn) (a : Int) (s : CScript) (v : Int)
    (h : resolveStandard env txin.prevout = some (s, v)) :
    sumExtraInputs env k (txin :: rest) a
      = if k != s then some (.error ⟨100, "mixed-prevout-scripts"⟩)
        else match addAmount a v with
          | none => none
          | some a2 => sumExtraInputs env k rest a2 := by
  unfold resolveStandard at h
  rw [sumExtraInputs]
  repeat' split at h
  all_goals
    first
    | (simp only [Option.some.injEq, Prod.mk.injEq, reduceCtorEq] at h; done)
    | (simp only [Option.some.injEq, Prod.mk.injEq] at h
       obtain ⟨hs, hv⟩ := h
       subst hs hv
       simp_all)

/-- One iteration of the extra-input loop on an input that does not resolve
to a standard output: the loop returns with prevout-not-in-chain or
invalid-prevout. -/
theorem sumExtraInputs_cons_unresolved (env : Env) (k : CScript) (txin : CTxIn)
    (rest : List CTxIn) (a : Int) (h : resolveStandard env txin.prevout = none) :
    sumExtraInputs env k (txin :: rest) a = some (.error ⟨1, "prevout-not-in-chain"⟩)
      ∨ sumExtraInputs env k (txin :: rest) a = some (.error ⟨100, "invalid-prevout"⟩) := by
  generalize hg : sumExtraInputs env k (txin :: rest) a = res
  rw [sumExtraInputs] at hg
  unfold resolveStandard at h
  repeat' split at hg
  all_goals (subst hg; simp_all)

/-- Value of an input that resolves to a standard output. -/
theorem inputValue_of_resolved (env : Env) (txin : CTxIn) (s : CScript) (v : Int)
    (h : resolveStandard env txin.prevout = some (s, v)) : inputValue env txin = v := by
  unfold inputValue
  rw [h]

/-- When the extra-input loop runs to its end, every input it visited
resolved to a standard output with the kernel script, and the final amount
is the initial amount plus the values of these outputs. -/
theorem sumExtraInputs_ok (env : Env) (k : CScript) (ins : List CTxIn) (a total : Int)
    (h : sumExtraInputs env k ins a = some (.ok total)) :
    (∀ i ∈ ins, ∃ w, resolveStandard env i.prevout = some (k, w))
      ∧ total = a + (ins.map (inputValue env)).sum := by
  induction ins generalizing a with
  | nil =>
    rw [sumExtraInputs] at h
    simp only [Option.some.injEq, Except.ok.injEq] at h
    simp [h]
  | cons txin rest ih =>
    cases hr : resolveStandard env txin.prevout with
    | none =>
      rcases sumExtraInputs_cons_unresolved env k txin rest a hr with h2 | h2 <;>
        rw [h2] at h <;> simp only [Option.some.injEq, reduceCtorEq] at h
    | some sv =>
      obtain ⟨s, v⟩ := sv
      rw [sumExtraInputs_cons_resolved env k txin rest a s v hr] at h
      split at h
      · simp only [Option.some.injEq, reduceCtorEq] at h
      · next hks =>
        have hks2 : k = s := by simpa using hks
        subst hks2
        split at h
        · simp only [reduceCtorEq] at h
        · next a2 ha2 =>
          obtain ⟨hall, htotal⟩ := ih a2 h
          have ha2v : a2 = a + v := by
            unfold addAmount at ha2
            split at ha2
            · simpa using ha2.symm
            · simp only [reduceCtorEq] at ha2
          refine ⟨?_, ?_⟩
          · intro i hi
            rcases List.mem_cons.mp hi with hi | hi
            · subst hi
              exact ⟨v, hr⟩
            · exact hall i hi
          · rw [htotal, ha2v, List.map_cons, List.sum_cons,
              inputValue_of_resolved env txin k v hr]
            ring

/-- The extra-input loop over inputs that all resolve to standard outputs
with the kernel script, with running totals that fit `int64_t`, reaches the
inputs after them with the amount increased by their values. -/
theorem sumExtraInputs_append (env : Env) (k : CScript) (pre rest : List CTxIn) (a : Int)
    (hpre : ∀ i ∈ pre, ∃ w, resolveStandard env i.prevout = some (k, w))
    (hfit : sumsFit a (pre.map (inputValue env)) = true) :
    sumExtraInputs env k (pre ++ rest) a
      = sumExtraInputs env k rest (a + (pre.map (inputValue env)).sum) := by
  induction pre generalizing a with
  | nil => simp
  | cons txin pre ih =>
    obtain ⟨w, hw⟩ := hpre txin (List.mem_cons_self _ _)
    have hval := inputValue_of_resolved env txin k w hw
    rw [List.map_cons, sumsFit, hval, Bool.and_eq_true] at hfit
    rw [List.cons_append, sumExtraInputs_cons_resolved env k txin (pre ++ rest) a k w hw]
    simp only [bne_self_eq_false, Bool.false_eq_true, if_false, addAmount, hfit.1, if_true]
    rw [ih (a + w) (fun i hi => hpre i (List.mem_cons_of_mem _ hi)) hfit.2,
      List.map_cons, List.sum_cons, hval, add_assoc]

/-- The output loop over outputs that are all standard or data outputs, with
running totals that fit `int64_t`, ends with `nVerify` increased by the
values of the standard outputs paying the kernel script. -/
theorem sumOutputs_ok (k : CScript) (outs : List CTxOutBase) (n : Int)
    (hout : ∀ o ∈ outs, o.IsType OutputType.OUTPUT_STANDARD = true
      ∨ o.IsType OutputType.OUTPUT_DATA = true)
    (hfit : sumsFit n (sameScriptValues k outs) = true) :
    sumOutputs k outs n = some (.ok (n + (sameScriptValues k outs).sum)) := by
  induction outs generalizing n with
  | nil => simp [sumOutputs, sameScriptValues]
  | cons o outs ih =>
    have hrest : ∀ o2 ∈ outs, o2.IsType OutputType.OUTPUT_STANDARD = true
        ∨ o2.IsType OutputType.OUTPUT_DATA = true :=
      fun o2 h2 => hout o2 (List.mem_cons_of_mem _ h2)
    have ho := hout o (List.mem_cons_self _ _)
    cases o with
    | standard v s =>
      by_cases hs : s = k
      · subst hs
        rw [sameScriptValues, if_pos rfl, sumsFit, Bool.and_eq_true] at hfit
        rw [sumOutputs]
        simp only [CTxOutBase.IsType, CTxOutBase.nVersion, decide_True, Bool.not_true,
          Bool.false_eq_true, if_false, beq_self_eq_true, if_true, addAmount, hfit.1]
        rw [ih (n + v) hrest hfit.2, sameScriptValues, if_pos rfl, List.sum_cons, add_assoc]
      · rw [sameScriptValues, if_neg hs] at hfit
        rw [sumOutputs]
        have hs2 : (s == k) = false := by simpa using hs
        simp only [CTxOutBase.IsType, CTxOutBase.nVersion, decide_True, Bool.not_true,
          Bool.false_eq_true, if_false, hs2]
        rw [ih n hrest hfit, sameScriptValues, if_neg hs]
    | data d =>
      have h1 : sameScriptValues k (.data d :: outs) = sameScriptValues k outs := rfl
      have h2 : sumOutputs k (.data d :: outs) n = sumOutputs k outs n := by
        simp [sumOutputs, CTxOutBase.IsType, CTxOutBase.nVersion]
      rw [h1] at hfit
      rw [h1, h2, ih n hrest hfit]
    | blind b =>
      cases b <;> simp [CTxOutBase.IsType, CTxOutBase.nVersion] at ho

/-! ## Signature, kernel and output verification -/

/-- Second half of `CheckProofOfStake` when the script verifier fails. -/
theorem verify_script_failed (env : Env) (pindexPrev : CBlockIndex) (tx : CTransaction)
    (txin : CTxIn) (nTime : Int) (nBits : Nat) (k : CScript) (a : Int) (t h0 t0 : Nat)
    (hsig : env.VerifyScript txin.scriptSig k txin.scriptWitness tx 0
      (leBytes 8 (castUint64 a)) = false) :
    CheckProofOfStake.verify env pindexPrev tx txin nTime nBits k a t h0 t0
      = some (DoS 100 "verify-script-failed" h0 t0) := by
  unfold CheckProofOfStake.verify
  simp only [hsig, Bool.not_false, if_true]

/-- Second half of `CheckProofOfStake` after the script verifier and the
kernel check succeeded on a coinstake-capable kernel script: the result is
decided by the two loops and the value comparison. -/
theorem verify_of_kernel_accept (env : Env) (pindexPrev : CBlockIndex) (tx : CTransaction)
    (txin : CTxIn) (nTime : Int) (nBits : Nat) (k : CScript) (a : Int) (t h0 t0 : Nat)
    (kr : KernelResult)
    (hsig : env.VerifyScript txin.scriptSig k txin.scriptWitness tx 0
      (leBytes 8 (castUint64 a)) = true)
    (hker : CheckStakeKernelHash env pindexPrev nBits t a txin.prevout (castUint32 nTime)
      h0 t0 env.LogAcceptCategory = some kr)
    (hacc : kr.ret = true) (hop : env.HasIsCoinstakeOp k = true) :
    CheckProofOfStake.verify env pindexPrev tx txin nTime nBits k a t h0 t0
      = match sumExtraInputs env k (tx.vin.drop 1) a with
        | none => none
        | some (.error state) =>
          some ⟨false, state, kr.hashProofOfStake, kr.targetProofOfStake⟩
        | some (.ok amount) =>
          match sumOutputs k tx.vpout 0 with
          | none => none
          | some (.error state) =>
            some ⟨false, state, kr.hashProofOfStake, kr.targetProofOfStake⟩
          | some (.ok nVerify) =>
            if nVerify < amount then
              some (DoS 100 "verify-amount-script-failed"
                kr.hashProofOfStake kr.targetProofOfStake)
            else
              some (accepted kr.hashProofOfStake kr.targetProofOfStake) := by
  unfold CheckProofOfStake.verify
  simp only [hsig, hker, hacc, hop, Bool.not_true, Bool.false_eq_true, if_false, if_true]

/-- When the second half of `CheckProofOfStake` returns true, the script
verifier and the kernel check succeeded. -/
theorem verify_accept (env : Env) (pindexPrev : CBlockIndex) (tx : CTransaction)
    (txin : CTxIn) (nTime : Int) (nBits : Nat) (k : CScript) (a : Int) (t h0 t0 : Nat)
    (r : PosResult)
    (h : CheckProofOfStake.verify env pindexPrev tx txin nTime nBits k a t h0 t0 = some r)
    (hret : r.ret = true) :
    env.VerifyScript txin.scriptSig k txin.scriptWitness tx 0 (leBytes 8 (castUint64 a))
        = true
      ∧ ∃ kr, CheckStakeKernelHash env pindexPrev nBits t a txin.prevout (castUint32 nTime)
          h0 t0 env.LogAcceptCategory = some kr ∧ kr.ret = true := by
  cases hsig : env.VerifyScript txin.scriptSig k txin.scriptWitness tx 0
      (leBytes 8 (castUint64 a)) with
  | false =>
    rw [verify_script_failed env pindexPrev tx txin nTime nBits k a t h0 t0 hsig] at h
    simp only [Option.some.injEq] at h
    rw [← h] at hret
    simp [DoS] at hret
  | true =>
    refine ⟨rfl, ?_⟩
    unfold CheckProofOfStake.verify at h
    simp only [hsig, Bool.not_true, Bool.false_eq_true, if_false] at h
    cases hker : CheckStakeKernelHash env pindexPrev nBits t a txin.prevout (castUint32 nTime)
        h0 t0 env.LogAcceptCategory with
    | none => rw [hker] at h; simp only [reduceCtorEq] at h
    | some kr =>
      refine ⟨kr, rfl, ?_⟩
      rw [hker] at h
      cases hacc : kr.ret with
      | true => rfl
      | false =>
        simp only [hacc, Bool.not_false, if_true, Option.some.injEq] at h
        rw [← h] at hret
        simp [DoS] at hret

/-- C9: `CheckProofOfStake` returns true only if the script verifier
succeeded on the first input against the locking script of the resolved
kernel coin with the 8 bytes of its amount; and whenever the coin resolution
reaches the verifier and the verifier fails, it rejects with
verify-script-failed, whatever the bits and candidate time (hence whatever
the kernel hash) are. -/
theorem verify_script_required (env : Env) (pindexPrev : CBlockIndex) (tx : CTransaction)
    (nTime : Int) (nBits : Nat) (h0 t0 : Nat) :
    (∀ r, CheckProofOfStake env pindexPrev tx nTime nBits h0 t0 = some r → r.ret = true →
        ∃ txin rest k a, tx.vin = txin :: rest
          ∧ resolveStandard env txin.prevout = some (k, a)
          ∧ env.VerifyScript txin.scriptSig k txin.scriptWitness tx 0
              (leBytes 8 (castUint64 a)) = true)
    ∧ (∀ kc, CheckProofOfStake.resolve env pindexPrev tx h0 t0 = some (.ok kc) →
        env.VerifyScript kc.txin.scriptSig kc.kernelPubKey kc.txin.scriptWitness tx 0
          (leBytes 8 (castUint64 kc.amount)) = false →
        CheckProofOfStake env pindexPrev tx nTime nBits h0 t0
          = some (DoS 100 "verify-script-failed" h0 t0)) := by
  constructor
  · intro r h hret
    unfold CheckProofOfStake at h
    cases hres : CheckProofOfStake.resolve env pindexPrev tx h0 t0 with
    | none => rw [hres] at h; simp only [reduceCtorEq] at h
    | some res =>
      rw [hres] at h
      cases res with
      | error rejected =>
        simp only [Option.some.injEq] at h
        rw [← h, resolve_error_ret env pindexPrev tx h0 t0 rejected hres] at hret
        exact absurd hret (by decide)
      | ok kc =>
        obtain ⟨_, ⟨rest, hvin⟩, hstd⟩ := resolve_ok_spec env pindexPrev tx h0 t0 kc hres
        exact ⟨kc.txin, rest, kc.kernelPubKey, kc.amount, hvin, hstd,
          (verify_accept env pindexPrev tx kc.txin nTime nBits kc.kernelPubKey kc.amount
            kc.nBlockFromTime h0 t0 r h hret).1⟩
  · intro kc hres hsig
    unfold CheckProofOfStake
    rw [hres]
    exact verify_script_failed env pindexPrev tx kc.txin nTime nBits kc.kernelPubKey
      kc.amount kc.nBlockFromTime h0 t0 hsig

/-- Witness for C9 on the example chain: the kernel coin (1, 0) is old
enough and the kernel hash meets the target, but the input is signed for
another script, so the verifier fails and the coinstake is rejected. -/
theorem verify_script_required_witness :
    CheckProofOfStake exampleEnv exampleTip ⟨[⟨⟨1, 0⟩, otherScript, []⟩], [], 2⟩ 2600
        0x207fffff 0 0
      = some (DoS 100 "verify-script-failed" 0 0) :=
  (verify_script_required exampleEnv exampleTip ⟨[⟨⟨1, 0⟩, otherScript, []⟩], [], 2⟩ 2600
    0x207fffff 0 0).2 ⟨⟨⟨1, 0⟩, otherScript, []⟩, stakeScript, 10000, 2424⟩ rfl rfl

/-- C2: on a coinstake that passed the coin resolution, the depth check, the
script verifier and the kernel check, with a coinstake-capable kernel
script, whose extra inputs all resolve to standard outputs with the kernel
script and whose outputs are all standard or data outputs (the running
totals fitting `int64_t`), `CheckProofOfStake` returns, and it accepts if
and only if the values of the standard outputs paying the kernel script sum
to at least the kernel value plus the values of the extra inputs. -/
theorem coinstake_value_check (env : Env) (pindexPrev : CBlockIndex) (tx : CTransaction)
    (nTime : Int) (nBits : Nat) (h0 t0 : Nat) (kc : KernelCoin) (kr : KernelResult)
    (hres : CheckProofOfStake.resolve env pindexPrev tx h0 t0 = some (.ok kc))
    (hop : env.HasIsCoinstakeOp kc.kernelPubKey = true)
    (hsig : env.VerifyScript kc.txin.scriptSig kc.kernelPubKey kc.txin.scriptWitness tx 0
      (leBytes 8 (castUint64 kc.amount)) = true)
    (hker : CheckStakeKernelHash env pindexPrev nBits kc.nBlockFromTime kc.amount
      kc.txin.prevout (castUint32 nTime) h0 t0 env.LogAcceptCategory = some kr)
    (hacc : kr.ret = true)
    (hin : ∀ i ∈ tx.vin.drop 1, ∃ w, resolveStandard env i.prevout = some (kc.kernelPubKey, w))
    (hout : ∀ o ∈ tx.vpout, o.IsType OutputType.OUTPUT_STANDARD = true
      ∨ o.IsType OutputType.OUTPUT_DATA = true)
    (hfitIn : sumsFit kc.amount ((tx.vin.drop 1).map (inputValue env)) = true)
    (hfitOut : sumsFit 0 (sameScriptValues kc.kernelPubKey tx.vpout) = true) :
    ∃ r, CheckProofOfStake env pindexPrev tx nTime nBits h0 t0 = some r
      ∧ (r.ret = true ↔
          kc.amount + ((tx.vin.drop 1).map (inputValue env)).sum
            ≤ (sameScriptValues kc.kernelPubKey tx.vpout).sum) := by
  have hloop := sumExtraInputs_append env kc.kernelPubKey (tx.vin.drop 1) [] kc.amount
    hin hfitIn
  rw [List.append_nil, sumExtraInputs] at hloop
  have houts := sumOutputs_ok kc.kernelPubKey tx.vpout 0 hout hfitOut
  rw [zero_add] at houts
  unfold CheckProofOfStake
  rw [hres]
  simp only
  rw [verify_of_kernel_accept env pindexPrev tx kc.txin nTime nBits kc.kernelPubKey
    kc.amount kc.nBlockFromTime h0 t0 kr hsig hker hacc hop, hloop]
  simp only [houts]
  split
  · next hlt =>
    refine ⟨_, rfl, ?_⟩
    simp only [DoS, Bool.false_eq_true, false_iff, not_le]
    exact hlt
  · next hge =>
    refine ⟨_, rfl, ?_⟩
    simp only [accepted, true_iff]
    exact not_lt.mp hge

/-- Witness for C2 on the example chain: kernel coin of 10000 and one extra
input of 500, both locked by the staker script; paying exactly 10500 to that
script is accepted. -/
theorem coinstake_value_check_witness :
    ∃ r, CheckProofOfStake exampleEnv exampleTip
          (exampleStake [1, 3] [.data [], .standard 10500 stakeScript]) 2600 0x207fffff 0 0
          = some r
      ∧ (r.ret = true ↔
          (10000 : Int) + (((exampleStake [1, 3] [.data [], .standard 10500
              stakeScript]).vin.drop 1).map (inputValue exampleEnv)).sum
            ≤ (sameScriptValues stakeScript (exampleStake [1, 3] [.data [],
                .standard 10500 stakeScript]).vpout).sum) :=
  coinstake_value_check exampleEnv exampleTip
    (exampleStake [1, 3] [.data [], .standard 10500 stakeScript]) 2600 0x207fffff 0 0
    ⟨⟨⟨1, 0⟩, stakeScript, []⟩, stakeScript, 10000, 2424⟩
    ⟨true, 370,
      115723071773848289785696637450065137598745473575918860173905958765675136679936⟩
    rfl rfl rfl (by decide) rfl
    (fun i hi => by
      have hi2 : i ∈ [(⟨⟨3, 0⟩, stakeScript, []⟩ : CTxIn)] := hi
      rw [List.mem_singleton] at hi2
      subst hi2
      exact ⟨500, rfl⟩)
    (by decide) (by decide) (by decide)

/-- The example of C2 evaluated: paying exactly the input sum 10500 is
accepted, paying 10499 is rejected by the value comparison. -/
theorem value_check_examples :
    (CheckProofOfStake exampleEnv exampleTip
        (exampleStake [1, 3] [.data [], .standard 10500 stakeScript]) 2600 0x207fffff 0 0).map
        (fun r => (r.ret, r.state)) = some (true, ⟨0, ""⟩)
      ∧ (CheckProofOfStake exampleEnv exampleTip
        (exampleStake [1, 3] [.data [], .standard 10499 stakeScript]) 2600 0x207fffff 0 0).map
        (fun r => (r.ret, r.state)) = some (false, ⟨100, "verify-amount-script-failed"⟩) := by
  decide

/-- C10 as stated fails: in the example coinstake the kernel (1, 0) passes
the signature and kernel checks with a coinstake-capable script, the extra
input (4, 0) resolves to a coin locked by another script, but the extra
input (6, 0) before it resolves nowhere, so the rejection is
prevout-not-in-chain and not mixed-prevout-scripts. -/
theorem mixed_scripts_other_reason :
    resolveStandard exampleEnv ⟨4, 0⟩ = some (otherScript, 500)
      ∧ otherScript ≠ stakeScript
      ∧ CheckProofOfStake.resolve exampleEnv exampleTip (exampleStake [1, 6, 4] []) 0 0
          = some (.ok ⟨⟨⟨1, 0⟩, stakeScript, []⟩, stakeScript, 10000, 2424⟩)
      ∧ exampleEnv.HasIsCoinstakeOp stakeScript = true
      ∧ exampleEnv.VerifyScript stakeScript stakeScript [] (exampleStake [1, 6, 4] []) 0
          (leBytes 8 (castUint64 10000)) = true
      ∧ (CheckStakeKernelHash exampleEnv exampleTip 0x207fffff 2424 10000 ⟨1, 0⟩
          (castUint32 2600) 0 0 exampleEnv.LogAcceptCategory).map (fun kr => kr.ret)
          = some true
      ∧ (CheckProofOfStake exampleEnv exampleTip (exampleStake [1, 6, 4] []) 2600
          0x207fffff 0 0).map (fun r => (r.ret, r.state))
          = some (false, ⟨1, "prevout-not-in-chain"⟩)
      ∧ (CheckProofOfStake exampleEnv exampleTip (exampleStake [1, 6, 4] []) 2600
          0x207fffff 0 0).map (fun r => r.state.strRejectReason)
          ≠ some "mixed-prevout-scripts" :=
  ⟨by decide, by decide, rfl, by decide, by decide, by decide, by decide, by decide⟩

/-- C10 (amended): on a coinstake with a coinstake-capable kernel script
that passed the signature and kernel checks, if an extra input resolves to a
standard output whose script differs from the kernel script while every
extra input before it resolves to a standard output with the kernel script
(the running amount fitting `int64_t`), the extra-input loop returns
mixed-prevout-scripts and `CheckProofOfStake` rejects with it, whatever the
outputs are; and if `CheckProofOfStake` accepts, every extra input resolved
to a standard output whose script equals the kernel script. -/
theorem mixed_prevout_scripts (env : Env) (pindexPrev : CBlockIndex) (tx : CTransaction)
    (nTime : Int) (nBits : Nat) (h0 t0 : Nat) (kc : KernelCoin) (kr : KernelResult)
    (hres : CheckProofOfStake.resolve env pindexPrev tx h0 t0 = some (.ok kc))
    (hop : env.HasIsCoinstakeOp kc.kernelPubKey = true)
    (hsig : env.VerifyScript kc.txin.scriptSig kc.kernelPubKey kc.txin.scriptWitness tx 0
      (leBytes 8 (castUint64 kc.amount)) = true)
    (hker : CheckStakeKernelHash env pindexPrev nBits kc.nBlockFromTime kc.amount
      kc.txin.prevout (castUint32 nTime) h0 t0 env.LogAcceptCategory = some kr)
    (hacc : kr.ret = true) :
    (∀ (pre : List CTxIn) (bad : CTxIn) (post : List CTxIn) (s : CScript) (v : Int),
        tx.vin.drop 1 = pre ++ bad :: post →
        (∀ i ∈ pre, ∃ w, resolveStandard env i.prevout = some (kc.kernelPubKey, w)) →
        sumsFit kc.amount (pre.map (inputValue env)) = true →
        resolveStandard env bad.prevout = some (s, v) → s ≠ kc.kernelPubKey →
        sumExtraInputs env kc.kernelPubKey (tx.vin.drop 1) kc.amount
            = some (.error ⟨100, "mixed-prevout-scripts"⟩)
          ∧ CheckProofOfStake env pindexPrev tx nTime nBits h0 t0
            = some ⟨false, ⟨100, "mixed-prevout-scripts"⟩, kr.hashProofOfStake,
                kr.targetProofOfStake⟩)
    ∧ (∀ r, CheckProofOfStake env pindexPrev tx nTime nBits h0 t0 = some r → r.ret = true →
        ∀ i ∈ tx.vin.drop 1, ∃ w,
          resolveStandard env i.prevout = some (kc.kernelPubKey, w)) := by
  have hverify := verify_of_kernel_accept env pindexPrev tx kc.txin nTime nBits
    kc.kernelPubKey kc.amount kc.nBlockFromTime h0 t0 kr hsig hker hacc hop
  have hwhole : CheckProofOfStake env pindexPrev tx nTime nBits h0 t0
      = CheckProofOfStake.verify env pindexPrev tx kc.txin nTime nBits kc.kernelPubKey
          kc.amount kc.nBlockFromTime h0 t0 := by
    unfold CheckProofOfStake
    rw [hres]
  constructor
  · intro pre bad post s v hsplit hpre hfit hbad hne
    have hloop : sumExtraInputs env kc.kernelPubKey (tx.vin.drop 1) kc.amount
        = some (.error ⟨100, "mixed-prevout-scripts"⟩) := by
      rw [hsplit, sumExtraInputs_append env kc.kernelPubKey pre (bad :: post) kc.amount
        hpre hfit, sumExtraInputs_cons_resolved env kc.kernelPubKey bad post _ s v hbad]
      have hne2 : (kc.kernelPubKey != s) = true := by
        simpa using fun h : kc.kernelPubKey = s => hne h.symm
      rw [if_pos hne2]
    refine ⟨hloop, ?_⟩
    rw [hwhole, hverify, hloop]
  · intro r h hret i hi
    rw [hwhole, hverify] at h
    cases hloop : sumExtraInputs env kc.kernelPubKey (tx.vin.drop 1) kc.amount with
    | none => rw [hloop] at h; simp only [reduceCtorEq] at h
    | some res =>
      cases res with
      | error state =>
        rw [hloop] at h
        simp only [Option.some.injEq] at h
        rw [← h] at hret
        exact absurd hret Bool.false_ne_true
      | ok total =>
        exact (sumExtraInputs_ok env kc.kernelPubKey (tx.vin.drop 1) kc.amount total
          hloop).1 i hi

/-- Witness for C10 (amended) on the example chain: extra input (3, 0) is
locked by the staker script, extra input (4, 0) by another script. -/
theorem mixed_prevout_scripts_witness :
    sumExtraInputs exampleEnv stakeScript ((exampleStake [1, 3, 4] []).vin.drop 1) 10000
        = some (.error ⟨100, "mixed-prevout-scripts"⟩)
      ∧ CheckProofOfStake exampleEnv exampleTip (exampleStake [1, 3, 4] []) 2600
          0x207fffff 0 0
        = some ⟨false, ⟨100, "mixed-prevout-scripts"⟩, 370,
            115723071773848289785696637450065137598745473575918860173905958765675136679936⟩ :=
  (mixed_prevout_scripts exampleEnv exampleTip (exampleStake [1, 3, 4] []) 2600 0x207fffff
    0 0 ⟨⟨⟨1, 0⟩, stakeScript, []⟩, stakeScript, 10000, 2424⟩
    ⟨true, 370,
      115723071773848289785696637450065137598745473575918860173905958765675136679936⟩
    rfl rfl rfl (by decide) rfl).1
    [⟨⟨3, 0⟩, stakeScript, []⟩] ⟨⟨4, 0⟩, stakeScript, []⟩ [] otherScript 500 rfl
    (fun i hi => by
      rw [List.mem_singleton] at hi
      subst hi
      exact ⟨500, rfl⟩)
    (by decide) (by decide) (by decide)

/-! ## Stake modifier -/

/-- C17: with no predecessor `ComputeStakeModifierV2` returns the all-zero
value, for every kernel hash. -/
theorem ComputeStakeModifierV2_genesis (env : Env) (kernel : Nat) :
    ComputeStakeModifierV2 env [] kernel = 0 := by
  rfl

/-- C18: with a predecessor, `ComputeStakeModifierV2` returns the hash of
the serialised kernel hash followed by the serialised stored modifier of the
predecessor; a predecessor entry with the same stored modifier gives the
same result, whatever its height, time, hash and ancestors are. -/
theorem ComputeStakeModifierV2_pred (env : Env) (prev : BlockEntry) (pprev : CBlockIndex)
    (kernel : Nat) :
    ComputeStakeModifierV2 env (prev :: pprev) kernel
        = env.Hash (env.ser256 kernel ++ env.ser256 prev.bnStakeModifier)
      ∧ ∀ (prev2 : BlockEntry) (pprev2 : CBlockIndex),
          prev2.bnStakeModifier = prev.bnStakeModifier →
          ComputeStakeModifierV2 env (prev2 :: pprev2) kernel
            = ComputeStakeModifierV2 env (prev :: pprev) kernel := by
  refine ⟨rfl, ?_⟩
  intro prev2 pprev2 hmod
  unfold ComputeStakeModifierV2
  simp only [hmod]

/-- Witness for C18: the entry at height 100 of the example chain and an
entry with the same modifier at another height, time and hash, without
ancestors. -/
theorem ComputeStakeModifierV2_pred_witness :
    ComputeStakeModifierV2 exampleEnv [⟨3, 77, 700, 1⟩] 456
      = ComputeStakeModifierV2 exampleEnv (exampleEntry 100 :: exampleIndex 99) 456 :=
  (ComputeStakeModifierV2_pred exampleEnv (exampleEntry 100) (exampleIndex 99) 456).2
    ⟨3, 77, 700, 1⟩ [] (by decide)

/-! ## Malformed transactions and non-standard kernel outputs -/

/-- C15: a transaction that is not a coinstake or has no inputs is rejected
with malformed-txn; the result is the same for every predecessor (a null one
included), every coin set, transaction index, verifier and hash function,
and the two result slots keep their entry values. -/
theorem CheckProofOfStake_malformed (env : Env) (pindexPrev : CBlockIndex)
    (tx : CTransaction) (nTime : Int) (nBits : Nat) (h0 t0 : Nat)
    (h : env.IsCoinStake tx = false ∨ tx.vin = []) :
    CheckProofOfStake env pindexPrev tx nTime nBits h0 t0
      = some (DoS 100 "malformed-txn" h0 t0) := by
  have hres : CheckProofOfStake.resolve env pindexPrev tx h0 t0
      = some (.error (DoS 100 "malformed-txn" h0 t0)) := by
    unfold CheckProofOfStake.resolve
    rcases h with h | h
    · rw [h]
    · rw [h]
      cases env.IsCoinStake tx <;> rfl
  unfold CheckProofOfStake
  rw [hres]

/-- Witness for C15: a transaction of the standard type with one input, and
a coinstake without inputs, both with a null predecessor. -/
theorem CheckProofOfStake_malformed_witness :
    CheckProofOfStake exampleEnv [] ⟨[⟨⟨1, 0⟩, stakeScript, []⟩], [], 0⟩ 2600 0x207fffff 7 9
        = some (DoS 100 "malformed-txn" 7 9)
      ∧ CheckProofOfStake exampleEnv [] ⟨[], [], 2⟩ 2600 0x207fffff 7 9
        = some (DoS 100 "malformed-txn" 7 9) :=
  ⟨CheckProofOfStake_malformed exampleEnv [] ⟨[⟨⟨1, 0⟩, stakeScript, []⟩], [], 0⟩ 2600
      0x207fffff 7 9 (Or.inl (by decide)),
   CheckProofOfStake_malformed exampleEnv [] ⟨[], [], 2⟩ 2600 0x207fffff 7 9
      (Or.inr rfl)⟩

/-- First half of `CheckProofOfStake` on a coinstake whose kernel outpoint
the live coin set holds unspent (lines 197-211). -/
theorem resolve_of_live (env : Env) (pindexPrev : CBlockIndex) (tx : CTransaction)
    (txin : CTxIn) (rest : List CTxIn) (h0 t0 : Nat) (coin : Coin)
    (hCS : env.IsCoinStake tx = true) (hvin : tx.vin = txin :: rest)
    (hlive : liveCoin env txin.prevout = some coin) :
    CheckProofOfStake.resolve env pindexPrev tx h0 t0
      = if coin.nType != OutputType.OUTPUT_STANDARD then
          some (.error (DoS 100 "invalid-prevout" h0 t0))
        else
          match env.chainActive coin.nHeight with
          | [] => some (.error (DoS 100 "invalid-prevout" h0 t0))
          | pindex :: _ =>
            match pindexPrev with
            | [] => none
            | prev :: _ =>
              if min (castInt (castUint64 ((env.nStakeMinConfirmations : Int) - 1)))
                  (castInt (Int.tdiv prev.nHeight 2)) > prev.nHeight - coin.nHeight then
                some (.error (DoS 100 "invalid-stake-depth" h0 t0))
              else
                some (.ok ⟨txin, coin.out.scriptPubKey, coin.out.nValue, pindex.nTime⟩) := by
  unfold CheckProofOfStake.resolve
  rw [hCS, hvin]
  simp only [hlive]

/-- First half of `CheckProofOfStake` on a coinstake whose kernel outpoint is
absent from the live coin set or spent there (lines 177-194). -/
theorem resolve_of_historical (env : Env) (pindexPrev : CBlockIndex) (tx : CTransaction)
    (txin : CTxIn) (rest : List CTxIn) (h0 t0 : Nat)
    (hCS : env.IsCoinStake tx = true) (hvin : tx.vin = txin :: rest)
    (hlive : liveCoin env txin.prevout = none) :
    CheckProofOfStake.resolve env pindexPrev tx h0 t0
      = match env.GetTransaction txin.prevout.hash with
        | none => some (.error (DoS 10 "prevout-not-in-chain" h0 t0))
        | some (txPrev, blockKernel) =>
          match txPrev.vpout.get? txin.prevout.n with
          | none => some (.error (DoS 10 "prevout-not-in-chain" h0 t0))
          | some (.standard nValue scriptPubKey) =>
            match CheckAge env pindexPrev 0 0 with
            | none => none
            | some (false, _) => some (.error (DoS 100 "invalid-stake-depth" h0 t0))
            | some (true, _) => some (.ok ⟨txin, scriptPubKey, nValue, blockKernel.nTime⟩)
          | some _ => some (.error (DoS 100 "invalid-prevout" h0 t0)) := by
  unfold CheckProofOfStake.resolve
  rw [hCS, hvin]
  simp only [hlive]

/-- `CheckProofOfStake` returns what its first half returns when that half
ends in a return statement. -/
theorem CheckProofOfStake_of_resolve_error (env : Env) (pindexPrev : CBlockIndex)
    (tx : CTransaction) (nTime : Int) (nBits : Nat) (h0 t0 : Nat) (rejected : PosResult)
    (h : CheckProofOfStake.resolve env pindexPrev tx h0 t0 = some (.error rejected)) :
    CheckProofOfStake env pindexPrev tx nTime nBits h0 t0 = some rejected := by
  unfold CheckProofOfStake
  rw [h]

/-- C14: a coinstake whose kernel outpoint resolves, in the live coin set or
by the historical lookup, to an output that is not a standard output is
rejected by `CheckProofOfStake` (invalid-prevout); `CheckKernel` returns
false on a coin of the live set that is not a standard output. -/
theorem nonstandard_kernel_rejected (env : Env) (pindexPrev : CBlockIndex)
    (tx : CTransaction) (txin : CTxIn) (rest : List CTxIn) (nTime : Int) (nBits : Nat)
    (h0 t0 : Nat)
    (hCS : env.IsCoinStake tx = true) (hvin : tx.vin = txin :: rest) :
    (∀ coin, liveCoin env txin.prevout = some coin →
        coin.nType ≠ OutputType.OUTPUT_STANDARD →
        CheckProofOfStake env pindexPrev tx nTime nBits h0 t0
          = some (DoS 100 "invalid-prevout" h0 t0))
    ∧ (∀ txPrev blockKernel outPrev, liveCoin env txin.prevout = none →
        env.GetTransaction txin.prevout.hash = some (txPrev, blockKernel) →
        txPrev.vpout.get? txin.prevout.n = some outPrev →
        outPrev.IsType OutputType.OUTPUT_STANDARD = false →
        CheckProofOfStake env pindexPrev tx nTime nBits h0 t0
          = some (DoS 100 "invalid-prevout" h0 t0))
    ∧ (∀ (prevout : COutPoint) (coin : Coin) (pBlockTime : Option Int),
        env.GetCoin prevout = some coin → coin.nType ≠ OutputType.OUTPUT_STANDARD →
        CheckKernel env pindexPrev nBits nTime prevout pBlockTime
          = some (false, pBlockTime)) := by
  refine ⟨?_, ?_, ?_⟩
  · intro coin hlive hns
    apply CheckProofOfStake_of_resolve_error
    rw [resolve_of_live env pindexPrev tx txin rest h0 t0 coin hCS hvin hlive]
    have hne : (coin.nType != OutputType.OUTPUT_STANDARD) = true := by simpa using hns
    rw [if_pos hne]
  · intro txPrev blockKernel outPrev hlive htx hout hns
    apply CheckProofOfStake_of_resolve_error
    rw [resolve_of_historical env pindexPrev tx txin rest h0 t0 hCS hvin hlive, htx]
    simp only [hout]
    cases outPrev with
    | standard v s => simp [CTxOutBase.IsType, CTxOutBase.nVersion] at hns
    | data d => rfl
    | blind b => rfl
  · intro prevout coin pBlockTime hcoin hns
    have hne : (coin.nType != OutputType.OUTPUT_STANDARD) = true := by simpa using hns
    unfold CheckKernel
    rw [hcoin]
    simp only [hne, if_true]

/-- Witness for C14: the kernel outpoint (7, 0) is a blinded coin of the live
set. -/
theorem nonstandard_kernel_rejected_witness :
    CheckProofOfStake blindEnv exampleTip (exampleStake [7] []) 2600 0x207fffff 0 0
        = some (DoS 100 "invalid-prevout" 0 0)
      ∧ CheckKernel blindEnv exampleTip 0x207fffff 2600 ⟨7, 0⟩ (some 0)
        = some (false, some 0) :=
  ⟨(nonstandard_kernel_rejected blindEnv exampleTip (exampleStake [7] [])
      ⟨⟨7, 0⟩, stakeScript, []⟩ [] 2600 0x207fffff 0 0 rfl rfl).1
      ⟨⟨0, []⟩, .OUTPUT_CT, 50, false⟩ rfl (by decide),
   (nonstandard_kernel_rejected blindEnv exampleTip (exampleStake [7] [])
      ⟨⟨7, 0⟩, stakeScript, []⟩ [] 2600 0x207fffff 0 0 rfl rfl).2.2
      ⟨7, 0⟩ ⟨⟨0, []⟩, .OUTPUT_CT, 50, false⟩ (some 0) rfl (by decide)⟩

/-! ## Rejections of the two loops -/

/-- One iteration of the output loop on a standard output. -/
theorem sumOutputs_cons_standard (k : CScript) (v : Int) (s : CScript)
    (rest : List CTxOutBase) (n : Int) :
    sumOutputs k (.standard v s :: rest) n
      = if s == k then
          match addAmount n v with
          | none => none
          | some n2 => sumOutputs k rest n2
        else sumOutputs k rest n := by
  simp [sumOutputs, CTxOutBase.IsType, CTxOutBase.nVersion]

/-- One iteration of the output loop on a data output: it is skipped. -/
theorem sumOutputs_cons_data (k : CScript) (d : List Nat) (rest : List CTxOutBase) (n : Int) :
    sumOutputs k (.data d :: rest) n = sumOutputs k rest n := by
  simp [sumOutputs, CTxOutBase.IsType, CTxOutBase.nVersion]

/-- One iteration of the output loop on an output that is neither a standard
nor a data output: the loop returns bad-output-type. -/
theorem sumOutputs_cons_bad (k : CScript) (o : CTxOutBase) (rest : List CTxOutBase) (n : Int)
    (hstd : o.IsType OutputType.OUTPUT_STANDARD = false)
    (hdata : o.IsType OutputType.OUTPUT_DATA = false) :
    sumOutputs k (o :: rest) n = some (.error ⟨100, "bad-output-type"⟩) := by
  simp only [sumOutputs, hstd, hdata, Bool.not_false, if_true]

/-- The only rejection of the output loop is bad-output-type. -/
theorem sumOutputs_error (k : CScript) (outs : List CTxOutBase) (n : Int)
    (state : CValidationState) (h : sumOutputs k outs n = some (.error state)) :
    state = ⟨100, "bad-output-type"⟩ := by
  induction outs generalizing n with
  | nil =>
    rw [sumOutputs] at h
    simp only [Option.some.injEq, reduceCtorEq] at h
  | cons o outs ih =>
    cases o with
    | standard v s =>
      rw [sumOutputs_cons_standard] at h
      split at h
      · split at h
        · simp only [reduceCtorEq] at h
        · next n2 _ => exact ih n2 h
      · exact ih n h
    | data d =>
      rw [sumOutputs_cons_data] at h
      exact ih n h
    | blind b =>
      rw [sumOutputs_cons_bad k (.blind b) outs n (by cases b <;> rfl)
        (by cases b <;> rfl)] at h
      simp only [Option.some.injEq, Except.error.injEq] at h
      exact h.symm

/-- A rejection of the extra-input loop carries the level 1 or 100. -/
theorem sumExtraInputs_error (env : Env) (k : CScript) (ins : List CTxIn) (a : Int)
    (state : CValidationState) (h : sumExtraInputs env k ins a = some (.error state)) :
    state.nDoS = 1 ∨ state.nDoS = 100 := by
  induction ins generalizing a with
  | nil =>
    rw [sumExtraInputs] at h
    simp only [Option.some.injEq, reduceCtorEq] at h
  | cons txin rest ih =>
    cases hr : resolveStandard env txin.prevout with
    | none =>
      rcases sumExtraInputs_cons_unresolved env k txin rest a hr with h2 | h2 <;>
        rw [h2] at h <;> simp only [Option.some.injEq, Except.error.injEq] at h <;>
        rw [← h] <;> simp
    | some sv =>
      obtain ⟨s, v⟩ := sv
      rw [sumExtraInputs_cons_resolved env k txin rest a s v hr] at h
      split at h
      · simp only [Option.some.injEq, Except.error.injEq] at h
        rw [← h]
        simp
      · split at h
        · simp only [reduceCtorEq] at h
        · next a2 _ => exact ih a2 h

/-- A rejection of the extra-input loop does not carry the level 10. -/
theorem sumExtraInputs_level (env : Env) (k : CScript) (ins : List CTxIn) (a : Int)
    (state : CValidationState) (h : sumExtraInputs env k ins a = some (.error state)) :
    state.nDoS ≠ 10 := by
  rcases sumExtraInputs_error env k ins a state h with h1 | h1 <;> rw [h1] <;> decide

/-- A rejection of the output loop does not carry the level 10. -/
theorem sumOutputs_level (k : CScript) (outs : List CTxOutBase) (n : Int)
    (state : CValidationState) (h : sumOutputs k outs n = some (.error state)) :
    state.nDoS ≠ 10 := by
  rw [sumOutputs_error k outs n state h]
  decide

/-- The second half of `CheckProofOfStake` never returns with the level 10. -/
theorem verify_level (env : Env) (pindexPrev : CBlockIndex) (tx : CTransaction)
    (txin : CTxIn) (nTime : Int) (nBits : Nat) (k : CScript) (a : Int) (t h0 t0 : Nat)
    (r : PosResult)
    (h : CheckProofOfStake.verify env pindexPrev tx txin nTime nBits k a t h0 t0 = some r) :
    r.state.nDoS ≠ 10 := by
  unfold CheckProofOfStake.verify at h
  dsimp only at h
  repeat' split at h
  all_goals
    first
    | (simp only [reduceCtorEq] at h)
    | (simp only [Option.some.injEq] at h
       subst h
       first
       | (simp [DoS, accepted]; done)
       | (rename_i state hloop; exact sumExtraInputs_level _ _ _ _ state hloop)
       | (rename_i state hloop; exact sumOutputs_level _ _ _ state hloop))

/-! ## Resolution of the kernel coin -/

/-- The first half of `CheckProofOfStake` on a coinstake returns
prevout-not-in-chain exactly when the live lookup fails and the historical
lookup finds no transaction or no output at the index. -/
theorem resolve_not_in_chain_iff (env : Env) (pindexPrev : CBlockIndex) (tx : CTransaction)
    (txin : CTxIn) (rest : List CTxIn) (h0 t0 : Nat)
    (hCS : env.IsCoinStake tx = true) (hvin : tx.vin = txin :: rest) :
    CheckProofOfStake.resolve env pindexPrev tx h0 t0
        = some (.error (DoS 10 "prevout-not-in-chain" h0 t0))
      ↔ liveCoin env txin.prevout = none
        ∧ (env.GetTransaction txin.prevout.hash = none
          ∨ ∃ txPrev blockKernel,
              env.GetTransaction txin.prevout.hash = some (txPrev, blockKernel)
              ∧ txPrev.vpout.length ≤ txin.prevout.n) := by
  cases hlive : liveCoin env txin.prevout with
  | some coin =>
    rw [resolve_of_live env pindexPrev tx txin rest h0 t0 coin hCS hvin hlive]
    constructor
    · intro h
      exfalso
      repeat' split at h
      all_goals simp [DoS] at h
    · intro h
      simp at h
  | none =>
    rw [resolve_of_historical env pindexPrev tx txin rest h0 t0 hCS hvin hlive]
    cases htx : env.GetTransaction txin.prevout.hash with
    | none => simp
    | some found =>
      obtain ⟨txPrev, blockKernel⟩ := found
      dsimp only
      cases hout : txPrev.vpout.get? txin.prevout.n with
      | none =>
        have hlen : txPrev.vpout.length ≤ txin.prevout.n := List.get?_eq_none.mp hout
        simp [hlen]
      | some outPrev =>
        have hlen : ¬ txPrev.vpout.length ≤ txin.prevout.n := by
          intro hle
          rw [List.get?_eq_none.mpr hle] at hout
          simp only [reduceCtorEq] at hout
        constructor
        · intro h
          exfalso
          cases outPrev with
          | standard v sc =>
            dsimp only at h
            repeat' split at h
            all_goals simp [DoS] at h
          | data d => simp [DoS] at h
          | blind b => simp [DoS] at h
        · intro h
          simp [hlen] at h

/-- C13: on a coinstake with at least one input, the kernel coin comes from
the live coin set when it holds the outpoint unspent and from the historical
lookup otherwise; `CheckProofOfStake` returns the kernel rejection
prevout-not-in-chain (level 10, result slots untouched) if and only if the
live lookup fails and the historical lookup finds no transaction or the
outpoint index is not below the number of outputs of the transaction. -/
theorem kernel_coin_resolution (env : Env) (pindexPrev : CBlockIndex) (tx : CTransaction)
    (txin : CTxIn) (rest : List CTxIn) (nTime : Int) (nBits : Nat) (h0 t0 : Nat)
    (hCS : env.IsCoinStake tx = true) (hvin : tx.vin = txin :: rest) :
    (CheckProofOfStake env pindexPrev tx nTime nBits h0 t0
        = some (DoS 10 "prevout-not-in-chain" h0 t0)
      ↔ liveCoin env txin.prevout = none
        ∧ (env.GetTransaction txin.prevout.hash = none
          ∨ ∃ txPrev blockKernel,
              env.GetTransaction txin.prevout.hash = some (txPrev, blockKernel)
              ∧ txPrev.vpout.length ≤ txin.prevout.n))
    ∧ (∀ coin kc, liveCoin env txin.prevout = some coin →
        CheckProofOfStake.resolve env pindexPrev tx h0 t0 = some (.ok kc) →
        kc.kernelPubKey = coin.out.scriptPubKey ∧ kc.amount = coin.out.nValue
          ∧ ∃ pindex ptail, env.chainActive coin.nHeight = pindex :: ptail
              ∧ kc.nBlockFromTime = pindex.nTime)
    ∧ (∀ kc, liveCoin env txin.prevout = none →
        CheckProofOfStake.resolve env pindexPrev tx h0 t0 = some (.ok kc) →
        ∃ txPrev blockKernel,
          env.GetTransaction txin.prevout.hash = some (txPrev, blockKernel)
          ∧ txPrev.vpout.get? txin.prevout.n = some (.standard kc.amount kc.kernelPubKey)
          ∧ kc.nBlockFromTime = blockKernel.nTime) := by
  refine ⟨?_, ?_, ?_⟩
  · rw [← resolve_not_in_chain_iff env pindexPrev tx txin rest h0 t0 hCS hvin]
    constructor
    · intro h
      unfold CheckProofOfStake at h
      cases hres : CheckProofOfStake.resolve env pindexPrev tx h0 t0 with
      | none => rw [hres] at h; simp only [reduceCtorEq] at h
      | some res =>
        rw [hres] at h
        cases res with
        | error rejected =>
          simp only [Option.some.injEq] at h
          rw [h]
        | ok kc =>
          exfalso
          exact verify_level env pindexPrev tx kc.txin nTime nBits kc.kernelPubKey
            kc.amount kc.nBlockFromTime h0 t0 _ h rfl
    · intro h
      exact CheckProofOfStake_of_resolve_error env pindexPrev tx nTime nBits h0 t0 _ h
  · intro coin kc hlive hres
    rw [resolve_of_live env pindexPrev tx txin rest h0 t0 coin hCS hvin hlive] at hres
    split at hres
    · simp only [Option.some.injEq, reduceCtorEq] at hres
    · split at hres
      · simp only [Option.some.injEq, reduceCtorEq] at hres
      · next pindex ptail hidx =>
        split at hres
        · simp only [reduceCtorEq] at hres
        · split at hres
          · simp only [Option.some.injEq, reduceCtorEq] at hres
          · simp only [Option.some.injEq, Except.ok.injEq] at hres
            subst hres
            exact ⟨rfl, rfl, pindex, ptail, hidx, rfl⟩
  · intro kc hlive hres
    rw [resolve_of_historical env pindexPrev tx txin rest h0 t0 hCS hvin hlive] at hres
    split at hres
    · simp only [Option.some.injEq, reduceCtorEq] at hres
    · next txPrev blockKernel htx =>
      split at hres
      · simp only [Option.some.injEq, reduceCtorEq] at hres
      · next v sc hout =>
        split at hres
        · simp only [reduceCtorEq] at hres
        · simp only [Option.some.injEq, reduceCtorEq] at hres
        · simp only [Option.some.injEq, Except.ok.injEq] at hres
          subst hres
          exact ⟨txPrev, blockKernel, htx, hout, rfl⟩
      · simp only [Option.some.injEq, reduceCtorEq] at hres

/-- Witness for C13: the kernel outpoint (6, 0) is in neither the live coin
set nor the transaction index. -/
theorem kernel_coin_resolution_witness :
    CheckProofOfStake exampleEnv exampleTip (exampleStake [6] []) 2600 0x207fffff 0 0
      = some (DoS 10 "prevout-not-in-chain" 0 0) :=
  (kernel_coin_resolution exampleEnv exampleTip (exampleStake [6] [])
    ⟨⟨6, 0⟩, stakeScript, []⟩ [] 2600 0x207fffff 0 0 rfl rfl).1.mpr
    ⟨rfl, Or.inl rfl⟩

/-! ## Kernel scripts without the coinstake opcode -/

/-- Second half of `CheckProofOfStake` when the kernel script is not
coinstake-capable: the block of lines 236-286 is skipped. -/
theorem verify_no_coinstake_op (env : Env) (pindexPrev : CBlockIndex) (tx : CTransaction)
    (txin : CTxIn) (nTime : Int) (nBits : Nat) (k : CScript) (a : Int) (t h0 t0 : Nat)
    (hop : env.HasIsCoinstakeOp k = false) :
    CheckProofOfStake.verify env pindexPrev tx txin nTime nBits k a t h0 t0
      = if !env.VerifyScript txin.scriptSig k txin.scriptWitness tx 0
            (leBytes 8 (castUint64 a)) then
          some (DoS 100 "verify-script-failed" h0 t0)
        else
          match CheckStakeKernelHash env pindexPrev nBits t a txin.prevout
              (castUint32 nTime) h0 t0 env.LogAcceptCategory with
          | none => none
          | some kernel =>
            if !kernel.ret then
              some (DoS 1 "check-kernel-failed" kernel.hashProofOfStake
                kernel.targetProofOfStake)
            else
              some (accepted kernel.hashProofOfStake kernel.targetProofOfStake) := by
  unfold CheckProofOfStake.verify
  simp only [hop, Bool.false_eq_true, if_false]

/-- When the kernel locking script is not coinstake-capable,
`CheckProofOfStake` accepts if and only if the transaction is a coinstake
with at least one input, the first half reaches the verifier with the kernel
coin resolved to a standard output, the script verifier succeeds and
`CheckStakeKernelHash` accepts; the result is then decided by the verifier
and the kernel check alone, without the extra inputs or the outputs being
visited. -/
theorem non_coinstake_script (env : Env) (pindexPrev : CBlockIndex) (tx : CTransaction)
    (nTime : Int) (nBits : Nat) (h0 t0 : Nat)
    (hno : ∀ kc, CheckProofOfStake.resolve env pindexPrev tx h0 t0 = some (.ok kc) →
      env.HasIsCoinstakeOp kc.kernelPubKey = false) :
    ((∃ r, CheckProofOfStake env pindexPrev tx nTime nBits h0 t0 = some r ∧ r.ret = true)
      ↔ env.IsCoinStake tx = true ∧ tx.vin ≠ []
        ∧ ∃ kc kr, CheckProofOfStake.resolve env pindexPrev tx h0 t0 = some (.ok kc)
          ∧ resolveStandard env kc.txin.prevout = some (kc.kernelPubKey, kc.amount)
          ∧ env.VerifyScript kc.txin.scriptSig kc.kernelPubKey kc.txin.scriptWitness tx 0
              (leBytes 8 (castUint64 kc.amount)) = true
          ∧ CheckStakeKernelHash env pindexPrev nBits kc.nBlockFromTime kc.amount
              kc.txin.prevout (castUint32 nTime) h0 t0 env.LogAcceptCategory = some kr
          ∧ kr.ret = true)
    ∧ (∀ kc, CheckProofOfStake.resolve env pindexPrev tx h0 t0 = some (.ok kc) →
        CheckProofOfStake env pindexPrev tx nTime nBits h0 t0
          = if !env.VerifyScript kc.txin.scriptSig kc.kernelPubKey kc.txin.scriptWitness
                tx 0 (leBytes 8 (castUint64 kc.amount)) then
              some (DoS 100 "verify-script-failed" h0 t0)
            else
              match CheckStakeKernelHash env pindexPrev nBits kc.nBlockFromTime kc.amount
                  kc.txin.prevout (castUint32 nTime) h0 t0 env.LogAcceptCategory with
              | none => none
              | some kernel =>
                if !kernel.ret then
                  some (DoS 1 "check-kernel-failed" kernel.hashProofOfStake
                    kernel.targetProofOfStake)
                else
                  some (accepted kernel.hashProofOfStake kernel.targetProofOfStake)) := by
  have hwhole : ∀ kc, CheckProofOfStake.resolve env pindexPrev tx h0 t0 = some (.ok kc) →
      CheckProofOfStake env pindexPrev tx nTime nBits h0 t0
        = CheckProofOfStake.verify env pindexPrev tx kc.txin nTime nBits kc.kernelPubKey
            kc.amount kc.nBlockFromTime h0 t0 := by
    intro kc hres
    unfold CheckProofOfStake
    rw [hres]
  refine ⟨⟨?_, ?_⟩, ?_⟩
  · rintro ⟨r, h, hret⟩
    cases hres : CheckProofOfStake.resolve env pindexPrev tx h0 t0 with
    | none =>
      unfold CheckProofOfStake at h
      rw [hres] at h
      simp only [reduceCtorEq] at h
    | some res =>
      cases res with
      | error rejected =>
        rw [CheckProofOfStake_of_resolve_error env pindexPrev tx nTime nBits h0 t0 rejected
          hres] at h
        simp only [Option.some.injEq] at h
        rw [← h, resolve_error_ret env pindexPrev tx h0 t0 rejected hres] at hret
        exact absurd hret Bool.false_ne_true
      | ok kc =>
        obtain ⟨hcs, ⟨rest, hvin⟩, hstd⟩ := resolve_ok_spec env pindexPrev tx h0 t0 kc hres
        rw [hwhole kc hres] at h
        obtain ⟨hsig, kr, hker, hacc⟩ := verify_accept env pindexPrev tx kc.txin nTime nBits
          kc.kernelPubKey kc.amount kc.nBlockFromTime h0 t0 r h hret
        refine ⟨hcs, ?_, kc, kr, rfl, hstd, hsig, hker, hacc⟩
        rw [hvin]
        exact List.cons_ne_nil _ _
  · rintro ⟨_, _, kc, kr, hres, _, hsig, hker, hacc⟩
    refine ⟨accepted kr.hashProofOfStake kr.targetProofOfStake, ?_, rfl⟩
    rw [hwhole kc hres, verify_no_coinstake_op env pindexPrev tx kc.txin nTime nBits
      kc.kernelPubKey kc.amount kc.nBlockFromTime h0 t0 (hno kc hres)]
    simp only [hsig, hker, hacc, Bool.not_true, Bool.false_eq_true, if_false]
  · intro kc hres
    rw [hwhole kc hres, verify_no_coinstake_op env pindexPrev tx kc.txin nTime nBits
      kc.kernelPubKey kc.amount kc.nBlockFromTime h0 t0 (hno kc hres)]

/-- Example on the example chain: the kernel coin (4, 0) is locked by a
script without the coinstake opcode; the coinstake is accepted although its
second input resolves nowhere and its only output is a blinded one. -/
theorem non_coinstake_script_witness :
    CheckProofOfStake exampleEnv exampleTip
        ⟨[⟨⟨4, 0⟩, otherScript, []⟩, ⟨⟨6, 0⟩, otherScript, []⟩], [.blind true], 2⟩
        2600 0x207fffff 0 0
      = some (accepted 259
          115788638364142800141677267630756769340543759111154478846180002745801229991936) :=
  ((non_coinstake_script exampleEnv exampleTip
    ⟨[⟨⟨4, 0⟩, otherScript, []⟩, ⟨⟨6, 0⟩, otherScript, []⟩], [.blind true], 2⟩
    2600 0x207fffff 0 0
    (fun kc h => by
      have h2 : some (Except.ok (⟨⟨⟨4, 0⟩, otherScript, []⟩, otherScript, 500, 1800⟩
          : KernelCoin)) = some (Except.ok kc) := h
      simp only [Option.some.injEq, Except.ok.injEq] at h2
      subst h2
      decide)).2
    ⟨⟨⟨4, 0⟩, otherScript, []⟩, otherScript, 500, 1800⟩ rfl).trans (by decide)

/-! ## Required depth and CheckKernel -/

/-- `CheckStakeKernelHash` with a non-null predecessor always returns. -/
theorem CheckStakeKernelHash_defined (env : Env) (prev : BlockEntry) (pprev : CBlockIndex)
    (nBits nBlockFromTime : Nat) (prevOutAmount : Int) (prevout : COutPoint) (nTime : Nat)
    (h0 t0 : Nat) (fPrint : Bool) :
    ∃ kr, CheckStakeKernelHash env (prev :: pprev) nBits nBlockFromTime prevOutAmount
      prevout nTime h0 t0 fPrint = some kr := by
  unfold CheckStakeKernelHash
  dsimp only
  repeat' split
  all_goals exact ⟨_, rfl⟩

/-- `CheckKernel` on a coin the live set holds unspent and standard, with an
index entry at its height and a non-null predecessor (lines 314-325). -/
theorem CheckKernel_of_coin (env : Env) (prev : BlockEntry) (pprev : CBlockIndex)
    (nBits : Nat) (nTime : Int) (prevout : COutPoint) (pBlockTime : Option Int)
    (coin : Coin) (pindex : BlockEntry) (ptail : CBlockIndex)
    (hcoin : env.GetCoin prevout = some coin) (hunspent : coin.spent = false)
    (hstd : coin.nType = OutputType.OUTPUT_STANDARD)
    (hidx : env.chainActive coin.nHeight = pindex :: ptail) :
    CheckKernel env (prev :: pprev) nBits nTime prevout pBlockTime
      = if min (castInt (castUint64 ((env.nStakeMinConfirmations : Int) - 1)))
            (castInt (Int.tdiv prev.nHeight 2)) > prev.nHeight - coin.nHeight then
          some (false, pBlockTime)
        else
          match pBlockTime with
          | none => none
          | some _ =>
            (CheckStakeKernelHash env (prev :: pprev) nBits (castUint32 pindex.nTime)
              coin.out.nValue prevout (castUint32 nTime) 0 0 false).map
              (fun kernel => (kernel.ret, some (pindex.nTime : Int))) := by
  unfold CheckKernel
  simp only [hcoin, hstd, hunspent, hidx, bne_self_eq_false, Bool.false_eq_true, if_false]
  split
  · rfl
  · cases pBlockTime with
    | none => rfl
    | some slot =>
      dsimp only
      cases CheckStakeKernelHash env (prev :: pprev) nBits (castUint32 pindex.nTime)
        coin.out.nValue prevout (castUint32 nTime) 0 0 false <;> rfl

/-- C16: for a tip height in the non-negative range of `int` and a
confirmation count up to 2^31, `CheckAge`, the live-coin path of
`CheckProofOfStake` and `CheckKernel` all work with the same required depth
`min(min_confirmations - 1, tip_height / 2)`. -/
theorem required_depth_everywhere (env : Env) (prev : BlockEntry) (pprev : CBlockIndex)
    (hh0 : 0 ≤ prev.nHeight) (hh1 : prev.nHeight < 2147483648)
    (hm : env.nStakeMinConfirmations ≤ 2147483648) :
    RequiredDepth prev.nHeight env.nStakeMinConfirmations
        = min ((env.nStakeMinConfirmations : Int) - 1) (prev.nHeight / 2)
    ∧ (∀ (hashKernelBlock : Nat) (nDepth : Int),
        CheckAge env (prev :: pprev) hashKernelBlock nDepth
          = some (!(IsConfirmedInNPrevBlocks hashKernelBlock (prev :: pprev)
                (RequiredDepth prev.nHeight env.nStakeMinConfirmations) nDepth).1,
              (IsConfirmedInNPrevBlocks hashKernelBlock (prev :: pprev)
                (RequiredDepth prev.nHeight env.nStakeMinConfirmations) nDepth).2))
    ∧ (∀ (tx : CTransaction) (txin : CTxIn) (rest : List CTxIn) (h0 t0 : Nat) (coin : Coin)
        (pindex : BlockEntry) (ptail : CBlockIndex),
        env.IsCoinStake tx = true → tx.vin = txin :: rest →
        env.GetCoin txin.prevout = some coin → coin.spent = false →
        coin.nType = OutputType.OUTPUT_STANDARD →
        env.chainActive coin.nHeight = pindex :: ptail →
        CheckProofOfStake.resolve env (prev :: pprev) tx h0 t0
          = if RequiredDepth prev.nHeight env.nStakeMinConfirmations
                > prev.nHeight - coin.nHeight then
              some (.error (DoS 100 "invalid-stake-depth" h0 t0))
            else
              some (.ok ⟨txin, coin.out.scriptPubKey, coin.out.nValue, pindex.nTime⟩))
    ∧ (∀ (nBits : Nat) (nTime : Int) (prevout : COutPoint) (pBlockTime : Option Int)
        (coin : Coin) (pindex : BlockEntry) (ptail : CBlockIndex),
        env.GetCoin prevout = some coin → coin.spent = false →
        coin.nType = OutputType.OUTPUT_STANDARD →
        env.chainActive coin.nHeight = pindex :: ptail →
        CheckKernel env (prev :: pprev) nBits nTime prevout pBlockTime
          = if RequiredDepth prev.nHeight env.nStakeMinConfirmations
                > prev.nHeight - coin.nHeight then
              some (false, pBlockTime)
            else
              match pBlockTime with
              | none => none
              | some _ =>
                (CheckStakeKernelHash env (prev :: pprev) nBits (castUint32 pindex.nTime)
                  coin.out.nValue prevout (castUint32 nTime) 0 0 false).map
                  (fun kernel => (kernel.ret, some (pindex.nTime : Int)))) := by
  have hreq := nRequiredDepth_eq env.nStakeMinConfirmations prev.nHeight hh0 hh1 hm
  refine ⟨rfl, ?_, ?_, ?_⟩
  · intro hashKernelBlock nDepth
    unfold CheckAge
    simp only [hreq]
    split <;> simp_all
  · intro tx txin rest h0 t0 coin pindex ptail hCS hvin hcoin hunspent hstd hidx
    rw [resolve_live env prev pprev tx txin rest h0 t0 coin pindex ptail hCS hvin hcoin
      hunspent hstd hidx, hreq]
  · intro nBits nTime prevout pBlockTime coin pindex ptail hcoin hunspent hstd hidx
    rw [CheckKernel_of_coin env prev pprev nBits nTime prevout pBlockTime coin pindex ptail
      hcoin hunspent hstd hidx, hreq]

/-- Witness for C16 on the example chain: tip height 100 and 12 minimum
confirmations give the required depth 11 in `CheckAge`. -/
theorem required_depth_everywhere_witness :
    RequiredDepth 100 12 = 11
      ∧ CheckAge exampleEnv (exampleEntry 100 :: exampleIndex 99) 5095 0
        = some (!(IsConfirmedInNPrevBlocks 5095 (exampleEntry 100 :: exampleIndex 99)
              (RequiredDepth (exampleEntry 100).nHeight exampleEnv.nStakeMinConfirmations) 0).1,
            (IsConfirmedInNPrevBlocks 5095 (exampleEntry 100 :: exampleIndex 99)
              (RequiredDepth (exampleEntry 100).nHeight exampleEnv.nStakeMinConfirmations)
              0).2) :=
  ⟨by decide,
   (required_depth_everywhere exampleEnv (exampleEntry 100) (exampleIndex 99) (by decide)
    (by decide) (by decide)).2.1 5095 0⟩

/-! ## Purity of CheckStakeKernelHash -/

/-- The result of `CheckStakeKernelHash` depends on the environment only
through hashing, serialisation and compact decoding, and on the predecessor
only through its stored stake modifier. -/
theorem CheckStakeKernelHash_congr (env1 env2 : Env) (prev1 prev2 : BlockEntry)
    (pprev1 pprev2 : CBlockIndex) (nBits nBlockFromTime : Nat) (prevOutAmount : Int)
    (prevout : COutPoint) (nTime : Nat) (h0 t0 : Nat) (fPrint1 fPrint2 : Bool)
    (hHash : env2.Hash = env1.Hash) (hser256 : env2.ser256 = env1.ser256)
    (hser32 : env2.ser32 = env1.ser32) (hCompact : env2.SetCompact = env1.SetCompact)
    (hmod : prev2.bnStakeModifier = prev1.bnStakeModifier) :
    CheckStakeKernelHash env2 (prev2 :: pprev2) nBits nBlockFromTime prevOutAmount prevout
        nTime h0 t0 fPrint2
      = CheckStakeKernelHash env1 (prev1 :: pprev1) nBits nBlockFromTime prevOutAmount
          prevout nTime h0 t0 fPrint1 := by
  unfold CheckStakeKernelHash
  simp only [hHash, hser256, hser32, hCompact, hmod]

/-- The verdict of `CheckStakeKernelHash` does not depend on the values the
two result slots hold on entry. -/
theorem CheckStakeKernelHash_verdict_slots (env : Env) (pindexPrev : CBlockIndex)
    (nBits nBlockFromTime : Nat) (prevOutAmount : Int) (prevout : COutPoint) (nTime : Nat)
    (h1 t1 h2 t2 : Nat) (fPrint : Bool) :
    (CheckStakeKernelHash env pindexPrev nBits nBlockFromTime prevOutAmount prevout nTime
        h2 t2 fPrint).map (fun kr => kr.ret)
      = (CheckStakeKernelHash env pindexPrev nBits nBlockFromTime prevOutAmount prevout nTime
        h1 t1 fPrint).map (fun kr => kr.ret) := by
  unfold CheckStakeKernelHash
  dsimp only
  repeat' split
  all_goals rfl

/-- C19: two calls of `CheckStakeKernelHash` that agree on the stake
modifier of the predecessor, the bits, the coin block time, the amount, the
outpoint and the candidate time (and on the entry values of the result
slots) return the same verdict, `hashProofOfStake` and `targetProofOfStake`,
whatever the print flag, the log category, the other collaborators, and the
height, time, hash and ancestors of the predecessor are; the verdict is the
same also for different entry values of the slots. -/
theorem CheckStakeKernelHash_pure (env1 env2 : Env) (prev1 prev2 : BlockEntry)
    (pprev1 pprev2 : CBlockIndex) (nBits nBlockFromTime : Nat) (prevOutAmount : Int)
    (prevout : COutPoint) (nTime : Nat) (h0 t0 : Nat) (fPrint1 fPrint2 : Bool)
    (hHash : env2.Hash = env1.Hash) (hser256 : env2.ser256 = env1.ser256)
    (hser32 : env2.ser32 = env1.ser32) (hCompact : env2.SetCompact = env1.SetCompact)
    (hmod : prev2.bnStakeModifier = prev1.bnStakeModifier) :
    (∃ kr, CheckStakeKernelHash env1 (prev1 :: pprev1) nBits nBlockFromTime prevOutAmount
        prevout nTime h0 t0 fPrint1 = some kr
      ∧ CheckStakeKernelHash env2 (prev2 :: pprev2) nBits nBlockFromTime prevOutAmount
        prevout nTime h0 t0 fPrint2 = some kr)
    ∧ ∀ h2 t2 : Nat,
        (CheckStakeKernelHash env2 (prev2 :: pprev2) nBits nBlockFromTime prevOutAmount
          prevout nTime h2 t2 fPrint2).map (fun kr => kr.ret)
        = (CheckStakeKernelHash env1 (prev1 :: pprev1) nBits nBlockFromTime prevOutAmount
          prevout nTime h0 t0 fPrint1).map (fun kr => kr.ret) := by
  have hsame := fun (h2 t2 : Nat) =>
    CheckStakeKernelHash_congr env1 env2 prev1 prev2 pprev1 pprev2 nBits nBlockFromTime
      prevOutAmount prevout nTime h2 t2 fPrint1 fPrint2 hHash hser256 hser32 hCompact hmod
  obtain ⟨kr, hkr⟩ := CheckStakeKernelHash_defined env1 prev1 pprev1 nBits nBlockFromTime
    prevOutAmount prevout nTime h0 t0 fPrint1
  refine ⟨⟨kr, hkr, ?_⟩, ?_⟩
  · rw [hsame h0 t0, hkr]
  · intro h2 t2
    rw [hsame h2 t2]
    exact CheckStakeKernelHash_verdict_slots env1 (prev1 :: pprev1) nBits nBlockFromTime
      prevOutAmount prevout nTime h0 t0 h2 t2 fPrint1

/-- Witness for C19: the example call against a call with the log category
enabled, the print flag set and a predecessor at another height and time
without ancestors but with the same stake modifier. -/
theorem CheckStakeKernelHash_pure_witness :
    ∃ kr, CheckStakeKernelHash exampleEnv (exampleEntry 100 :: exampleIndex 99) 0x207fffff
        2000 10000 ⟨1, 0⟩ 2600 0 0 false = some kr
      ∧ CheckStakeKernelHash loggingEnv [⟨3, 77, 700, 1⟩] 0x207fffff 2000 10000 ⟨1, 0⟩ 2600
        0 0 true = some kr :=
  (CheckStakeKernelHash_pure exampleEnv loggingEnv (exampleEntry 100) ⟨3, 77, 700, 1⟩
    (exampleIndex 99) [] 0x207fffff 2000 10000 ⟨1, 0⟩ 2600 0 0 false true rfl rfl rfl rfl
    (by decide)).1

/-! ## CheckKernel -/

/-- `CheckKernel` returns false, leaving the block-time slot as it was, when
the coin is missing, not a standard output, spent, or without an index entry
at its height. -/
theorem CheckKernel_no_coin (env : Env) (pindexPrev : CBlockIndex) (nBits : Nat)
    (nTime : Int) (prevout : COutPoint) (pBlockTime : Option Int)
    (h : env.GetCoin prevout = none
      ∨ ∃ coin, env.GetCoin prevout = some coin
          ∧ (coin.nType ≠ OutputType.OUTPUT_STANDARD ∨ coin.spent = true
            ∨ env.chainActive coin.nHeight = [])) :
    CheckKernel env pindexPrev nBits nTime prevout pBlockTime = some (false, pBlockTime) := by
  unfold CheckKernel
  rcases h with h | ⟨coin, hcoin, h⟩
  · rw [h]
  · rw [hcoin]
    dsimp only
    by_cases hstd : coin.nType = OutputType.OUTPUT_STANDARD
    · cases hsp : coin.spent with
      | true => simp [hstd]
      | false =>
        rcases h with h | h | h
        · exact absurd hstd h
        · rw [hsp] at h
          exact absurd h Bool.false_ne_true
        · simp [hstd, h]
    · have hne : (coin.nType != OutputType.OUTPUT_STANDARD) = true := by simpa using hstd
      rw [if_pos hne]

/-- C20: with a non-null predecessor and a block-time slot supplied,
`CheckKernel` returns, and it returns true if and only if the outpoint is in
the live coin set, is a standard output, is unspent, the active chain has an
index entry at the height of the coin, tip height minus coin height is at
least `RequiredDepth`, and `CheckStakeKernelHash` accepts on the block time
of that entry and the value of the coin; when it returns true the slot holds
the block time of that entry.  The result is the same for every script
verifier, opcode test, transaction index and locking script of the coin. -/
theorem CheckKernel_accepts_iff (env : Env) (prev : BlockEntry) (pprev : CBlockIndex)
    (nBits : Nat) (nTime : Int) (prevout : COutPoint) (slot : Int)
    (hh0 : 0 ≤ prev.nHeight) (hh1 : prev.nHeight < 2147483648)
    (hm : env.nStakeMinConfirmations ≤ 2147483648) :
    (∃ verdict out,
      CheckKernel env (prev :: pprev) nBits nTime prevout (some slot) = some (verdict, out)
      ∧ (verdict = true ↔
          ∃ coin pindex ptail kr, env.GetCoin prevout = some coin
            ∧ coin.nType = OutputType.OUTPUT_STANDARD ∧ coin.spent = false
            ∧ env.chainActive coin.nHeight = pindex :: ptail
            ∧ RequiredDepth prev.nHeight env.nStakeMinConfirmations
                ≤ prev.nHeight - coin.nHeight
            ∧ CheckStakeKernelHash env (prev :: pprev) nBits (castUint32 pindex.nTime)
                coin.out.nValue prevout (castUint32 nTime) 0 0 false = some kr
            ∧ kr.ret = true)
      ∧ (verdict = true →
          ∃ coin pindex ptail, env.GetCoin prevout = some coin
            ∧ env.chainActive coin.nHeight = pindex :: ptail
            ∧ out = some (pindex.nTime : Int)))
    ∧ (∀ env2 : Env, env2.Hash = env.Hash → env2.ser256 = env.ser256 →
        env2.ser32 = env.ser32 → env2.SetCompact = env.SetCompact →
        env2.chainActive = env.chainActive →
        env2.nStakeMinConfirmations = env.nStakeMinConfirmations →
        (env2.GetCoin prevout).map (fun c => (c.out.nValue, c.nType, c.nHeight, c.spent))
          = (env.GetCoin prevout).map (fun c => (c.out.nValue, c.nType, c.nHeight, c.spent)) →
        CheckKernel env2 (prev :: pprev) nBits nTime prevout (some slot)
          = CheckKernel env (prev :: pprev) nBits nTime prevout (some slot)) := by
  have hreq := nRequiredDepth_eq env.nStakeMinConfirmations prev.nHeight hh0 hh1 hm
  constructor
  · cases hcoin : env.GetCoin prevout with
    | none =>
      refine ⟨false, some slot, CheckKernel_no_coin env _ nBits nTime prevout _
        (Or.inl hcoin), ?_, ?_⟩
      · simp
      · simp
    | some coin =>
      by_cases hbad : coin.nType ≠ OutputType.OUTPUT_STANDARD ∨ coin.spent = true
          ∨ env.chainActive coin.nHeight = []
      · refine ⟨false, some slot, CheckKernel_no_coin env _ nBits nTime prevout _
          (Or.inr ⟨coin, hcoin, hbad⟩), ?_, ?_⟩
        · constructor
          · intro h
            exact absurd h Bool.false_ne_true
          · rintro ⟨coin2, pindex, ptail, kr, hc2, hstd, hsp, hidx, -⟩
            simp only [Option.some.injEq] at hc2
            subst hc2
            rcases hbad with h | h | h
            · exact absurd hstd h
            · rw [hsp] at h
              exact absurd h Bool.false_ne_true
            · rw [hidx] at h
              exact absurd h (List.cons_ne_nil _ _)
        · intro h
          exact absurd h Bool.false_ne_true
      · have hstd : coin.nType = OutputType.OUTPUT_STANDARD := by
          by_contra hc
          exact hbad (Or.inl hc)
        have hsp : coin.spent = false := by
          cases hs : coin.spent with
          | false => rfl
          | true => exact absurd (Or.inr (Or.inl hs)) hbad
        obtain ⟨pindex, ptail, hidx⟩ : ∃ pindex ptail,
            env.chainActive coin.nHeight = pindex :: ptail := by
          cases hc : env.chainActive coin.nHeight with
          | nil => exact absurd (Or.inr (Or.inr hc)) hbad
          | cons pindex ptail => exact ⟨pindex, ptail, rfl⟩
        have hck := CheckKernel_of_coin env prev pprev nBits nTime prevout (some slot) coin
          pindex ptail hcoin hsp hstd hidx
        rw [hreq] at hck
        by_cases hdepth : RequiredDepth prev.nHeight env.nStakeMinConfirmations
            > prev.nHeight - coin.nHeight
        · rw [if_pos hdepth] at hck
          refine ⟨false, some slot, hck, ?_, ?_⟩
          · constructor
            · intro h
              exact absurd h Bool.false_ne_true
            · rintro ⟨coin2, pindex2, ptail2, kr, hc2, -, -, -, hge, -⟩
              simp only [Option.some.injEq] at hc2
              subst hc2
              exact absurd hdepth (not_lt.mpr hge)
          · intro h
            exact absurd h Bool.false_ne_true
        · rw [if_neg hdepth] at hck
          obtain ⟨kr, hkr⟩ := CheckStakeKernelHash_defined env prev pprev nBits
            (castUint32 pindex.nTime) coin.out.nValue prevout (castUint32 nTime) 0 0 false
          rw [hkr] at hck
          refine ⟨kr.ret, some (pindex.nTime : Int), hck, ?_, ?_⟩
          · constructor
            · intro h
              exact ⟨coin, pindex, ptail, kr, rfl, hstd, hsp, hidx, not_lt.mp hdepth, hkr, h⟩
            · rintro ⟨coin2, pindex2, ptail2, kr2, hc2, -, -, hidx2, -, hkr2, hret2⟩
              simp only [Option.some.injEq] at hc2
              subst hc2
              rw [hidx] at hidx2
              simp only [List.cons.injEq] at hidx2
              obtain ⟨hp, -⟩ := hidx2
              subst hp
              rw [hkr] at hkr2
              simp only [Option.some.injEq] at hkr2
              subst hkr2
              exact hret2
          · intro _
            exact ⟨coin, pindex, ptail, rfl, hidx, rfl⟩
  · intro env2 hHash hser256 hser32 hCompact hchain hconf hcoins
    have hkernel : ∀ (t : Nat) (a : Int),
        CheckStakeKernelHash env2 (prev :: pprev) nBits t a prevout (castUint32 nTime) 0 0 false
          = CheckStakeKernelHash env (prev :: pprev) nBits t a prevout (castUint32 nTime)
              0 0 false :=
      fun t a => CheckStakeKernelHash_congr env env2 prev prev pprev pprev nBits t a prevout
        (castUint32 nTime) 0 0 false false hHash hser256 hser32 hCompact rfl
    unfold CheckKernel
    cases h1 : env.GetCoin prevout with
    | none =>
      cases h2 : env2.GetCoin prevout with
      | none => rfl
      | some c2 => rw [h1, h2] at hcoins; simp at hcoins
    | some c1 =>
      cases h2 : env2.GetCoin prevout with
      | none => rw [h1, h2] at hcoins; simp at hcoins
      | some c2 =>
        rw [h1, h2] at hcoins
        simp only [Option.map_some', Option.some.injEq, Prod.mk.injEq] at hcoins
        obtain ⟨hv, ht, hh, hs⟩ := hcoins
        simp only [hv, ht, hh, hs, hchain, hconf, hkernel]

/-- Witness for C20 on the example chain: the coin (1, 0) at depth 11 with
the regtest bits. -/
theorem CheckKernel_accepts_iff_witness :
    ∃ verdict out,
      CheckKernel exampleEnv (exampleEntry 100 :: exampleIndex 99) 0x207fffff 2600 ⟨1, 0⟩
        (some 0) = some (verdict, out)
      ∧ (verdict = true →
          ∃ coin pindex ptail, exampleEnv.GetCoin ⟨1, 0⟩ = some coin
            ∧ exampleEnv.chainActive coin.nHeight = pindex :: ptail
            ∧ out = some (pindex.nTime : Int)) :=
  let ⟨verdict, out, hret, _, htime⟩ :=
    (CheckKernel_accepts_iff exampleEnv (exampleEntry 100) (exampleIndex 99) 0x207fffff
      2600 ⟨1, 0⟩ 0 (by decide) (by decide) (by decide)).1
  ⟨verdict, out, hret, htime⟩

/-! ## Output types -/

/-- The output loop over outputs that are all standard or data outputs, with
running totals that fit `int64_t`, reaches the outputs after them with
`nVerify` increased by the values paying the kernel script. -/
theorem sumOutputs_append (k : CScript) (pre rest : List CTxOutBase) (n : Int)
    (hpre : ∀ o ∈ pre, o.IsType OutputType.OUTPUT_STANDARD = true
      ∨ o.IsType OutputType.OUTPUT_DATA = true)
    (hfit : sumsFit n (sameScriptValues k pre) = true) :
    sumOutputs k (pre ++ rest) n
      = sumOutputs k rest (n + (sameScriptValues k pre).sum) := by
  induction pre generalizing n with
  | nil => simp [sameScriptValues]
  | cons o pre ih =>
    have hrest : ∀ o2 ∈ pre, o2.IsType OutputType.OUTPUT_STANDARD = true
        ∨ o2.IsType OutputType.OUTPUT_DATA = true :=
      fun o2 h2 => hpre o2 (List.mem_cons_of_mem _ h2)
    have ho := hpre o (List.mem_cons_self _ _)
    cases o with
    | standard v s =>
      rw [List.cons_append, sumOutputs_cons_standard]
      by_cases hs : s = k
      · subst hs
        rw [sameScriptValues, if_pos rfl, sumsFit, Bool.and_eq_true] at hfit
        simp only [beq_self_eq_true, if_true, addAmount, hfit.1]
        rw [ih (n + v) hrest hfit.2, sameScriptValues, if_pos rfl, List.sum_cons, add_assoc]
      · rw [sameScriptValues, if_neg hs] at hfit
        have hs2 : (s == k) = false := by simpa using hs
        simp only [hs2, Bool.false_eq_true, if_false]
        rw [ih n hrest hfit, sameScriptValues, if_neg hs]
    | data d =>
      have h1 : sameScriptValues k (.data d :: pre) = sameScriptValues k pre := rfl
      rw [h1] at hfit
      rw [List.cons_append, sumOutputs_cons_data, h1, ih n hrest hfit]
    | blind b =>
      cases b <;> simp [CTxOutBase.IsType, CTxOutBase.nVersion] at ho

/-- When the output loop runs to its end, every output is a standard or a
data output. -/
theorem sumOutputs_ok_types (k : CScript) (outs : List CTxOutBase) (n total : Int)
    (h : sumOutputs k outs n = some (.ok total)) :
    ∀ o ∈ outs, o.IsType OutputType.OUTPUT_STANDARD = true
      ∨ o.IsType OutputType.OUTPUT_DATA = true := by
  induction outs generalizing n with
  | nil => intro o ho; simp at ho
  | cons o outs ih =>
    have hrest : ∃ n2, sumOutputs k outs n2 = some (.ok total)
        ∧ (o.IsType OutputType.OUTPUT_STANDARD = true
          ∨ o.IsType OutputType.OUTPUT_DATA = true) := by
      cases o with
      | standard v s =>
        rw [sumOutputs_cons_standard] at h
        split at h
        · split at h
          · simp only [reduceCtorEq] at h
          · next n2 _ => exact ⟨n2, h, Or.inl rfl⟩
        · exact ⟨n, h, Or.inl rfl⟩
      | data d =>
        rw [sumOutputs_cons_data] at h
        exact ⟨n, h, Or.inr rfl⟩
      | blind b =>
        rw [sumOutputs_cons_bad k (.blind b) outs n (by cases b <;> rfl)
          (by cases b <;> rfl)] at h
        simp only [Option.some.injEq, reduceCtorEq] at h
    obtain ⟨n2, hn2, ho⟩ := hrest
    intro o2 ho2
    rcases List.mem_cons.mp ho2 with h2 | h2
    · rw [h2]
      exact ho
    · exact ih n2 hn2 o2 h2

/-- The output loop skips a data output wherever it stands. -/
theorem sumOutputs_skip_data (k : CScript) (pre : List CTxOutBase) (d : List Nat)
    (post : List CTxOutBase) (n : Int) :
    sumOutputs k (pre ++ .data d :: post) n = sumOutputs k (pre ++ post) n := by
  induction pre generalizing n with
  | nil => simp [sumOutputs_cons_data]
  | cons o pre ih =>
    cases o with
    | standard v s =>
      rw [List.cons_append, List.cons_append, sumOutputs_cons_standard,
        sumOutputs_cons_standard]
      split
      · cases addAmount n v with
        | none => rfl
        | some n2 => exact ih n2
      · exact ih n
    | data d2 =>
      rw [List.cons_append, List.cons_append, sumOutputs_cons_data, sumOutputs_cons_data]
      exact ih n
    | blind b =>
      rw [List.cons_append, List.cons_append,
        sumOutputs_cons_bad k (.blind b) _ n (by cases b <;> rfl) (by cases b <;> rfl),
        sumOutputs_cons_bad k (.blind b) _ n (by cases b <;> rfl) (by cases b <;> rfl)]

/-- A data output adds nothing to the values paying the kernel script. -/
theorem sameScriptValues_skip_data (k : CScript) (pre : List CTxOutBase) (d : List Nat)
    (post : List CTxOutBase) :
    sameScriptValues k (pre ++ .data d :: post) = sameScriptValues k (pre ++ post) := by
  induction pre with
  | nil => rfl
  | cons o pre ih =>
    cases o with
    | standard v s =>
      have h1 : ∀ l, sameScriptValues k (.standard v s :: l)
          = if s = k then v :: sameScriptValues k l else sameScriptValues k l := fun _ => rfl
      rw [List.cons_append, List.cons_append, h1, h1, ih]
    | data d2 =>
      have h1 : ∀ l, sameScriptValues k (.data d2 :: l) = sameScriptValues k l := fun _ => rfl
      rw [List.cons_append, List.cons_append, h1, h1, ih]
    | blind b =>
      have h1 : ∀ l, sameScriptValues k (.blind b :: l) = sameScriptValues k l := fun _ => rfl
      rw [List.cons_append, List.cons_append, h1, h1, ih]

/-- C11: on a coinstake that enters the output verification (coinstake-capable
kernel script, signature and kernel checks passed, every extra input
accepted by the input loop), an output that is neither a standard nor a data
output makes acceptance impossible whatever the output values are, and
`CheckProofOfStake` rejects with bad-output-type when the outputs before the
first such output are standard or data outputs whose running total fits
`int64_t`; a data output is skipped by the loop and adds nothing to the
values paying the kernel script. -/
theorem bad_output_type (env : Env) (pindexPrev : CBlockIndex) (tx : CTransaction)
    (nTime : Int) (nBits : Nat) (h0 t0 : Nat) (kc : KernelCoin) (kr : KernelResult)
    (total : Int)
    (hres : CheckProofOfStake.resolve env pindexPrev tx h0 t0 = some (.ok kc))
    (hop : env.HasIsCoinstakeOp kc.kernelPubKey = true)
    (hsig : env.VerifyScript kc.txin.scriptSig kc.kernelPubKey kc.txin.scriptWitness tx 0
      (leBytes 8 (castUint64 kc.amount)) = true)
    (hker : CheckStakeKernelHash env pindexPrev nBits kc.nBlockFromTime kc.amount
      kc.txin.prevout (castUint32 nTime) h0 t0 env.LogAcceptCategory = some kr)
    (hacc : kr.ret = true)
    (hloop : sumExtraInputs env kc.kernelPubKey (tx.vin.drop 1) kc.amount
      = some (.ok total)) :
    (∀ bad ∈ tx.vpout, bad.IsType OutputType.OUTPUT_STANDARD = false →
        bad.IsType OutputType.OUTPUT_DATA = false →
        ∀ r, CheckProofOfStake env pindexPrev tx nTime nBits h0 t0 = some r → r.ret = false)
    ∧ (∀ (pre : List CTxOutBase) (bad : CTxOutBase) (post : List CTxOutBase),
        tx.vpout = pre ++ bad :: post →
        (∀ o ∈ pre, o.IsType OutputType.OUTPUT_STANDARD = true
          ∨ o.IsType OutputType.OUTPUT_DATA = true) →
        sumsFit 0 (sameScriptValues kc.kernelPubKey pre) = true →
        bad.IsType OutputType.OUTPUT_STANDARD = false →
        bad.IsType OutputType.OUTPUT_DATA = false →
        CheckProofOfStake env pindexPrev tx nTime nBits h0 t0
          = some ⟨false, ⟨100, "bad-output-type"⟩, kr.hashProofOfStake,
              kr.targetProofOfStake⟩)
    ∧ (∀ (k : CScript) (pre : List CTxOutBase) (d : List Nat) (post : List CTxOutBase)
        (n : Int),
        sumOutputs k (pre ++ .data d :: post) n = sumOutputs k (pre ++ post) n
          ∧ sameScriptValues k (pre ++ .data d :: post) = sameScriptValues k (pre ++ post)) := by
  have hwhole : CheckProofOfStake env pindexPrev tx nTime nBits h0 t0
      = match sumOutputs kc.kernelPubKey tx.vpout 0 with
        | none => none
        | some (.error state) =>
          some ⟨false, state, kr.hashProofOfStake, kr.targetProofOfStake⟩
        | some (.ok nVerify) =>
          if nVerify < total then
            some (DoS 100 "verify-amount-script-failed"
              kr.hashProofOfStake kr.targetProofOfStake)
          else
            some (accepted kr.hashProofOfStake kr.targetProofOfStake) := by
    unfold CheckProofOfStake
    rw [hres]
    dsimp only
    rw [verify_of_kernel_accept env pindexPrev tx kc.txin nTime nBits kc.kernelPubKey
      kc.amount kc.nBlockFromTime h0 t0 kr hsig hker hacc hop, hloop]
  refine ⟨?_, ?_, ?_⟩
  · intro bad hbad hstd hdata r hr
    rw [hwhole] at hr
    cases hout : sumOutputs kc.kernelPubKey tx.vpout 0 with
    | none => rw [hout] at hr; simp only [reduceCtorEq] at hr
    | some res =>
      rw [hout] at hr
      cases res with
      | error state =>
        simp only [Option.some.injEq] at hr
        rw [← hr]
      | ok nVerify =>
        exfalso
        rcases sumOutputs_ok_types kc.kernelPubKey tx.vpout 0 nVerify hout bad hbad with h | h
        · rw [hstd] at h
          exact absurd h Bool.false_ne_true
        · rw [hdata] at h
          exact absurd h Bool.false_ne_true
  · intro pre bad post hsplit hpre hfit hstd hdata
    rw [hwhole, hsplit, sumOutputs_append kc.kernelPubKey pre (bad :: post) 0 hpre hfit,
      sumOutputs_cons_bad kc.kernelPubKey bad post _ hstd hdata]
  · intro k pre d post n
    exact ⟨sumOutputs_skip_data k pre d post n, sameScriptValues_skip_data k pre d post⟩

/-- Witness for C11 on the example chain: a blinded output between a data
output and a standard output paying the staker script. -/
theorem bad_output_type_witness :
    CheckProofOfStake exampleEnv exampleTip
        (exampleStake [1, 3] [.data [], .blind false, .standard 10500 stakeScript])
        2600 0x207fffff 0 0
      = some ⟨false, ⟨100, "bad-output-type"⟩, 370,
          115723071773848289785696637450065137598745473575918860173905958765675136679936⟩ :=
  (bad_output_type exampleEnv exampleTip
    (exampleStake [1, 3] [.data [], .blind false, .standard 10500 stakeScript])
    2600 0x207fffff 0 0 ⟨⟨⟨1, 0⟩, stakeScript, []⟩, stakeScript, 10000, 2424⟩
    ⟨true, 370,
      115723071773848289785696637450065137598745473575918860173905958765675136679936⟩
    10500 rfl rfl rfl (by decide) rfl rfl).2.1
    [.data []] (.blind false) [.standard 10500 stakeScript] rfl (by decide) (by decide)
    rfl rfl

/-! ## Coinstake timestamp mask -/

/-- C21: `CheckCoinStakeTimestamp` returns true if and only if the bitwise
AND of the timestamp with the mask for the height is zero; with a mask
`2^k - 1` a non-negative timestamp is valid exactly when it is a multiple of
`2^k`, and with the mask 0 every timestamp is valid. -/
theorem CheckCoinStakeTimestamp_iff (env : Env) (nHeight nTimeBlock : Int) :
    (CheckCoinStakeTimestamp env nHeight nTimeBlock = true
      ↔ Nat.land (castUint64 nTimeBlock) (env.GetStakeTimestampMask nHeight) = 0)
    ∧ (∀ k : Nat, env.GetStakeTimestampMask nHeight = 2 ^ k - 1 →
        0 ≤ nTimeBlock → nTimeBlock < 9223372036854775808 →
        (CheckCoinStakeTimestamp env nHeight nTimeBlock = true
          ↔ ((2 : Int) ^ k) ∣ nTimeBlock))
    ∧ (env.GetStakeTimestampMask nHeight = 0 →
        CheckCoinStakeTimestamp env nHeight nTimeBlock = true) := by
  have hiff : CheckCoinStakeTimestamp env nHeight nTimeBlock = true
      ↔ Nat.land (castUint64 nTimeBlock) (env.GetStakeTimestampMask nHeight) = 0 := by
    unfold CheckCoinStakeTimestamp
    exact beq_iff_eq
  refine ⟨hiff, ?_, ?_⟩
  · intro k hmask h0 h1
    rw [hiff, hmask, castUint64_of_nonneg nTimeBlock h0 h1]
    have hland : Nat.land nTimeBlock.toNat (2 ^ k - 1) = nTimeBlock.toNat % 2 ^ k :=
      Nat.and_pow_two_sub_one_eq_mod nTimeBlock.toNat k
    rw [hland, ← Nat.dvd_iff_mod_eq_zero]
    constructor
    · intro hd
      have h2 : ((2 ^ k : Nat) : Int) ∣ (nTimeBlock.toNat : Int) := Int.natCast_dvd_natCast.mpr hd
      rw [Int.toNat_of_nonneg h0] at h2
      simpa using h2
    · intro hd
      apply Int.natCast_dvd_natCast.mp
      rw [Int.toNat_of_nonneg h0]
      simpa using hd
  · intro hmask
    rw [hiff, hmask]
    exact Nat.and_zero _

/-- Witness for C21: with the mask 15 the timestamp 2608 = 163 × 16 is valid
and 2600 is not; with the regtest mask 0 the timestamp 2601 is valid. -/
theorem CheckCoinStakeTimestamp_iff_witness :
    CheckCoinStakeTimestamp exampleEnv 101 2608 = true
      ∧ CheckCoinStakeTimestamp exampleEnv 101 2600 = false
      ∧ CheckCoinStakeTimestamp regtestMaskEnv 101 2601 = true :=
  ⟨((CheckCoinStakeTimestamp_iff exampleEnv 101 2608).2.1 4 (by decide) (by decide)
      (by decide)).mpr (by decide),
   by decide,
   (CheckCoinStakeTimestamp_iff regtestMaskEnv 101 2601).2.2 rfl⟩

/-! ## Weighted target: width, monotonicity, boundary -/

/-- Conversion of an `int64_t` to `uint64_t` is reduction modulo 2^64. -/
theorem castUint64_cast (a : Int) :
    ((castUint64 a : Nat) : Int) = a % 18446744073709551616 := by
  unfold castUint64
  exact Int.toNat_of_nonneg (Int.emod_nonneg a (by decide))

/-- C29: for a valid compact target T and a signed 64-bit amount a, the
weighted target used and returned by `CheckStakeKernelHash` is
(T × (a mod 2^64)) mod 2^256; it equals T × a exactly when a >= 0 and
T × a < 2^256. -/
theorem weighted_target_width (env : Env) (prev : BlockEntry) (pprev : CBlockIndex)
    (nBits nBlockFromTime : Nat) (a : Int) (prevout : COutPoint) (nTime : Nat)
    (h0 t0 : Nat) (fPrint : Bool)
    (hTime : nBlockFromTime ≤ nTime) (hValid : validCompact env nBits)
    (hlo : -9223372036854775808 ≤ a) (hhi : a < 9223372036854775808) :
    ∃ r, CheckStakeKernelHash env (prev :: pprev) nBits nBlockFromTime a prevout nTime
          h0 t0 fPrint = some r
      ∧ (r.ret = true ↔ r.hashProofOfStake ≤ r.targetProofOfStake)
      ∧ (r.targetProofOfStake : Int)
          = ((env.SetCompact nBits).1 * (a % 2 ^ 64)) % 2 ^ 256
      ∧ ((r.targetProofOfStake : Int) = (env.SetCompact nBits).1 * a
          ↔ 0 ≤ a ∧ ((env.SetCompact nBits).1 : Int) * a < 2 ^ 256) := by
  have hT : (0 : Int) < ((env.SetCompact nBits).1 : Int) := by
    have := hValid.2.2
    omega
  have hTarget : ((((env.SetCompact nBits).1 * castUint64 a) % 2 ^ 256 : Nat) : Int)
      = ((env.SetCompact nBits).1 * (a % 2 ^ 64)) % 2 ^ 256 := by
    push_cast
    rw [castUint64_cast]
  refine ⟨_, CheckStakeKernelHash_reached env prev pprev nBits nBlockFromTime a
    prevout nTime h0 t0 fPrint hTime hValid, by simp, hTarget, ?_⟩
  show ((((env.SetCompact nBits).1 * castUint64 a) % 2 ^ 256 : Nat) : Int) = _ ↔ _
  rw [hTarget]
  constructor
  · intro heq
    have hnn : (0 : Int) ≤ ((env.SetCompact nBits).1 * (a % 2 ^ 64)) % 2 ^ 256 :=
      Int.emod_nonneg _ (by norm_num)
    have hlt : ((env.SetCompact nBits).1 * (a % 2 ^ 64)) % 2 ^ 256 < (2 : Int) ^ 256 :=
      Int.emod_lt_of_pos _ (by norm_num)
    rw [heq] at hnn hlt
    refine ⟨?_, hlt⟩
    by_contra hneg
    have : ((env.SetCompact nBits).1 : Int) * a < 0 :=
      mul_neg_of_pos_of_neg hT (not_le.mp hneg)
    omega
  · rintro ⟨hpos, hlt⟩
    have hmod : a % 2 ^ 64 = a := Int.emod_eq_of_lt hpos (by omega)
    rw [hmod]
    exact Int.emod_eq_of_lt (mul_nonneg (le_of_lt hT) hpos) hlt

/-- Witness for C29: the amount -1 is read as 2^64 - 1. -/
theorem weighted_target_width_witness :
    ∃ r, CheckStakeKernelHash exampleEnv (exampleEntry 100 :: exampleIndex 99) 0x1d00ffff
          2000 (-1) ⟨1, 0⟩ 2600 0 0 false = some r
      ∧ (r.targetProofOfStake : Int)
          = ((exampleEnv.SetCompact 0x1d00ffff).1 * ((-1 : Int) % 2 ^ 64)) % 2 ^ 256 :=
  let ⟨r, hr, _, ht, _⟩ := weighted_target_width exampleEnv (exampleEntry 100)
    (exampleIndex 99) 0x1d00ffff 2000 (-1) ⟨1, 0⟩ 2600 0 0 false (by decide) (by decide)
    (by decide) (by decide)
  ⟨r, hr, ht⟩

/-- C30: for a valid compact target T and amounts 0 < a <= a2 with
T × a2 < 2^256 (a2 read as a natural number), all other arguments equal, a kernel accepted with the amount
a is accepted with the amount a2, and both calls compute the same kernel
hash. -/
theorem acceptance_monotone (env : Env) (prev : BlockEntry) (pprev : CBlockIndex)
    (nBits nBlockFromTime : Nat) (a a2 : Int) (prevout : COutPoint) (nTime : Nat)
    (h0 t0 : Nat) (fPrint : Bool)
    (hTime : nBlockFromTime ≤ nTime) (hValid : validCompact env nBits)
    (hPos : 0 < a) (hle : a ≤ a2) (hInt64 : a2 < 9223372036854775808)
    (hfit : (env.SetCompact nBits).1 * a2.toNat < 2 ^ 256) :
    ∃ r r2, CheckStakeKernelHash env (prev :: pprev) nBits nBlockFromTime a prevout nTime
          h0 t0 fPrint = some r
      ∧ CheckStakeKernelHash env (prev :: pprev) nBits nBlockFromTime a2 prevout nTime
          h0 t0 fPrint = some r2
      ∧ r2.hashProofOfStake = r.hashProofOfStake
      ∧ (r.ret = true → r2.ret = true) := by
  have hmono : ((env.SetCompact nBits).1 * castUint64 a) % 2 ^ 256
      ≤ ((env.SetCompact nBits).1 * castUint64 a2) % 2 ^ 256 := by
    have hfit2 : (env.SetCompact nBits).1 * a2.toNat < 2 ^ 256 := hfit
    have hle2 : (env.SetCompact nBits).1 * a.toNat ≤ (env.SetCompact nBits).1 * a2.toNat :=
      Nat.mul_le_mul_left _ (Int.toNat_le_toNat hle)
    rw [castUint64_of_nonneg a (le_of_lt hPos) (by omega),
      castUint64_of_nonneg a2 (by omega) hInt64,
      Nat.mod_eq_of_lt (lt_of_le_of_lt hle2 hfit2), Nat.mod_eq_of_lt hfit2]
    exact hle2
  refine ⟨_, _, CheckStakeKernelHash_reached env prev pprev nBits nBlockFromTime a
    prevout nTime h0 t0 fPrint hTime hValid,
    CheckStakeKernelHash_reached env prev pprev nBits nBlockFromTime a2
    prevout nTime h0 t0 fPrint hTime hValid, rfl, ?_⟩
  intro hacc
  simp only [decide_eq_true_eq] at hacc ⊢
  exact le_trans hacc hmono

/-- Witness for C30 on the example chain: amounts 10000 and 20000 with the
bits 0x1d00ffff. -/
theorem acceptance_monotone_witness :
    ∃ r r2, CheckStakeKernelHash exampleEnv (exampleEntry 100 :: exampleIndex 99) 0x1d00ffff
          2000 10000 ⟨1, 0⟩ 2600 0 0 false = some r
      ∧ CheckStakeKernelHash exampleEnv (exampleEntry 100 :: exampleIndex 99) 0x1d00ffff
          2000 20000 ⟨1, 0⟩ 2600 0 0 false = some r2
      ∧ r2.hashProofOfStake = r.hashProofOfStake
      ∧ (r.ret = true → r2.ret = true) :=
  acceptance_monotone exampleEnv (exampleEntry 100) (exampleIndex 99) 0x1d00ffff 2000
    10000 20000 ⟨1, 0⟩ 2600 0 0 false (by decide) (by decide) (by decide) (by decide)
    (by decide) (by decide)

/-- C28 as stated fails: in the example environment the bits 0x03000001
decode to the target 1, the amount 456 gives the weighted target 456, the
kernel hash is 456 as well, and the kernel is accepted although its hash is
not strictly below the weighted target. -/
theorem hash_equal_target_accepted :
    CheckStakeKernelHash exampleEnv (exampleEntry 100 :: exampleIndex 99) 0x03000001
        2000 456 ⟨1, 0⟩ 2600 0 0 false = some ⟨true, 456, 456⟩
      ∧ ¬ ((456 : Nat) < 456) := by
  decide

/-- C28 (amended): a kernel is accepted by `CheckStakeKernelHash` only if its
hash is at most the weighted target: for every input, acceptance implies
hash <= weighted target (the value stored in `targetProofOfStake`, which is
bnTarget * nWeight modulo 2^256); and for every hash function a call that
reaches the comparison of line 110 with a hash equal to the weighted target
is accepted. -/
theorem accepts_hash_le_target (env : Env) (pindexPrev : CBlockIndex)
    (nBits nBlockFromTime : Nat) (prevOutAmount : Int) (prevout : COutPoint) (nTime : Nat)
    (h0 t0 : Nat) (fPrint : Bool) :
    (∀ r, CheckStakeKernelHash env pindexPrev nBits nBlockFromTime prevOutAmount prevout
          nTime h0 t0 fPrint = some r → r.ret = true →
        r.targetProofOfStake = ((env.SetCompact nBits).1 * castUint64 prevOutAmount) % 2 ^ 256
          ∧ r.hashProofOfStake ≤ r.targetProofOfStake)
    ∧ (∀ prev pprev, pindexPrev = prev :: pprev → nBlockFromTime ≤ nTime →
        validCompact env nBits →
        env.Hash (kernelPreimage env prev.bnStakeModifier nBlockFromTime prevout nTime)
          = ((env.SetCompact nBits).1 * castUint64 prevOutAmount) % 2 ^ 256 →
        CheckStakeKernelHash env pindexPrev nBits nBlockFromTime prevOutAmount prevout
            nTime h0 t0 fPrint
          = some ⟨true, ((env.SetCompact nBits).1 * castUint64 prevOutAmount) % 2 ^ 256,
              ((env.SetCompact nBits).1 * castUint64 prevOutAmount) % 2 ^ 256⟩) := by
  refine ⟨?_, ?_⟩
  · intro r h hret
    unfold CheckStakeKernelHash at h
    dsimp only at h
    repeat' split at h
    all_goals
      first
      | (simp only [reduceCtorEq] at h)
      | (simp only [Option.some.injEq] at h
         subst h
         first
         | exact absurd hret Bool.false_ne_true
         | exact ⟨rfl, Nat.not_lt.mp (by assumption)⟩)
  · intro prev pprev hprev hTime hValid heq
    rw [hprev, CheckStakeKernelHash_reached env prev pprev nBits nBlockFromTime
      prevOutAmount prevout nTime h0 t0 fPrint hTime hValid, heq]
    simp only [le_refl, decide_True]

/-- Witness for C28 (amended) in the example environment: an accepted kernel
of the bits 0x03000001 has a hash at most its target (amount 1000, hash 456,
target 1000), and the kernel whose hash equals its weighted target (amount
456) is accepted. -/
theorem accepts_hash_le_target_witness :
    ((⟨true, 456, 1000⟩ : KernelResult).targetProofOfStake
        = ((exampleEnv.SetCompact 0x03000001).1 * castUint64 1000) % 2 ^ 256
      ∧ (⟨true, 456, 1000⟩ : KernelResult).hashProofOfStake
        ≤ (⟨true, 456, 1000⟩ : KernelResult).targetProofOfStake)
    ∧ CheckStakeKernelHash exampleEnv (exampleEntry 100 :: exampleIndex 99) 0x03000001
        2000 456 ⟨1, 0⟩ 2600 0 0 false
      = some ⟨true, ((exampleEnv.SetCompact 0x03000001).1 * castUint64 456) % 2 ^ 256,
          ((exampleEnv.SetCompact 0x03000001).1 * castUint64 456) % 2 ^ 256⟩ :=
  ⟨(accepts_hash_le_target exampleEnv (exampleEntry 100 :: exampleIndex 99) 0x03000001
      2000 1000 ⟨1, 0⟩ 2600 0 0 false).1 ⟨true, 456, 1000⟩ (by decide) rfl,
   (accepts_hash_le_target exampleEnv (exampleEntry 100 :: exampleIndex 99) 0x03000001
      2000 456 ⟨1, 0⟩ 2600 0 0 false).2 (exampleEntry 100) (exampleIndex 99) rfl
      (by decide) (by decide) (by decide)⟩

/-! ## Genesis predecessor -/

/-- C24 as stated fails: with no predecessor entry (a null `pindexPrev`),
valid regtest bits and a candidate time after the coin block time, the call
dereferences the null pointer at line 89 and has no defined result. -/
theorem null_predecessor_undefined :
    validCompact exampleEnv 0x207fffff ∧ (2000 : Nat) ≤ 2600
      ∧ CheckStakeKernelHash exampleEnv [] 0x207fffff 2000 10000 ⟨1, 0⟩ 2600 0 0 false
        = none := by
  decide

/-- C24 (amended): with a predecessor entry whose stored stake modifier is
all-zero (the entry of the genesis block), a call that passes the timestamp
check with valid bits decoding to T0 is defined, computes the kernel hash
from the zero modifier, coin block time, outpoint and candidate time, and
for the amount 10000 accepts if and only if the hash is at most
(T0 × 10000) mod 2^256, which is T0 × 10000 when that product is below
2^256; with a null predecessor such a call is undefined. -/
theorem genesis_entry_kernel (env : Env) (prev : BlockEntry) (pprev : CBlockIndex)
    (nBits nBlockFromTime : Nat) (prevout : COutPoint) (nTime : Nat)
    (h0 t0 : Nat) (fPrint : Bool)
    (hmod : prev.bnStakeModifier = 0)
    (hTime : nBlockFromTime ≤ nTime) (hValid : validCompact env nBits) :
    (∃ r, CheckStakeKernelHash env (prev :: pprev) nBits nBlockFromTime 10000 prevout nTime
          h0 t0 fPrint = some r
      ∧ r.hashProofOfStake
          = env.Hash (env.ser256 0 ++ (env.ser32 nBlockFromTime ++ env.ser256 prevout.hash
              ++ env.ser32 prevout.n ++ env.ser32 nTime))
      ∧ (r.ret = true
          ↔ r.hashProofOfStake ≤ ((env.SetCompact nBits).1 * 10000) % 2 ^ 256)
      ∧ ((env.SetCompact nBits).1 * 10000 < 2 ^ 256 →
          (r.ret = true ↔ r.hashProofOfStake ≤ (env.SetCompact nBits).1 * 10000)))
    ∧ CheckStakeKernelHash env [] nBits nBlockFromTime 10000 prevout nTime h0 t0 fPrint
        = none := by
  have hamount : castUint64 10000 = 10000 := by decide
  constructor
  · refine ⟨_, CheckStakeKernelHash_reached env prev pprev nBits nBlockFromTime 10000
      prevout nTime h0 t0 fPrint hTime hValid, ?_, ?_, ?_⟩
    · simp only [kernelPreimage, hmod]
    · simp only [decide_eq_true_eq, hamount]
    · intro hlt
      simp only [decide_eq_true_eq, hamount, Nat.mod_eq_of_lt hlt]
  · obtain ⟨hNeg, hOvf, hNz⟩ := hValid
    have hNz2 : ((env.SetCompact nBits).1 == 0) = false := by simpa using hNz
    unfold CheckStakeKernelHash
    rw [if_neg (Nat.not_lt.mpr hTime)]
    simp only [hNeg, hOvf, hNz2, Bool.or_false, Bool.false_eq_true, if_false]

/-- Witness for C24 (amended): the genesis entry of the example chain as
predecessor, bits 0x1d00ffff. -/
theorem genesis_entry_kernel_witness :
    (∃ r, CheckStakeKernelHash exampleEnv [exampleEntry 0] 0x1d00ffff 1000 10000 ⟨1, 0⟩
          2600 0 0 false = some r
      ∧ r.hashProofOfStake
          = exampleEnv.Hash (exampleEnv.ser256 0 ++ (exampleEnv.ser32 1000
              ++ exampleEnv.ser256 1 ++ exampleEnv.ser32 0 ++ exampleEnv.ser32 2600)))
      ∧ CheckStakeKernelHash exampleEnv [] 0x1d00ffff 1000 10000 ⟨1, 0⟩ 2600 0 0 false
        = none :=
  let ⟨⟨r, hr, hh, _⟩, hnull⟩ := genesis_entry_kernel exampleEnv (exampleEntry 0) []
    0x1d00ffff 1000 ⟨1, 0⟩ 2600 0 0 false (by decide) (by decide) (by decide)
  ⟨⟨r, hr, hh⟩, hnull⟩

/-! ## Candidate time as a 64-bit value -/

/-- Outside the range of block times the conversion of lines 226 and 324
matters: the value -1 reaches `CheckStakeKernelHash` as the `uint32_t`
4294967295 and passes the timestamp check against the block time 2424. -/
theorem negative_time_accepted :
    (-1 : Int) < ((exampleEntry 89).nTime : Int)
      ∧ castUint32 (-1) = 4294967295
      ∧ (CheckProofOfStake exampleEnv exampleTip
          (exampleStake [1] [.standard 10000 stakeScript]) (-1) 0x207fffff 0 0).map
          (fun r => r.ret) = some true
      ∧ CheckKernel exampleEnv exampleTip 0x207fffff (-1) ⟨1, 0⟩ (some 0)
          = some (true, some 2424) := by
  decide

/-! ## The depth requirement never blocks staking -/

/-- C27: for a tip height h >= 0 (in the range of `int`) and every
minimum-confirmation count, the required depth is at most h/2, which is at
most h, both as the specification defines it and as lines 205 and 314
compute it; so a live coin whose originating height c satisfies
c <= h - h/2 passes the depth check of `CheckProofOfStake` and of
`CheckKernel`. -/
theorem depth_never_blocks (env : Env) (prev : BlockEntry) (pprev : CBlockIndex)
    (hh0 : 0 ≤ prev.nHeight) (hh1 : prev.nHeight < 2147483648) :
    (∀ m : Int, RequiredDepth prev.nHeight m ≤ prev.nHeight / 2)
    ∧ prev.nHeight / 2 ≤ prev.nHeight
    ∧ min (castInt (castUint64 ((env.nStakeMinConfirmations : Int) - 1)))
        (castInt (Int.tdiv prev.nHeight 2)) ≤ prev.nHeight / 2
    ∧ (∀ (tx : CTransaction) (txin : CTxIn) (rest : List CTxIn) (nBits : Nat) (nTime : Int)
        (h0 t0 : Nat) (coin : Coin) (pindex : BlockEntry) (ptail : CBlockIndex) (slot : Int),
        env.IsCoinStake tx = true → tx.vin = txin :: rest →
        env.GetCoin txin.prevout = some coin → coin.spent = false →
        coin.nType = OutputType.OUTPUT_STANDARD →
        env.chainActive coin.nHeight = pindex :: ptail →
        (coin.nHeight : Int) ≤ prev.nHeight - prev.nHeight / 2 →
        CheckProofOfStake.resolve env (prev :: pprev) tx h0 t0
            = some (.ok ⟨txin, coin.out.scriptPubKey, coin.out.nValue, pindex.nTime⟩)
          ∧ CheckKernel env (prev :: pprev) nBits nTime txin.prevout (some slot)
            = (CheckStakeKernelHash env (prev :: pprev) nBits (castUint32 pindex.nTime)
                coin.out.nValue txin.prevout (castUint32 nTime) 0 0 false).map
                (fun kernel => (kernel.ret, some (pindex.nTime : Int)))) := by
  have hhalf : castInt (Int.tdiv prev.nHeight 2) = prev.nHeight / 2 := by
    rw [Int.tdiv_eq_ediv hh0 (by decide), castInt_of_range (prev.nHeight / 2) (by omega)
      (by omega)]
  have hcode : min (castInt (castUint64 ((env.nStakeMinConfirmations : Int) - 1)))
      (castInt (Int.tdiv prev.nHeight 2)) ≤ prev.nHeight / 2 := by
    rw [hhalf]
    exact min_le_right _ _
  refine ⟨fun m => ?_, by omega, hcode, ?_⟩
  · unfold RequiredDepth
    exact min_le_right _ _
  · intro tx txin rest nBits nTime h0 t0 coin pindex ptail slot hCS hvin hcoin hunspent
      hstd hidx hc
    have hpass : ¬ (min (castInt (castUint64 ((env.nStakeMinConfirmations : Int) - 1)))
        (castInt (Int.tdiv prev.nHeight 2)) > prev.nHeight - coin.nHeight) := by
      omega
    constructor
    · rw [resolve_live env prev pprev tx txin rest h0 t0 coin pindex ptail hCS hvin hcoin
        hunspent hstd hidx, if_neg hpass]
    · rw [CheckKernel_of_coin env prev pprev nBits nTime txin.prevout (some slot) coin
        pindex ptail hcoin hunspent hstd hidx, if_neg hpass]

/-- Witness for C27 on the example chain: a coin created at height 50 under
the tip at height 100. -/
theorem depth_never_blocks_witness :
    CheckProofOfStake.resolve exampleEnv (exampleEntry 100 :: exampleIndex 99)
        (exampleStake [3] []) 0 0
      = some (.ok ⟨⟨⟨3, 0⟩, stakeScript, []⟩, stakeScript, 500, (exampleEntry 50).nTime⟩) :=
  ((depth_never_blocks exampleEnv (exampleEntry 100) (exampleIndex 99) (by decide)
    (by decide)).2.2.2 (exampleStake [3] []) ⟨⟨3, 0⟩, stakeScript, []⟩ [] 0x207fffff 2600
    0 0 ⟨⟨500, stakeScript⟩, .OUTPUT_STANDARD, 50, false⟩ (exampleEntry 50)
    (exampleIndex 49) 0 rfl rfl rfl rfl rfl rfl (by decide)).1

/-! ## CheckKernel as a pre-check -/

/-- A coin returned by the live lookup is in the coin set and unspent. -/
theorem liveCoin_some (env : Env) (prevout : COutPoint) (coin : Coin)
    (h : liveCoin env prevout = some coin) :
    env.GetCoin prevout = some coin ∧ coin.spent = false := by
  unfold liveCoin at h
  split at h
  · simp only [reduceCtorEq] at h
  · next c hc =>
    split at h
    · simp only [reduceCtorEq] at h
    · next hsp =>
      simp only [Option.some.injEq] at h
      subst h
      exact ⟨hc, by simpa using hsp⟩

/-- Conversion to `uint32_t` keeps a value below 2^32. -/
theorem castUint32_of_lt (n : Nat) (h : n < 4294967296) : castUint32 (n : Int) = n := by
  unfold castUint32
  omega

/-- C26: if `CheckProofOfStake` accepts a coinstake whose kernel coin the
live coin set holds unspent, then `CheckKernel`, called with the same
predecessor, bits, candidate time, the outpoint of the first input and a
block-time slot, accepts as well and stores the coin block time that
`CheckProofOfStake` used (block times of index entries being `uint32_t`
values). -/
theorem CheckKernel_sound_precheck (env : Env) (pindexPrev : CBlockIndex)
    (tx : CTransaction) (txin : CTxIn) (rest : List CTxIn) (nTime : Int) (nBits : Nat)
    (h0 t0 : Nat) (r : PosResult) (coin : Coin) (slot : Int)
    (hacc : CheckProofOfStake env pindexPrev tx nTime nBits h0 t0 = some r)
    (hret : r.ret = true) (hvin : tx.vin = txin :: rest)
    (hlive : liveCoin env txin.prevout = some coin)
    (htimes : ∀ (h : Nat) (e : BlockEntry) (tl : CBlockIndex),
      env.chainActive h = e :: tl → e.nTime < 4294967296) :
    ∃ kc, CheckProofOfStake.resolve env pindexPrev tx h0 t0 = some (.ok kc)
      ∧ kc.txin = txin
      ∧ CheckKernel env pindexPrev nBits nTime txin.prevout (some slot)
          = some (true, some (kc.nBlockFromTime : Int)) := by
  cases hres : CheckProofOfStake.resolve env pindexPrev tx h0 t0 with
  | none =>
    unfold CheckProofOfStake at hacc
    rw [hres] at hacc
    simp only [reduceCtorEq] at hacc
  | some res =>
    cases res with
    | error rejected =>
      rw [CheckProofOfStake_of_resolve_error env pindexPrev tx nTime nBits h0 t0 rejected
        hres] at hacc
      simp only [Option.some.injEq] at hacc
      rw [← hacc, resolve_error_ret env pindexPrev tx h0 t0 rejected hres] at hret
      exact absurd hret Bool.false_ne_true
    | ok kc =>
      obtain ⟨hCS, -, -⟩ := resolve_ok_spec env pindexPrev tx h0 t0 kc hres
      have hverify : CheckProofOfStake.verify env pindexPrev tx kc.txin nTime nBits
          kc.kernelPubKey kc.amount kc.nBlockFromTime h0 t0 = some r := by
        unfold CheckProofOfStake at hacc
        rw [hres] at hacc
        exact hacc
      obtain ⟨-, kr, hker, hkret⟩ := verify_accept env pindexPrev tx kc.txin nTime nBits
        kc.kernelPubKey kc.amount kc.nBlockFromTime h0 t0 r hverify hret
      obtain ⟨hcoin, hunspent⟩ := liveCoin_some env txin.prevout coin hlive
      have hres2 := hres
      rw [resolve_of_live env pindexPrev tx txin rest h0 t0 coin hCS hvin hlive] at hres2
      split at hres2
      · simp only [Option.some.injEq, reduceCtorEq] at hres2
      · next hstd =>
        have hstd2 : coin.nType = OutputType.OUTPUT_STANDARD := by simpa using hstd
        split at hres2
        · simp only [Option.some.injEq, reduceCtorEq] at hres2
        · next pindex ptail hidx =>
          split at hres2
          · simp only [reduceCtorEq] at hres2
          · next prev pprev =>
            split at hres2
            · simp only [Option.some.injEq, reduceCtorEq] at hres2
            · next hdepth =>
              simp only [Option.some.injEq, Except.ok.injEq] at hres2
              subst hres2
              refine ⟨_, rfl, rfl, ?_⟩
              rw [CheckKernel_of_coin env prev pprev nBits nTime txin.prevout (some slot)
                coin pindex ptail hcoin hunspent hstd2 hidx, if_neg hdepth,
                castUint32_of_lt pindex.nTime (htimes coin.nHeight pindex ptail hidx)]
              have hflag := CheckStakeKernelHash_congr env env prev prev pprev pprev nBits
                pindex.nTime coin.out.nValue txin.prevout (castUint32 nTime) h0 t0
                env.LogAcceptCategory false rfl rfl rfl rfl rfl
              have hslots := CheckStakeKernelHash_verdict_slots env (prev :: pprev) nBits
                pindex.nTime coin.out.nValue txin.prevout (castUint32 nTime) h0 t0 0 0 false
              rw [hflag] at hslots
              rw [hker] at hslots
              cases hk : CheckStakeKernelHash env (prev :: pprev) nBits pindex.nTime
                  coin.out.nValue txin.prevout (castUint32 nTime) 0 0 false with
              | none => rw [hk] at hslots; simp at hslots
              | some k2 =>
                rw [hk] at hslots
                simp only [Option.map_some', Option.some.injEq] at hslots
                simp only [Option.map_some', hslots, hkret]

/-- Block times of the example chain are `uint32_t` values. -/
theorem exampleEnv_block_times (h : Nat) (e : BlockEntry) (tl : CBlockIndex)
    (hc : exampleEnv.chainActive h = e :: tl) : e.nTime < 4294967296 := by
  have hdef : exampleEnv.chainActive h = if h ≤ 100 then exampleIndex h else [] := rfl
  rw [hdef] at hc
  split at hc
  · next hle =>
    cases h with
    | zero =>
      simp only [exampleIndex, List.cons.injEq] at hc
      rw [← hc.1]
      decide
    | succ n =>
      simp only [exampleIndex, List.cons.injEq] at hc
      rw [← hc.1]
      simp only [exampleEntry]
      omega
  · simp only [reduceCtorEq] at hc

/-- Witness for C26 on the example chain: the accepted coinstake on coin
(1, 0) and the kernel pre-check on the same outpoint. -/
theorem CheckKernel_sound_precheck_witness :
    ∃ kc, CheckProofOfStake.resolve exampleEnv exampleTip
          (exampleStake [1] [.standard 10000 stakeScript]) 0 0 = some (.ok kc)
      ∧ kc.txin = ⟨⟨1, 0⟩, stakeScript, []⟩
      ∧ CheckKernel exampleEnv exampleTip 0x207fffff 2600 ⟨1, 0⟩ (some 0)
          = some (true, some (kc.nBlockFromTime : Int)) :=
  CheckKernel_sound_precheck exampleEnv exampleTip
    (exampleStake [1] [.standard 10000 stakeScript]) ⟨⟨1, 0⟩, stakeScript, []⟩ [] 2600
    0x207fffff 0 0
    (accepted 370
      115723071773848289785696637450065137598745473575918860173905958765675136679936)
    ⟨⟨10000, stakeScript⟩, .OUTPUT_STANDARD, 89, false⟩ 0 (by decide) rfl rfl rfl
    exampleEnv_block_times

/-! ## Classification of the rejections -/

/-- The rejections of the extra-input loop. -/
theorem sumExtraInputs_error_state (env : Env) (k : CScript) (ins : List CTxIn) (a : Int)
    (state : CValidationState) (h : sumExtraInputs env k ins a = some (.error state)) :
    state = ⟨1, "prevout-not-in-chain"⟩ ∨ state = ⟨100, "invalid-prevout"⟩
      ∨ state = ⟨100, "mixed-prevout-scripts"⟩ := by
  induction ins generalizing a with
  | nil =>
    rw [sumExtraInputs] at h
    simp only [Option.some.injEq, reduceCtorEq] at h
  | cons txin rest ih =>
    cases hr : resolveStandard env txin.prevout with
    | none =>
      rcases sumExtraInputs_cons_unresolved env k txin rest a hr with h2 | h2
      · rw [h2] at h
        simp only [Option.some.injEq, Except.error.injEq] at h
        exact Or.inl h.symm
      · rw [h2] at h
        simp only [Option.some.injEq, Except.error.injEq] at h
        exact Or.inr (Or.inl h.symm)
    | some sv =>
      obtain ⟨s, v⟩ := sv
      rw [sumExtraInputs_cons_resolved env k txin rest a s v hr] at h
      split at h
      · simp only [Option.some.injEq, Except.error.injEq] at h
        exact Or.inr (Or.inr h.symm)
      · split at h
        · simp only [reduceCtorEq] at h
        · next a2 _ => exact ih a2 h

/-- A rejection of the extra-input loop carries one of the late states. -/
theorem sumExtraInputs_late (env : Env) (k : CScript) (ins : List CTxIn) (a : Int)
    (state : CValidationState) (h : sumExtraInputs env k ins a = some (.error state)) :
    state ∈ lateRejections := by
  rcases sumExtraInputs_error_state env k ins a state h with h1 | h1 | h1 <;>
    (subst h1; decide)

/-- A rejection of the output loop carries one of the late states. -/
theorem sumOutputs_late (k : CScript) (outs : List CTxOutBase) (n : Int)
    (state : CValidationState) (h : sumOutputs k outs n = some (.error state)) :
    state ∈ lateRejections := by
  have h1 := sumOutputs_error k outs n state h
  subst h1
  decide

/-- A rejection of the first half of `CheckProofOfStake` returns false,
leaves both result slots unchanged and carries one of the early states. -/
theorem resolve_error_cases (env : Env) (pindexPrev : CBlockIndex) (tx : CTransaction)
    (h0 t0 : Nat) (rejected : PosResult)
    (h : CheckProofOfStake.resolve env pindexPrev tx h0 t0 = some (.error rejected)) :
    rejected.ret = false ∧ rejected.hashProofOfStake = h0
      ∧ rejected.targetProofOfStake = t0 ∧ rejected.state ∈ earlyRejections := by
  unfold CheckProofOfStake.resolve at h
  dsimp only at h
  repeat' split at h
  all_goals
    first
    | (simp only [Option.some.injEq, Except.error.injEq, reduceCtorEq] at h; done)
    | (simp only [Option.some.injEq, Except.error.injEq] at h
       rw [← h]
       exact ⟨rfl, rfl, rfl, by simp [DoS, earlyRejections]⟩)

/-- The results of the second half of `CheckProofOfStake`: the rejection by
the script verifier with both slots unchanged, a later rejection, or the
acceptance. -/
theorem verify_cases (env : Env) (pindexPrev : CBlockIndex) (tx : CTransaction)
    (txin : CTxIn) (nTime : Int) (nBits : Nat) (k : CScript) (a : Int) (t h0 t0 : Nat)
    (r : PosResult)
    (h : CheckProofOfStake.verify env pindexPrev tx txin nTime nBits k a t h0 t0 = some r) :
    (r.ret = false ∧ r.hashProofOfStake = h0 ∧ r.targetProofOfStake = t0
        ∧ r.state ∈ earlyRejections)
      ∨ (r.ret = false ∧ r.state ∈ lateRejections)
      ∨ (r.ret = true ∧ r.state = ⟨0, ""⟩) := by
  unfold CheckProofOfStake.verify at h
  dsimp only at h
  repeat' split at h
  all_goals
    first
    | (simp only [reduceCtorEq] at h)
    | (simp only [Option.some.injEq] at h
       subst h
       first
       | exact Or.inr (Or.inl ⟨rfl, sumExtraInputs_late _ _ _ _ _ (by assumption)⟩)
       | exact Or.inr (Or.inl ⟨rfl, sumOutputs_late _ _ _ _ (by assumption)⟩)
       | exact Or.inr (Or.inr ⟨rfl, rfl⟩)
       | exact Or.inl ⟨rfl, rfl, rfl, by simp [DoS, earlyRejections]⟩
       | exact Or.inr (Or.inl ⟨rfl, by simp [DoS, lateRejections]⟩))

/-- The results of `CheckProofOfStake`: an early rejection with both slots
unchanged, a later rejection, or the acceptance. -/
theorem CheckProofOfStake_cases (env : Env) (pindexPrev : CBlockIndex) (tx : CTransaction)
    (nTime : Int) (nBits : Nat) (h0 t0 : Nat) (r : PosResult)
    (h : CheckProofOfStake env pindexPrev tx nTime nBits h0 t0 = some r) :
    (r.ret = false ∧ r.hashProofOfStake = h0 ∧ r.targetProofOfStake = t0
        ∧ r.state ∈ earlyRejections)
      ∨ (r.ret = false ∧ r.state ∈ lateRejections)
      ∨ (r.ret = true ∧ r.state = ⟨0, ""⟩) := by
  unfold CheckProofOfStake at h
  cases hres : CheckProofOfStake.resolve env pindexPrev tx h0 t0 with
  | none => rw [hres] at h; simp only [reduceCtorEq] at h
  | some res =>
    rw [hres] at h
    cases res with
    | error rejected =>
      simp only [Option.some.injEq] at h
      subst h
      exact Or.inl (resolve_error_cases env pindexPrev tx h0 t0 rejected hres)
    | ok kc =>
      exact verify_cases env pindexPrev tx kc.txin nTime nBits kc.kernelPubKey kc.amount
        kc.nBlockFromTime h0 t0 r h

/-- C22 as stated fails: on the example chain the rejection of a coin that
is too young carries the level 100, the same level as the rejection of a
transaction that is not a coinstake, so it is not strictly lower. -/
theorem depth_rejection_not_softer :
    (CheckProofOfStake exampleEnv exampleTip (exampleStake [2] []) 2600 0x207fffff 0 0).map
        (fun r => r.state) = some ⟨100, "invalid-stake-depth"⟩
      ∧ (CheckProofOfStake exampleEnv exampleTip ⟨[⟨⟨1, 0⟩, stakeScript, []⟩], [], 0⟩ 2600
          0x207fffff 0 0).map (fun r => r.state) = some ⟨100, "malformed-txn"⟩
      ∧ ¬ ((⟨100, "invalid-stake-depth"⟩ : CValidationState).nDoS
          < (⟨100, "malformed-txn"⟩ : CValidationState).nDoS) := by
  decide

/-- C22 (amended): whenever `CheckProofOfStake` returns, a rejection for a
kernel hash above the target (check-kernel-failed) carries the level 1, a
rejection of a malformed transaction the level 100, and a rejection for an
insufficient stake depth the level 100 as well: the kernel rejection is
strictly softer than the malformed one, the depth rejection is not, and it
differs from the malformed one by its reject reason only. -/
theorem rejection_severity (env : Env) (pindexPrev : CBlockIndex) (tx : CTransaction)
    (nTime : Int) (nBits : Nat) (h0 t0 : Nat) (r : PosResult)
    (h : CheckProofOfStake env pindexPrev tx nTime nBits h0 t0 = some r) :
    (r.state.strRejectReason = "check-kernel-failed" → r.state.nDoS = 1)
      ∧ (r.state.strRejectReason = "malformed-txn" → r.state.nDoS = 100)
      ∧ (r.state.strRejectReason = "invalid-stake-depth" → r.state.nDoS = 100) := by
  have key : ∀ st ∈ earlyRejections ++ lateRejections ++ [(⟨0, ""⟩ : CValidationState)],
      (st.strRejectReason = "check-kernel-failed" → st.nDoS = 1)
        ∧ (st.strRejectReason = "malformed-txn" → st.nDoS = 100)
        ∧ (st.strRejectReason = "invalid-stake-depth" → st.nDoS = 100) := by
    decide
  apply key
  rcases CheckProofOfStake_cases env pindexPrev tx nTime nBits h0 t0 r h with
    ⟨-, -, -, hm⟩ | ⟨-, hm⟩ | ⟨-, hs⟩
  · exact List.mem_append_left _ (List.mem_append_left _ hm)
  · exact List.mem_append_left _ (List.mem_append_right _ hm)
  · rw [hs]
    exact List.mem_append_right _ (List.mem_singleton.mpr rfl)

/-- Witness for C22 (amended): the rejection of the coinstake on the coin
(1, 0) with the bits 0, which decode to a zero target, carries the level 1. -/
theorem rejection_severity_witness :
    (⟨1, "check-kernel-failed"⟩ : CValidationState).nDoS = 1 :=
  (rejection_severity exampleEnv exampleTip (exampleStake [1] []) 2600 0 7 9
    ⟨false, ⟨1, "check-kernel-failed"⟩, 7, 9⟩ (by decide)).1 rfl

/-- C23 as stated fails: on the example chain a transaction that is not a
coinstake (malformed-txn) and a coinstake whose bits decode to zero
(check-kernel-failed) are rejected for different reasons, and the caller
receives the same value for both: false, with both result slots as they
were. -/
theorem different_reasons_same_value :
    (CheckProofOfStake exampleEnv exampleTip ⟨[⟨⟨1, 0⟩, stakeScript, []⟩], [], 0⟩ 2600 0
        7 9).map callerView
      = (CheckProofOfStake exampleEnv exampleTip (exampleStake [1] []) 2600 0 7 9).map
          callerView
      ∧ (CheckProofOfStake exampleEnv exampleTip ⟨[⟨⟨1, 0⟩, stakeScript, []⟩], [], 0⟩ 2600 0
          7 9).map (fun r => r.state.strRejectReason) = some "malformed-txn"
      ∧ (CheckProofOfStake exampleEnv exampleTip (exampleStake [1] []) 2600 0 7 9).map
          (fun r => r.state.strRejectReason) = some "check-kernel-failed" := by
  decide

/-- C23 (amended): whenever `CheckProofOfStake` returns, it returns false
exactly when its local validation state records a rejection; the caller
receives the boolean and the two result slots only, and a rejection that is
raised before the kernel check (malformed-txn, the prevout-not-in-chain of
the kernel, invalid-stake-depth, verify-script-failed) returns false with
both slots unchanged, whatever its reason is. -/
theorem rejection_returned_value (env : Env) (pindexPrev : CBlockIndex) (tx : CTransaction)
    (nTime : Int) (nBits : Nat) (h0 t0 : Nat) (r : PosResult)
    (h : CheckProofOfStake env pindexPrev tx nTime nBits h0 t0 = some r) :
    (r.ret = false ↔ r.state ≠ ⟨0, ""⟩)
      ∧ (r.state ∈ earlyRejections → r.state ∉ lateRejections →
          callerView r = (false, h0, t0)) := by
  have hearly : ∀ st ∈ earlyRejections, st ≠ (⟨0, ""⟩ : CValidationState) := by decide
  have hlate : ∀ st ∈ lateRejections, st ≠ (⟨0, ""⟩ : CValidationState) := by decide
  rcases CheckProofOfStake_cases env pindexPrev tx nTime nBits h0 t0 r h with
    ⟨hret, hh, ht, hm⟩ | ⟨hret, hm⟩ | ⟨hret, hs⟩
  · refine ⟨⟨fun _ => hearly _ hm, fun _ => hret⟩, fun _ _ => ?_⟩
    unfold callerView
    rw [hret, hh, ht]
  · exact ⟨⟨fun _ => hlate _ hm, fun _ => hret⟩, fun _ hnot => absurd hm hnot⟩
  · refine ⟨⟨fun hf => ?_, fun hne => absurd hs hne⟩, fun hm _ => ?_⟩
    · rw [hret] at hf
      exact absurd hf.symm Bool.false_ne_true
    · rw [hs] at hm
      exact absurd hm (by decide)

/-- Witness for C23 (amended): the malformed transaction of the example
returns false with the slots 7 and 9 unchanged. -/
theorem rejection_returned_value_witness :
    callerView (DoS 100 "malformed-txn" 7 9) = (false, 7, 9) :=
  (rejection_returned_value exampleEnv exampleTip ⟨[⟨⟨1, 0⟩, stakeScript, []⟩], [], 0⟩
    2600 0 7 9 (DoS 100 "malformed-txn" 7 9) (by decide)).2 (by decide) (by decide)

/-! ## Coin year reward -/

/-- C37: on a network other than regtest and for a time t at or after
`exploit_fix_2_time`, with y the number of whole years since that time,
`GetCoinYearReward` returns 8 CENT for y in 0..1, 7 CENT for y in 2..3 and
6 CENT for y >= 4; for a non-negative CENT it is non-increasing in t. -/
theorem GetCoinYearReward_schedule (CENT : Int) (params : CChainParams) (t : Int)
    (hnet : params.strNetworkID ≠ "regtest") (ht : params.exploit_fix_2_time ≤ t) :
    ((t - params.exploit_fix_2_time) / nSecondsInYear = 0
        ∨ (t - params.exploit_fix_2_time) / nSecondsInYear = 1 →
        GetCoinYearReward CENT params t = 8 * CENT)
    ∧ ((t - params.exploit_fix_2_time) / nSecondsInYear = 2
        ∨ (t - params.exploit_fix_2_time) / nSecondsInYear = 3 →
        GetCoinYearReward CENT params t = 7 * CENT)
    ∧ (4 ≤ (t - params.exploit_fix_2_time) / nSecondsInYear →
        GetCoinYearReward CENT params t = 6 * CENT)
    ∧ (0 ≤ CENT → ∀ t2, t ≤ t2 →
        GetCoinYearReward CENT params t2 ≤ GetCoinYearReward CENT params t) := by
  have hval : ∀ u, params.exploit_fix_2_time ≤ u →
      GetCoinYearReward CENT params u
        = if (u - params.exploit_fix_2_time) / 63072000 = 0 then 8 * CENT
          else if (u - params.exploit_fix_2_time) / 63072000 = 1 then 7 * CENT
          else 6 * CENT := by
    intro u hu
    have hdiv : Int.tdiv (u - params.exploit_fix_2_time) (nSecondsInYear * 2)
        = (u - params.exploit_fix_2_time) / 63072000 := by
      rw [Int.tdiv_eq_ediv (by omega) (by decide)]
      rfl
    unfold GetCoinYearReward
    rw [if_pos hnet, if_pos (ge_iff_le.mpr hu), hdiv]
    have hnn : 0 ≤ (u - params.exploit_fix_2_time) / 63072000 := by omega
    by_cases h0 : (u - params.exploit_fix_2_time) / 63072000 = 0
    · rw [if_pos (by omega), h0, if_pos rfl]
      norm_num
    · by_cases h1 : (u - params.exploit_fix_2_time) / 63072000 = 1
      · rw [if_pos (by omega), h1, if_neg (by decide), if_pos rfl]
        norm_num
      · rw [if_neg (by omega), if_neg h0, if_neg h1]
  have hyear : nSecondsInYear = 31536000 := by decide
  rw [hyear]
  refine ⟨?_, ?_, ?_, ?_⟩
  · intro hy
    rw [hval t ht, if_pos (by omega)]
  · intro hy
    rw [hval t ht, if_neg (by omega), if_pos (by omega)]
  · intro hy
    rw [hval t ht, if_neg (by omega), if_neg (by omega)]
  · intro hC t2 h2
    rw [hval t ht, hval t2 (le_trans ht h2)]
    split <;> split <;> (try split) <;> (try split) <;> omega

/-- Witness for C37 on the example parameters: three years after the fix
time the reward is 7 CENT. -/
theorem GetCoinYearReward_schedule_witness :
    GetCoinYearReward 1000000 exampleParams (1626109200 + 3 * 31536000) = 7 * 1000000 :=
  (GetCoinYearReward_schedule 1000000 exampleParams (1626109200 + 3 * 31536000)
    (by decide) (by decide)).2.1 (Or.inr (by decide))

/-! ## Treasury fund settings -/

/-- C38: `PushTreasuryFundSettings` throws "minstakepercent must be in range
[0, 100]." if and only if the minimum treasury stake percent of the settings
is below 0 or above 100, and then leaves the parameters unchanged; otherwise
it returns true and the settings list is the old list with the pair
(time_from, settings) appended at the end. -/
theorem PushTreasuryFundSettings_spec (params : CChainParams) (time_from : Int)
    (settings : TreasuryFundSettings) :
    ((PushTreasuryFundSettings params time_from settings).1
        = .error "minstakepercent must be in range [0, 100]."
      ↔ settings.nMinTreasuryStakePercent < 0 ∨ settings.nMinTreasuryStakePercent > 100)
    ∧ (settings.nMinTreasuryStakePercent < 0 ∨ settings.nMinTreasuryStakePercent > 100 →
        (PushTreasuryFundSettings params time_from settings).2 = params)
    ∧ (¬ (settings.nMinTreasuryStakePercent < 0 ∨ settings.nMinTreasuryStakePercent > 100) →
        (PushTreasuryFundSettings params time_from settings).1 = .ok true
        ∧ (PushTreasuryFundSettings params time_from settings).2.vTreasuryFundSettings
            = params.vTreasuryFundSettings ++ [(time_from, settings)]
        ∧ (PushTreasuryFundSettings params time_from settings).2
            = { params with
                vTreasuryFundSettings :=
                  params.vTreasuryFundSettings ++ [(time_from, settings)] }) := by
  unfold PushTreasuryFundSettings
  by_cases h : settings.nMinTreasuryStakePercent < 0 ∨ settings.nMinTreasuryStakePercent > 100
  · rw [if_pos h]
    exact ⟨⟨fun _ => h, fun _ => rfl⟩, fun _ => rfl, fun hn => absurd h hn⟩
  · rw [if_neg h]
    refine ⟨⟨fun he => ?_, fun hc => absurd hc h⟩, fun hc => absurd hc h,
      fun _ => ⟨rfl, rfl, rfl⟩⟩
    simp only [reduceCtorEq] at he

/-- Witness for C38: a stake percent of 101 is refused and the parameters
stay as they were; a stake percent of 100 is appended. -/
theorem PushTreasuryFundSettings_spec_witness :
    (PushTreasuryFundSettings exampleParams 1700000000 ⟨"RNew", 101, 60⟩).2 = exampleParams
      ∧ (PushTreasuryFundSettings exampleParams 1700000000
          ⟨"RNew", 100, 60⟩).2.vTreasuryFundSettings
        = exampleParams.vTreasuryFundSettings ++ [(1700000000, ⟨"RNew", 100, 60⟩)] :=
  ⟨(PushTreasuryFundSettings_spec exampleParams 1700000000 ⟨"RNew", 101, 60⟩).2.1
      (Or.inr (by decide)),
   ((PushTreasuryFundSettings_spec exampleParams 1700000000 ⟨"RNew", 100, 60⟩).2.2
      (by decide)).2.1⟩

/-- The loop of `GetTreasuryFundSettings` is a search for the first entry
with `time_from` below the time. -/
theorem scan_eq_find (nTime : Int) (l : List (Int × TreasuryFundSettings)) :
    GetTreasuryFundSettings.scan nTime l
      = (l.find? (fun i => decide (nTime > i.1))).map (fun i => i.2) := by
  induction l with
  | nil => rfl
  | cons i rest ih =>
    rw [GetTreasuryFundSettings.scan, List.find?_cons]
    by_cases h : nTime > i.1
    · simp [h]
    · simp [h, ih]

/-- The loop passes over entries that are not yet active. -/
theorem scan_append_inactive (nTime : Int) (l1 l2 : List (Int × TreasuryFundSettings))
    (h : ∀ i ∈ l1, ¬ i.1 < nTime) :
    GetTreasuryFundSettings.scan nTime (l1 ++ l2) = GetTreasuryFundSettings.scan nTime l2 := by
  induction l1 with
  | nil => rfl
  | cons i rest ih =>
    rw [List.cons_append, GetTreasuryFundSettings.scan,
      if_neg (fun hgt => h i (List.mem_cons_self _ _) hgt)]
    exact ih (fun j hj => h j (List.mem_cons_of_mem _ hj))

/-- C39: `GetTreasuryFundSettings(nTime)` returns the settings of the last
entry of the list (the most recently appended one) whose `time_from` is
strictly below `nTime`, and none when no entry has `time_from < nTime`; an
entry whose `time_from` equals `nTime` is passed over; on a list appended in
non-decreasing `time_from` order the returned entry has the greatest
`time_from` below `nTime`. -/
theorem GetTreasuryFundSettings_spec (params : CChainParams) (nTime : Int) :
    (∀ s, GetTreasuryFundSettings params nTime = some s
      ↔ ∃ pre post tf, params.vTreasuryFundSettings = pre ++ (tf, s) :: post
          ∧ tf < nTime ∧ ∀ i ∈ post, ¬ i.1 < nTime)
    ∧ (GetTreasuryFundSettings params nTime = none
      ↔ ∀ i ∈ params.vTreasuryFundSettings, ¬ i.1 < nTime)
    ∧ (∀ pre s, params.vTreasuryFundSettings = pre ++ [(nTime, s)] →
        GetTreasuryFundSettings params nTime
          = GetTreasuryFundSettings { params with vTreasuryFundSettings := pre } nTime)
    ∧ (List.Pairwise (fun a b => a.1 ≤ b.1) params.vTreasuryFundSettings →
        ∀ s, GetTreasuryFundSettings params nTime = some s →
          ∃ tf, (tf, s) ∈ params.vTreasuryFundSettings ∧ tf < nTime
            ∧ ∀ i ∈ params.vTreasuryFundSettings, i.1 < nTime → i.1 ≤ tf) := by
  have hsome : ∀ s, GetTreasuryFundSettings params nTime = some s
      ↔ ∃ pre post tf, params.vTreasuryFundSettings = pre ++ (tf, s) :: post
          ∧ tf < nTime ∧ ∀ i ∈ post, ¬ i.1 < nTime := by
    intro s
    unfold GetTreasuryFundSettings
    constructor
    · intro h
      rw [scan_eq_find] at h
      cases hf : params.vTreasuryFundSettings.reverse.find? (fun i => decide (nTime > i.1)) with
      | none => rw [hf] at h; simp at h
      | some e =>
        rw [hf] at h
        simp only [Option.map_some', Option.some.injEq] at h
        obtain ⟨hp, l1, l2, hl, hbefore⟩ := List.find?_eq_some.mp hf
        refine ⟨l2.reverse, l1.reverse, e.1, ?_, by simpa using hp, ?_⟩
        · have hrev := congrArg List.reverse hl
          rw [List.reverse_reverse] at hrev
          rw [hrev, ← h]
          simp
        · intro i hi
          have := hbefore i (List.mem_reverse.mp hi)
          simpa using this
    · rintro ⟨pre, post, tf, hv, htf, hpost⟩
      rw [hv, List.reverse_append, List.reverse_cons, List.append_assoc,
        scan_append_inactive nTime post.reverse _
          (fun i hi => hpost i (List.mem_reverse.mp hi))]
      simp only [List.singleton_append]
      rw [GetTreasuryFundSettings.scan, if_pos htf]
  have hnone : GetTreasuryFundSettings params nTime = none
      ↔ ∀ i ∈ params.vTreasuryFundSettings, ¬ i.1 < nTime := by
    unfold GetTreasuryFundSettings
    rw [scan_eq_find]
    simp
  refine ⟨hsome, hnone, ?_, ?_⟩
  · intro pre s hv
    unfold GetTreasuryFundSettings
    rw [hv, List.reverse_append]
    simp only [List.reverse_cons, List.reverse_nil, List.nil_append, List.singleton_append]
    rw [GetTreasuryFundSettings.scan, if_neg (lt_irrefl nTime)]
  · intro hsorted s hs
    obtain ⟨pre, post, tf, hv, htf, hpost⟩ := (hsome s).mp hs
    refine ⟨tf, ?_, htf, ?_⟩
    · rw [hv]
      simp
    · intro i hi hlt
      rw [hv] at hi hsorted
      rcases List.mem_append.mp hi with hpre | hrest
      · exact (List.pairwise_append.mp hsorted).2.2 i hpre (tf, s) (List.mem_cons_self _ _)
      · rcases List.mem_cons.mp hrest with heq | hpost2
        · rw [heq]
        · exact absurd hlt (hpost i hpost2)

/-- Witness for C39 on the example parameters: at the time of the third
entry the second entry is returned, one second later the third. -/
theorem GetTreasuryFundSettings_spec_witness :
    GetTreasuryFundSettings exampleParams 1626109200 = some ⟨"RBii", 10, 60⟩
      ∧ GetTreasuryFundSettings exampleParams 1626109201 = some ⟨"RQYU", 50, 650⟩ :=
  ⟨((GetTreasuryFundSettings_spec exampleParams 1626109200).1 ⟨"RBii", 10, 60⟩).mpr
      ⟨[(0, ⟨"RJAP", 10, 60⟩)], [(1626109200, ⟨"RQYU", 50, 650⟩)], 1600000000, rfl,
        by decide, by decide⟩,
   ((GetTreasuryFundSettings_spec exampleParams 1626109201).1 ⟨"RQYU", 50, 650⟩).mpr
      ⟨[(0, ⟨"RJAP", 10, 60⟩), (1600000000, ⟨"RBii", 10, 60⟩)], [], 1626109200, rfl,
        by decide, by decide⟩⟩

/-! ## Result slots of CheckStakeKernelHash -/

/-- C35: when `CheckStakeKernelHash` rejects for a timestamp violation or a
compact-decode failure, both result slots hold what the caller passed; when
it reaches the comparison, `targetProofOfStake` holds the weighted target
and `hashProofOfStake` the kernel hash, whether it accepts or not. -/
theorem CheckStakeKernelHash_slots (env : Env) (nBits nBlockFromTime : Nat)
    (prevOutAmount : Int) (prevout : COutPoint) (nTime : Nat) (h0 t0 : Nat) (fPrint : Bool) :
    (nTime < nBlockFromTime → ∀ pindexPrev,
        CheckStakeKernelHash env pindexPrev nBits nBlockFromTime prevOutAmount prevout
          nTime h0 t0 fPrint = some ⟨false, h0, t0⟩)
    ∧ (¬ validCompact env nBits → ∀ pindexPrev,
        CheckStakeKernelHash env pindexPrev nBits nBlockFromTime prevOutAmount prevout
          nTime h0 t0 fPrint = some ⟨false, h0, t0⟩)
    ∧ (nBlockFromTime ≤ nTime → validCompact env nBits → ∀ prev pprev,
        ∃ r, CheckStakeKernelHash env (prev :: pprev) nBits nBlockFromTime prevOutAmount
            prevout nTime h0 t0 fPrint = some r
          ∧ r.targetProofOfStake
              = ((env.SetCompact nBits).1 * castUint64 prevOutAmount) % 2 ^ 256
          ∧ r.hashProofOfStake
              = env.Hash (kernelPreimage env prev.bnStakeModifier nBlockFromTime prevout
                  nTime)) := by
  refine ⟨?_, ?_, ?_⟩
  · intro hTime pindexPrev
    unfold CheckStakeKernelHash
    rw [if_pos hTime]
  · intro hBad pindexPrev
    have hc : ((env.SetCompact nBits).2.1 || (env.SetCompact nBits).2.2
        || (env.SetCompact nBits).1 == 0) = true := by
      unfold validCompact at hBad
      by_contra hcon
      apply hBad
      simp only [Bool.or_eq_true, beq_iff_eq, not_or, Bool.not_eq_true] at hcon
      exact ⟨hcon.1.1, hcon.1.2, hcon.2⟩
    unfold CheckStakeKernelHash
    split
    · rfl
    · simp only [hc, if_true]
  · intro hTime hValid prev pprev
    exact ⟨_, CheckStakeKernelHash_reached env prev pprev nBits nBlockFromTime
      prevOutAmount prevout nTime h0 t0 fPrint hTime hValid, rfl, rfl⟩

/-- Witness for C35 on the example chain: a timestamp violation leaves the
slots 7 and 9 as they were. -/
theorem CheckStakeKernelHash_slots_witness :
    CheckStakeKernelHash exampleEnv exampleTip 0x207fffff 2000 10000 ⟨1, 0⟩ 1999 7 9 false
      = some ⟨false, 7, 9⟩ :=
  (CheckStakeKernelHash_slots exampleEnv 0x207fffff 2000 10000 ⟨1, 0⟩ 1999 7 9 false).1
    (by decide) exampleTip

/-! ## Block-time slot of CheckKernel -/

/-- C36, evaluated on the example chain: with a block-time slot `CheckKernel`
accepts the coin (1, 0); with a null `pBlockTime` the store of line 321 is
skipped by the test of line 320, but line 324 reads `*pBlockTime`, so the
same call has no defined result.  A call that is rejected before line 320
(unknown outpoint (6, 0)) returns false with or without a slot. -/
theorem null_block_time_slot :
    CheckKernel exampleEnv exampleTip 0x207fffff 2600 ⟨1, 0⟩ (some 0)
        = some (true, some 2424)
      ∧ CheckKernel exampleEnv exampleTip 0x207fffff 2600 ⟨1, 0⟩ none = none
      ∧ CheckKernel exampleEnv exampleTip 0x207fffff 2600 ⟨6, 0⟩ none = some (false, none) := by
  decide

/-! ## Stake weight of the kernel input -/

/-- The first half of `CheckProofOfStake` reads the transaction only through
the coinstake test and its first input. -/
theorem resolve_first_input (env : Env) (pindexPrev : CBlockIndex) (tx1 tx2 : CTransaction)
    (txin : CTxIn) (rest1 rest2 : List CTxIn) (h0 t0 : Nat)
    (hCS1 : env.IsCoinStake tx1 = true) (hCS2 : env.IsCoinStake tx2 = true)
    (hvin1 : tx1.vin = txin :: rest1) (hvin2 : tx2.vin = txin :: rest2) :
    CheckProofOfStake.resolve env pindexPrev tx1 h0 t0
      = CheckProofOfStake.resolve env pindexPrev tx2 h0 t0 := by
  unfold CheckProofOfStake.resolve
  rw [hCS1, hCS2, hvin1, hvin2]

/-- When the second half of `CheckProofOfStake` returns after the script
verifier succeeded, the result slots hold what `CheckStakeKernelHash` left
in them, and a kernel rejection is returned as check-kernel-failed. -/
theorem verify_kernel_slots (env : Env) (pindexPrev : CBlockIndex) (tx : CTransaction)
    (txin : CTxIn) (nTime : Int) (nBits : Nat) (k : CScript) (a : Int) (t h0 t0 : Nat)
    (r : PosResult)
    (h : CheckProofOfStake.verify env pindexPrev tx txin nTime nBits k a t h0 t0 = some r)
    (hsig : env.VerifyScript txin.scriptSig k txin.scriptWitness tx 0
      (leBytes 8 (castUint64 a)) = true) :
    ∃ kr, CheckStakeKernelHash env pindexPrev nBits t a txin.prevout (castUint32 nTime)
          h0 t0 env.LogAcceptCategory = some kr
      ∧ r.hashProofOfStake = kr.hashProofOfStake
      ∧ r.targetProofOfStake = kr.targetProofOfStake
      ∧ (kr.ret = false →
          r = DoS 1 "check-kernel-failed" kr.hashProofOfStake kr.targetProofOfStake) := by
  unfold CheckProofOfStake.verify at h
  simp only [hsig, Bool.not_true, Bool.false_eq_true, if_false] at h
  cases hker : CheckStakeKernelHash env pindexPrev nBits t a txin.prevout (castUint32 nTime)
      h0 t0 env.LogAcceptCategory with
  | none => rw [hker] at h; simp only [reduceCtorEq] at h
  | some kr =>
    rw [hker] at h
    refine ⟨kr, rfl, ?_⟩
    dsimp only at h
    cases hret : kr.ret with
    | false =>
      simp only [hret, Bool.not_false, if_true, Option.some.injEq] at h
      subst h
      exact ⟨rfl, rfl, fun _ => rfl⟩
    | true =>
      simp only [hret, Bool.not_true, Bool.false_eq_true, if_false] at h
      repeat' split at h
      all_goals
        first
        | (simp only [reduceCtorEq] at h)
        | (simp only [Option.some.injEq] at h
           subst h
           exact ⟨rfl, rfl, fun hf => absurd hf (by decide)⟩)

/-- After a successful script verification, a kernel check without a defined
result leaves the second half of `CheckProofOfStake` without one, and a
kernel rejection is returned as check-kernel-failed, whatever the other
inputs and the outputs of the transaction are. -/
theorem verify_kernel_first (env : Env) (pindexPrev : CBlockIndex) (tx : CTransaction)
    (txin : CTxIn) (nTime : Int) (nBits : Nat) (k : CScript) (a : Int) (t h0 t0 : Nat)
    (hsig : env.VerifyScript txin.scriptSig k txin.scriptWitness tx 0
      (leBytes 8 (castUint64 a)) = true) :
    (CheckStakeKernelHash env pindexPrev nBits t a txin.prevout (castUint32 nTime)
        h0 t0 env.LogAcceptCategory = none →
      CheckProofOfStake.verify env pindexPrev tx txin nTime nBits k a t h0 t0 = none)
    ∧ (∀ kr, CheckStakeKernelHash env pindexPrev nBits t a txin.prevout (castUint32 nTime)
        h0 t0 env.LogAcceptCategory = some kr → kr.ret = false →
      CheckProofOfStake.verify env pindexPrev tx txin nTime nBits k a t h0 t0
        = some (DoS 1 "check-kernel-failed" kr.hashProofOfStake kr.targetProofOfStake)) := by
  refine ⟨fun hker => ?_, fun kr hker hret => ?_⟩
  · unfold CheckProofOfStake.verify
    simp only [hsig, hker, Bool.not_true, Bool.false_eq_true, if_false]
  · unfold CheckProofOfStake.verify
    simp only [hsig, hker, hret, Bool.not_true, Bool.false_eq_true, if_false, Bool.not_false,
      if_true]

/-- C31: two coinstakes with the same first input, checked under the same
chain view, predecessor, bits and time, resolve the same kernel coin, and
`CheckStakeKernelHash` is called on the outpoint of that first input with
the amount and block time of its coin only.  A rejection before the kernel
check is the same for both; once both pass the script verifier, the kernel
check is one call: without a defined result neither coinstake has one, a
kernel rejection is returned for both, and every result either call returns
carries the hash and the target that call left.  The extra inputs are summed
only after the kernel check has accepted. -/
theorem kernel_input_only (env : Env) (pindexPrev : CBlockIndex) (tx1 tx2 : CTransaction)
    (txin : CTxIn) (rest1 rest2 : List CTxIn) (nTime : Int) (nBits : Nat) (h0 t0 : Nat)
    (hCS1 : env.IsCoinStake tx1 = true) (hCS2 : env.IsCoinStake tx2 = true)
    (hvin1 : tx1.vin = txin :: rest1) (hvin2 : tx2.vin = txin :: rest2) :
    CheckProofOfStake.resolve env pindexPrev tx1 h0 t0
        = CheckProofOfStake.resolve env pindexPrev tx2 h0 t0
    ∧ (∀ rejected, CheckProofOfStake.resolve env pindexPrev tx1 h0 t0
          = some (.error rejected) →
        CheckProofOfStake env pindexPrev tx1 nTime nBits h0 t0 = some rejected
          ∧ CheckProofOfStake env pindexPrev tx2 nTime nBits h0 t0 = some rejected)
    ∧ (∀ kc, CheckProofOfStake.resolve env pindexPrev tx1 h0 t0 = some (.ok kc) →
        env.VerifyScript txin.scriptSig kc.kernelPubKey txin.scriptWitness tx1 0
          (leBytes 8 (castUint64 kc.amount)) = true →
        env.VerifyScript txin.scriptSig kc.kernelPubKey txin.scriptWitness tx2 0
          (leBytes 8 (castUint64 kc.amount)) = true →
        kc.txin = txin
        ∧ (CheckStakeKernelHash env pindexPrev nBits kc.nBlockFromTime kc.amount txin.prevout
              (castUint32 nTime) h0 t0 env.LogAcceptCategory = none →
            CheckProofOfStake env pindexPrev tx1 nTime nBits h0 t0 = none
              ∧ CheckProofOfStake env pindexPrev tx2 nTime nBits h0 t0 = none)
        ∧ (∀ kr, CheckStakeKernelHash env pindexPrev nBits kc.nBlockFromTime kc.amount
              txin.prevout (castUint32 nTime) h0 t0 env.LogAcceptCategory = some kr →
            (kr.ret = false →
              CheckProofOfStake env pindexPrev tx1 nTime nBits h0 t0
                  = some (DoS 1 "check-kernel-failed" kr.hashProofOfStake
                      kr.targetProofOfStake)
                ∧ CheckProofOfStake env pindexPrev tx2 nTime nBits h0 t0
                  = some (DoS 1 "check-kernel-failed" kr.hashProofOfStake
                      kr.targetProofOfStake))
            ∧ (∀ r1 r2, CheckProofOfStake env pindexPrev tx1 nTime nBits h0 t0 = some r1 →
                CheckProofOfStake env pindexPrev tx2 nTime nBits h0 t0 = some r2 →
                r1.hashProofOfStake = kr.hashProofOfStake
                  ∧ r2.hashProofOfStake = kr.hashProofOfStake
                  ∧ r1.targetProofOfStake = kr.targetProofOfStake
                  ∧ r2.targetProofOfStake = kr.targetProofOfStake))) := by
  have hres := resolve_first_input env pindexPrev tx1 tx2 txin rest1 rest2 h0 t0
    hCS1 hCS2 hvin1 hvin2
  refine ⟨hres, ?_, ?_⟩
  · intro rejected h
    exact ⟨CheckProofOfStake_of_resolve_error env pindexPrev tx1 nTime nBits h0 t0 rejected h,
      CheckProofOfStake_of_resolve_error env pindexPrev tx2 nTime nBits h0 t0 rejected
        (hres ▸ h)⟩
  · intro kc h hsig1 hsig2
    have htxin : kc.txin = txin := by
      obtain ⟨_, ⟨rest, hrest⟩, _⟩ := resolve_ok_spec env pindexPrev tx1 h0 t0 kc h
      rw [hvin1] at hrest
      exact (List.cons.inj hrest).1.symm
    have e1 : CheckProofOfStake env pindexPrev tx1 nTime nBits h0 t0
        = CheckProofOfStake.verify env pindexPrev tx1 txin nTime nBits kc.kernelPubKey
            kc.amount kc.nBlockFromTime h0 t0 := by
      unfold CheckProofOfStake
      rw [h]
      dsimp only
      rw [htxin]
    have e2 : CheckProofOfStake env pindexPrev tx2 nTime nBits h0 t0
        = CheckProofOfStake.verify env pindexPrev tx2 txin nTime nBits kc.kernelPubKey
            kc.amount kc.nBlockFromTime h0 t0 := by
      unfold CheckProofOfStake
      rw [← hres, h]
      dsimp only
      rw [htxin]
    have f1 := verify_kernel_first env pindexPrev tx1 txin nTime nBits kc.kernelPubKey
      kc.amount kc.nBlockFromTime h0 t0 hsig1
    have f2 := verify_kernel_first env pindexPrev tx2 txin nTime nBits kc.kernelPubKey
      kc.amount kc.nBlockFromTime h0 t0 hsig2
    rw [e1, e2]
    refine ⟨htxin, fun hker => ⟨f1.1 hker, f2.1 hker⟩, fun kr hker => ⟨fun hret =>
      ⟨f1.2 kr hker hret, f2.2 kr hker hret⟩, fun r1 r2 hr1 hr2 => ?_⟩⟩
    obtain ⟨k1, hk1, a1, b1, _⟩ := verify_kernel_slots env pindexPrev tx1 txin nTime nBits
      kc.kernelPubKey kc.amount kc.nBlockFromTime h0 t0 r1 hr1 hsig1
    obtain ⟨k2, hk2, a2, b2, _⟩ := verify_kernel_slots env pindexPrev tx2 txin nTime nBits
      kc.kernelPubKey kc.amount kc.nBlockFromTime h0 t0 r2 hr2 hsig2
    rw [hker] at hk1 hk2
    cases hk1
    cases hk2
    exact ⟨a1, a2, b1, b2⟩

/-- Witness for C31 on the example chain: the coinstake spending coin 3 alone
and the one spending coins 3 and 1 resolve the same kernel coin (value 500,
block time 1800); the kernel check on it rejects (hash 1228 above the target
500), and both coinstakes are rejected with that hash and target. -/
theorem kernel_input_only_witness :
    CheckProofOfStake exampleEnv exampleTip (exampleStake [3] []) 4294967295 0x03000001 0 0
        = some (DoS 1 "check-kernel-failed" 1228 500)
      ∧ CheckProofOfStake exampleEnv exampleTip (exampleStake [3, 1] []) 4294967295
          0x03000001 0 0
        = some (DoS 1 "check-kernel-failed" 1228 500) :=
  ((((kernel_input_only exampleEnv exampleTip (exampleStake [3] [])
    (exampleStake [3, 1] []) ⟨⟨3, 0⟩, stakeScript, []⟩ [] [⟨⟨1, 0⟩, stakeScript, []⟩]
    4294967295 0x03000001 0 0 rfl rfl rfl rfl).2.2
    ⟨⟨⟨3, 0⟩, stakeScript, []⟩, stakeScript, 500, 1800⟩ rfl rfl rfl).2.2
    ⟨false, 1228, 500⟩ rfl).1 rfl)

/-! ## IsConfirmedInNPrevBlocks and CheckAge -/

/-- The loop of `IsConfirmedInNPrevBlocks` finds the first entry with the
given hash among the entries closer than `nMaxDepth`. -/
theorem loop_eq_find (hashBlock : Nat) (H n : Int) (l : CBlockIndex) :
    IsConfirmedInNPrevBlocks.loop hashBlock H n l
      = ((l.takeWhile (fun e => decide (H - e.nHeight < n))).find?
          (fun e => hashBlock == e.hashBlock)).map (fun e => H - e.nHeight) := by
  induction l with
  | nil => rfl
  | cons a rest ih =>
    rw [IsConfirmedInNPrevBlocks.loop, List.takeWhile_cons]
    by_cases hd : H - a.nHeight < n
    · rw [if_pos hd]
      simp only [hd, decide_True, if_true, List.find?_cons]
      by_cases hh : (hashBlock == a.hashBlock) = true
      · simp only [hh, if_true, Option.map_some']
      · simp only [hh, Bool.false_eq_true, if_false]
        exact ih
    · rw [if_neg hd]
      simp only [hd, decide_False, Bool.false_eq_true, if_false, List.find?_nil,
        Option.map_none']

/-- `IsConfirmedInNPrevBlocks` on a non-null entry, by the result of the loop. -/
theorem IsConfirmedInNPrevBlocks_cons (hashBlock : Nat) (first : BlockEntry)
    (rest : CBlockIndex) (nMaxDepth nActualDepth : Int) :
    IsConfirmedInNPrevBlocks hashBlock (first :: rest) nMaxDepth nActualDepth
      = match ((visitedEntries (first :: rest) nMaxDepth).find?
            (fun e => hashBlock == e.hashBlock)) with
        | some e => (true, first.nHeight - e.nHeight)
        | none => (false, nActualDepth) := by
  unfold IsConfirmedInNPrevBlocks visitedEntries
  dsimp only
  rw [loop_eq_find]
  cases ((first :: rest).takeWhile
    (fun e => decide (first.nHeight - e.nHeight < nMaxDepth))).find?
    (fun e => hashBlock == e.hashBlock) <;> rfl

/-- C34: `IsConfirmedInNPrevBlocks` returns true if and only if one of the
entries visited before the first entry at height distance `nMaxDepth` or
more has the given hash; on true `nActualDepth` is the height of
`pindexFrom` minus the height of the first such entry; on false
`nActualDepth` is unchanged; for `nMaxDepth <= 0` it returns false. -/
theorem IsConfirmedInNPrevBlocks_spec (hashBlock : Nat) (pindexFrom : CBlockIndex)
    (nMaxDepth nActualDepth : Int) :
    ((IsConfirmedInNPrevBlocks hashBlock pindexFrom nMaxDepth nActualDepth).1 = true
        ↔ ∃ e ∈ visitedEntries pindexFrom nMaxDepth, e.hashBlock = hashBlock)
    ∧ (∀ first rest e, pindexFrom = first :: rest →
        (visitedEntries pindexFrom nMaxDepth).find? (fun e => hashBlock == e.hashBlock)
          = some e →
        IsConfirmedInNPrevBlocks hashBlock pindexFrom nMaxDepth nActualDepth
          = (true, first.nHeight - e.nHeight))
    ∧ ((IsConfirmedInNPrevBlocks hashBlock pindexFrom nMaxDepth nActualDepth).1 = false →
        (IsConfirmedInNPrevBlocks hashBlock pindexFrom nMaxDepth nActualDepth).2
          = nActualDepth)
    ∧ (nMaxDepth ≤ 0 →
        IsConfirmedInNPrevBlocks hashBlock pindexFrom nMaxDepth nActualDepth
          = (false, nActualDepth)) := by
  cases pindexFrom with
  | nil =>
    refine ⟨⟨fun h => ?_, fun h => ?_⟩, fun first rest e h => ?_, fun _ => rfl, fun _ => rfl⟩
    · exact absurd h Bool.false_ne_true
    · obtain ⟨e, he, _⟩ := h
      simp only [visitedEntries, List.not_mem_nil] at he
    · simp only [reduceCtorEq] at h
  | cons first rest =>
    rw [IsConfirmedInNPrevBlocks_cons]
    refine ⟨?_, ?_, ?_, ?_⟩
    · cases hf : (visitedEntries (first :: rest) nMaxDepth).find?
          (fun e => hashBlock == e.hashBlock) with
      | none =>
        refine ⟨fun h => absurd h Bool.false_ne_true, fun h => ?_⟩
        obtain ⟨e, he, hhash⟩ := h
        have := List.find?_eq_none.mp hf e he
        simp only [hhash, beq_self_eq_true, not_true_eq_false] at this
      | some e =>
        refine ⟨fun _ => ⟨e, List.mem_of_find?_eq_some hf, ?_⟩, fun _ => rfl⟩
        have := List.find?_some hf
        simp only [beq_iff_eq] at this
        exact this.symm
    · intro first2 rest2 e hcons hf
      rw [hf]
      cases hcons
      rfl
    · cases (visitedEntries (first :: rest) nMaxDepth).find?
          (fun e => hashBlock == e.hashBlock) with
      | none => exact fun _ => rfl
      | some e => exact fun h => absurd h.symm Bool.false_ne_true
    · intro hle
      have hv : visitedEntries (first :: rest) nMaxDepth = [] := by
        unfold visitedEntries
        dsimp only
        rw [List.takeWhile_cons]
        have : ¬ first.nHeight - first.nHeight < nMaxDepth := by omega
        simp only [this, decide_False, Bool.false_eq_true, if_false]
      rw [hv]
      rfl

/-- Witness for C34 on the example chain: within 11 entries of the tip the
block at height 95 (hash 5095) is found at depth 5, and the block at height
89 (hash 5089) is not found, the slot keeping its value 77. -/
theorem IsConfirmedInNPrevBlocks_spec_witness :
    IsConfirmedInNPrevBlocks 5095 exampleTip 11 77 = (true, 5)
      ∧ (IsConfirmedInNPrevBlocks 5089 exampleTip 11 77).2 = 77
      ∧ IsConfirmedInNPrevBlocks 5095 exampleTip 0 77 = (false, 77) :=
  ⟨(IsConfirmedInNPrevBlocks_spec 5095 exampleTip 11 77).2.1 (exampleEntry 100)
      (exampleIndex 99) (exampleEntry 95) rfl (by decide),
    (IsConfirmedInNPrevBlocks_spec 5089 exampleTip 11 77).2.2.1 (by decide),
    (IsConfirmedInNPrevBlocks_spec 5095 exampleTip 0 77).2.2.2 (by decide)⟩

/-- `CheckAge` on a non-null tip, by the first visited entry with the given
hash. -/
theorem CheckAge_cons (env : Env) (tip : BlockEntry) (rest : CBlockIndex)
    (hashKernelBlock : Nat) (nDepth : Int)
    (hh0 : 0 ≤ tip.nHeight) (hh1 : tip.nHeight < 2147483648)
    (hm : env.nStakeMinConfirmations ≤ 2147483648) :
    CheckAge env (tip :: rest) hashKernelBlock nDepth
      = match ((visitedEntries (tip :: rest)
            (RequiredDepth tip.nHeight env.nStakeMinConfirmations)).find?
            (fun e => hashKernelBlock == e.hashBlock)) with
        | some e => some (false, tip.nHeight - e.nHeight)
        | none => some (true, nDepth) := by
  unfold CheckAge
  dsimp only
  rw [nRequiredDepth_eq env.nStakeMinConfirmations tip.nHeight hh0 hh1 hm,
    IsConfirmedInNPrevBlocks_cons]
  cases (visitedEntries (tip :: rest)
    (RequiredDepth tip.nHeight env.nStakeMinConfirmations)).find?
    (fun e => hashKernelBlock == e.hashBlock) <;> rfl

/-- No entry is visited when the depth bound is zero or negative. -/
theorem visitedEntries_of_nonpos (pindexFrom : CBlockIndex) (nMaxDepth : Int)
    (hle : nMaxDepth ≤ 0) : visitedEntries pindexFrom nMaxDepth = [] := by
  cases pindexFrom with
  | nil => rfl
  | cons first rest =>
    unfold visitedEntries
    dsimp only
    rw [List.takeWhile_cons]
    have : ¬ first.nHeight - first.nHeight < nMaxDepth := by omega
    simp only [this, decide_False, Bool.false_eq_true, if_false]

/-- On consecutive heights the entries closer than `n` to a height `H`, seen
from an entry `k` blocks below `H`, are the next `n - k` entries. -/
theorem takeWhile_consecutive (H n : Int) (l : CBlockIndex) :
    ∀ k : Nat, consecutiveHeights l = true → (∀ a ∈ l.head?, a.nHeight = H - k) →
      l.takeWhile (fun e => decide (H - e.nHeight < n)) = l.take (n - k).toNat := by
  induction l with
  | nil => intro k _ _; simp
  | cons a rest ih =>
    intro k hc hhead
    have ha : a.nHeight = H - k := hhead a (by simp)
    rw [List.takeWhile_cons]
    by_cases hk : (k : Int) < n
    · have hd : H - a.nHeight < n := by omega
      have hrest : consecutiveHeights rest = true ∧ ∀ b ∈ rest.head?, b.nHeight
          = H - ((k + 1 : Nat) : Int) := by
        cases rest with
        | nil => exact ⟨rfl, by simp⟩
        | cons b rest2 =>
          simp only [consecutiveHeights, Bool.and_eq_true, beq_iff_eq] at hc
          refine ⟨hc.2, ?_⟩
          intro b2 hb2
          simp only [List.head?_cons, Option.mem_def, Option.some.injEq] at hb2
          subst hb2
          rw [hc.1, ha]
          push_cast
          ring
      have hsucc : (n - (k : Int)).toNat = (n - ((k + 1 : Nat) : Int)).toNat + 1 := by
        push_cast
        omega
      simp only [hd, decide_True, if_true]
      rw [ih (k + 1) hrest.1 hrest.2, hsucc, List.take_succ_cons]
    · have hd : ¬ H - a.nHeight < n := by omega
      have hzero : (n - (k : Int)).toNat = 0 := by omega
      simp only [hd, decide_False, Bool.false_eq_true, if_false, hzero, List.take_zero]

/-- C32: `CheckAge` accepts the age of every block hash that no visited entry
carries, the visited entries being the tip and its ancestors closer than
`RequiredDepth` (on consecutive heights: the first `RequiredDepth` entries of
the chain).  So it accepts a hash that no entry of the tip's chain carries,
the all-zero hash when no visited block has it, and every hash when
`RequiredDepth <= 0`. -/
theorem CheckAge_unvisited_hash (env : Env) (tip : BlockEntry) (rest : CBlockIndex)
    (nDepth : Int) (hh0 : 0 ≤ tip.nHeight) (hh1 : tip.nHeight < 2147483648)
    (hm : env.nStakeMinConfirmations ≤ 2147483648) :
    (∀ hash, (∀ e ∈ visitedEntries (tip :: rest)
          (RequiredDepth tip.nHeight env.nStakeMinConfirmations), e.hashBlock ≠ hash) →
        CheckAge env (tip :: rest) hash nDepth = some (true, nDepth))
    ∧ (consecutiveHeights (tip :: rest) = true →
        visitedEntries (tip :: rest) (RequiredDepth tip.nHeight env.nStakeMinConfirmations)
          = (tip :: rest).take
              (RequiredDepth tip.nHeight env.nStakeMinConfirmations).toNat)
    ∧ (∀ hash, (∀ e ∈ tip :: rest, e.hashBlock ≠ hash) →
        CheckAge env (tip :: rest) hash nDepth = some (true, nDepth))
    ∧ ((∀ e ∈ visitedEntries (tip :: rest)
          (RequiredDepth tip.nHeight env.nStakeMinConfirmations), e.hashBlock ≠ 0) →
        CheckAge env (tip :: rest) 0 nDepth = some (true, nDepth))
    ∧ (RequiredDepth tip.nHeight env.nStakeMinConfirmations ≤ 0 →
        ∀ hash, CheckAge env (tip :: rest) hash nDepth = some (true, nDepth)) := by
  have hmain : ∀ hash, (∀ e ∈ visitedEntries (tip :: rest)
      (RequiredDepth tip.nHeight env.nStakeMinConfirmations), e.hashBlock ≠ hash) →
      CheckAge env (tip :: rest) hash nDepth = some (true, nDepth) := by
    intro hash hno
    have hf : (visitedEntries (tip :: rest)
        (RequiredDepth tip.nHeight env.nStakeMinConfirmations)).find?
        (fun e => hash == e.hashBlock) = none := by
      rw [List.find?_eq_none]
      intro e he hbeq
      exact hno e he (beq_iff_eq.mp hbeq).symm
    rw [CheckAge_cons env tip rest hash nDepth hh0 hh1 hm, hf]
  refine ⟨hmain, ?_, ?_, hmain 0, ?_⟩
  · intro hc
    have h := takeWhile_consecutive tip.nHeight
      (RequiredDepth tip.nHeight env.nStakeMinConfirmations) (tip :: rest) 0 hc
      (by simp)
    simpa [visitedEntries] using h
  · intro hash hno
    apply hmain
    intro e he
    apply hno
    unfold visitedEntries at he
    exact (List.takeWhile_sublist _).subset he
  · intro hle hash
    apply hmain
    rw [visitedEntries_of_nonpos _ _ hle]
    intro e he
    simp only [List.not_mem_nil] at he

/-- Witness for C32 on the example chain: no block of the chain has the hash
4242, so `CheckAge` accepts it and leaves the depth slot at 77. -/
theorem CheckAge_unvisited_hash_witness :
    CheckAge exampleEnv exampleTip 4242 77 = some (true, 77) :=
  (CheckAge_unvisited_hash exampleEnv (exampleEntry 100) (exampleIndex 99) 77
    (by decide) (by decide) (by decide)).2.2.1 4242 (by decide)

/-- On consecutive heights every entry is lower than the entries before it. -/
theorem consecutiveHeights_pairwise (l : CBlockIndex) (hc : consecutiveHeights l = true) :
    l.Pairwise (fun a b => b.nHeight < a.nHeight) := by
  induction l with
  | nil => exact List.Pairwise.nil
  | cons a rest ih =>
    cases rest with
    | nil => exact List.pairwise_singleton _ _
    | cons b rest2 =>
      simp only [consecutiveHeights, Bool.and_eq_true, beq_iff_eq] at hc
      have hrest := ih hc.2
      refine List.Pairwise.cons ?_ hrest
      intro x hx
      rcases List.mem_cons.mp hx with hxb | hxr
      · rw [hxb]
        omega
      · have := List.rel_of_pairwise_cons hrest hxr
        omega

/-- The loop of `IsConfirmedInNPrevBlocks` on the hash of an entry of a chain
with decreasing heights and pairwise distinct hashes: the entry is found
exactly when it is closer than the depth bound. -/
theorem loop_of_mem (B : BlockEntry) (H n : Int) (l : CBlockIndex)
    (hdec : l.Pairwise (fun a b => b.nHeight < a.nHeight))
    (hnd : (l.map (fun e => e.hashBlock)).Nodup) (hB : B ∈ l) :
    IsConfirmedInNPrevBlocks.loop B.hashBlock H n l
      = if H - B.nHeight < n then some (H - B.nHeight) else none := by
  induction l with
  | nil => simp only [List.not_mem_nil] at hB
  | cons a rest ih =>
    rw [IsConfirmedInNPrevBlocks.loop]
    rcases List.mem_cons.mp hB with hBa | hBr
    · subst hBa
      simp only [beq_self_eq_true, if_true]
    · have hlt : B.nHeight < a.nHeight := List.rel_of_pairwise_cons hdec hBr
      have hne : (B.hashBlock == a.hashBlock) = false := by
        rw [beq_eq_false_iff_ne]
        intro heq
        rw [List.map_cons, List.nodup_cons] at hnd
        apply hnd.1
        rw [← heq]
        exact List.mem_map_of_mem (fun e => e.hashBlock) hBr
      rw [List.map_cons, List.nodup_cons] at hnd
      by_cases hd : H - a.nHeight < n
      · rw [if_pos hd, hne]
        simp only [Bool.false_eq_true, if_false]
        exact ih (List.Pairwise.of_cons hdec) hnd.2 hBr
      · rw [if_neg hd, if_neg (by omega)]

/-- C33: on a chain with consecutive heights and pairwise distinct hashes,
for a block B that is the tip or one of its ancestors, `CheckAge` on the hash
of B returns true exactly when tip height minus the height of B is at least
`RequiredDepth` (and otherwise returns false with that depth); the live-coin
path of `CheckProofOfStake` passes a coin created at the height of B under
the same condition and otherwise rejects it as invalid-stake-depth. -/
theorem depth_checks_agree (env : Env) (tip : BlockEntry) (rest : CBlockIndex)
    (B : BlockEntry) (nDepth : Int)
    (hc : consecutiveHeights (tip :: rest) = true)
    (hnd : ((tip :: rest).map (fun e => e.hashBlock)).Nodup)
    (hB : B ∈ tip :: rest)
    (hh0 : 0 ≤ tip.nHeight) (hh1 : tip.nHeight < 2147483648)
    (hm : env.nStakeMinConfirmations ≤ 2147483648) :
    CheckAge env (tip :: rest) B.hashBlock nDepth
        = (if RequiredDepth tip.nHeight env.nStakeMinConfirmations
              ≤ tip.nHeight - B.nHeight
            then some (true, nDepth) else some (false, tip.nHeight - B.nHeight))
    ∧ (∀ (tx : CTransaction) (txin : CTxIn) (ins : List CTxIn) (h0 t0 : Nat) (coin : Coin)
        (pindex : BlockEntry) (ptail : CBlockIndex),
        env.IsCoinStake tx = true → tx.vin = txin :: ins →
        liveCoin env txin.prevout = some coin →
        coin.nType = OutputType.OUTPUT_STANDARD →
        env.chainActive coin.nHeight = pindex :: ptail →
        (coin.nHeight : Int) = B.nHeight →
        CheckProofOfStake.resolve env (tip :: rest) tx h0 t0
          = (if RequiredDepth tip.nHeight env.nStakeMinConfirmations
                ≤ tip.nHeight - B.nHeight
              then some (.ok ⟨txin, coin.out.scriptPubKey, coin.out.nValue, pindex.nTime⟩)
              else some (.error (DoS 100 "invalid-stake-depth" h0 t0)))) := by
  have hreq := nRequiredDepth_eq env.nStakeMinConfirmations tip.nHeight hh0 hh1 hm
  refine ⟨?_, ?_⟩
  · unfold CheckAge IsConfirmedInNPrevBlocks
    dsimp only
    rw [hreq, loop_of_mem B tip.nHeight _ (tip :: rest)
      (consecutiveHeights_pairwise _ hc) hnd hB]
    by_cases hle : RequiredDepth tip.nHeight env.nStakeMinConfirmations
        ≤ tip.nHeight - B.nHeight
    · have hn : ¬ tip.nHeight - B.nHeight
          < RequiredDepth tip.nHeight env.nStakeMinConfirmations := by omega
      simp only [if_neg hn, if_pos hle, Bool.false_eq_true, if_false]
    · have hn : tip.nHeight - B.nHeight
          < RequiredDepth tip.nHeight env.nStakeMinConfirmations := by omega
      simp only [if_pos hn, if_neg hle, if_true]
  · intro tx txin ins h0 t0 coin pindex ptail hCS hvin hlive hstd hidx hheight
    rw [resolve_of_live env (tip :: rest) tx txin ins h0 t0 coin hCS hvin hlive, hidx]
    dsimp only
    rw [hreq, hheight]
    simp only [hstd, bne_self_eq_false, Bool.false_eq_true, if_false]
    by_cases hle : RequiredDepth tip.nHeight env.nStakeMinConfirmations
        ≤ tip.nHeight - B.nHeight
    · rw [if_neg (by omega), if_pos hle]
    · rw [if_pos (by omega), if_neg hle]

/-- Witness for C33 on the first 31 blocks of the example chain (required
depth 11): the block at height 19 is deep enough for `CheckAge`. -/
theorem depth_checks_agree_witness :
    CheckAge exampleEnv (exampleIndex 30) (exampleEntry 19).hashBlock 77 = some (true, 77) :=
  (depth_checks_agree exampleEnv (exampleEntry 30) (exampleIndex 29) (exampleEntry 19) 77
    (by decide) (by decide) (by decide) (by decide) (by decide) (by decide)).1

/-! ## Depth of a kernel coin without the coinstake opcode -/

/-- C12, evaluated on the example chain: the kernel outpoint (8, 0) is absent
from the live coin set and the historical lookup resolves it to a standard
output locked by a script without the coinstake opcode, in the tip block
(hash 5100, depth 0, required depth 11).  The depth check does not pass
(`CheckAge` on that block hash returns false), but `CheckProofOfStake` calls
`CheckAge` with the unassigned local `hashBlock`, goes on to the verifier and
the kernel check, and accepts the coinstake. -/
theorem non_coinstake_depth_not_enforced :
    otherEnv.HasIsCoinstakeOp otherScript = false
      ∧ liveCoin otherEnv ⟨8, 0⟩ = none
      ∧ resolveStandard otherEnv ⟨8, 0⟩ = some (otherScript, 10000)
      ∧ (otherEnv.GetTransaction 8).map (fun found => found.2.hash)
          = some (exampleEntry 100).hashBlock
      ∧ (exampleEntry 100).nHeight - 100
          < RequiredDepth (exampleEntry 100).nHeight otherEnv.nStakeMinConfirmations
      ∧ CheckAge otherEnv exampleTip 5100 0 = some (false, 0)
      ∧ CheckProofOfStake.resolve otherEnv exampleTip
          ⟨[⟨⟨8, 0⟩, otherScript, []⟩], [], 2⟩ 0 0
          = some (.ok ⟨⟨⟨8, 0⟩, otherScript, []⟩, otherScript, 10000, 2600⟩)
      ∧ (CheckProofOfStake otherEnv exampleTip ⟨[⟨⟨8, 0⟩, otherScript, []⟩], [], 2⟩
          2600 0x207fffff 0 0).map (fun r => (r.ret, r.state)) = some (true, ⟨0, ""⟩) :=
  ⟨by decide, by decide, by decide, by decide, by decide, by decide, rfl, by decide⟩

/-! ## Candidate time before the coin block time -/

end Falcon
